import Mathlib

/-!
Verification of the NFL live-stats refinement engine
(`server/src/data/refined_live_stats.py` and `server/src/data/helpers.py`).

The Python code manipulates parsed-JSON values, so the embedding is built on a
`Json` value type mirroring Python's view of a decoded document: `None`, bools,
ints, floats (kept as exact rationals), strings, lists and insertion-ordered
string-keyed dicts.  Fallible Python operations (attribute errors on non-dicts,
type errors on bad iteration, `int()` failures, ...) are modelled in an
`Except PyErr` monad; `try/except` blocks in the source become explicit
catches.  File-system reads are modelled by passing the parsed file contents as
arguments; timestamps (`now_iso()`) are passed as an argument.
-/

namespace P2P

/-- Decoded-JSON values as Python sees them.  `float` carries the float's exact
rational value; `obj` is an insertion-ordered association list with (by
construction) unique string keys, like a Python dict produced by `json.load`. -/
inductive Json where
  | null : Json
  | bool : Bool → Json
  | int : Int → Json
  | float : Rat → Json
  | str : String → Json
  | arr : List Json → Json
  | obj : List (String × Json) → Json
deriving Repr, Inhabited

mutual

/-- Structural equality of values (Python `==` restricted to same-type
comparisons; the source only ever compares strings and `None`). -/
def Json.beq : Json → Json → Bool
  | .null, .null => true
  | .bool a, .bool b => a == b
  | .int a, .int b => a == b
  | .float a, .float b => a == b
  | .str a, .str b => a == b
  | .arr a, .arr b => Json.beqList a b
  | .obj a, .obj b => Json.beqObj a b
  | _, _ => false

def Json.beqList : List Json → List Json → Bool
  | [], [] => true
  | x :: xs, y :: ys => Json.beq x y && Json.beqList xs ys
  | _, _ => false

def Json.beqObj : List (String × Json) → List (String × Json) → Bool
  | [], [] => true
  | (k1, v1) :: xs, (k2, v2) :: ys => k1 == k2 && Json.beq v1 v2 && Json.beqObj xs ys
  | _, _ => false

end

instance : BEq Json := ⟨Json.beq⟩

/-- Python runtime errors that the modelled code can raise. -/
inductive PyErr where
  | attributeError : PyErr
  | typeError : PyErr
  | keyError : PyErr
  | indexError : PyErr
  | valueError : PyErr
deriving Repr, DecidableEq, Inhabited

/-- Python truthiness of a value (`bool(x)`). -/
def Json.truthy : Json → Bool
  | .null => false
  | .bool b => b
  | .int n => n != 0
  | .float q => q != 0
  | .str s => s != ""
  | .arr l => !l.isEmpty
  | .obj m => !m.isEmpty

/-- First-match lookup in an association list with string keys. -/
def lookupA {α : Type} (m : List (String × α)) (k : String) : Option α :=
  match m with
  | [] => none
  | (k', v) :: rest => if k' = k then some v else lookupA rest k

/-- Python dict assignment `m[k] = v`: update in place if the key exists
(keeping its position), else append at the end. -/
def upsertA {α : Type} (m : List (String × α)) (k : String) (v : α) : List (String × α) :=
  match m with
  | [] => [(k, v)]
  | (k', v') :: rest => if k' = k then (k, v) :: rest else (k', v') :: upsertA rest k v

/-- Keys of an association list, in order. -/
def keysA {α : Type} (m : List (String × α)) : List String := m.map Prod.fst

/-- Python's default `str.strip()` whitespace set (ASCII subset). -/
def isPySpace (c : Char) : Bool :=
  c = ' ' || c = '\t' || c = '\n' || c = '\r' || c = '\x0b' || c = '\x0c'

/-- Python `s.strip()` (implemented over the character list so that the
kernel can evaluate it; Lean's `String.trim` does not reduce). -/
def pyStrip (s : String) : String :=
  String.mk (((s.toList.dropWhile isPySpace).reverse.dropWhile isPySpace).reverse)

/-- ASCII lower-casing of one character. -/
def charLower (c : Char) : Char :=
  if 'A' ≤ c && c ≤ 'Z' then Char.ofNat (c.toNat + 32) else c

/-- ASCII upper-casing of one character. -/
def charUpper (c : Char) : Char :=
  if 'a' ≤ c && c ≤ 'z' then Char.ofNat (c.toNat - 32) else c

/-- Python `s.lower()` (ASCII). -/
def pyLower (s : String) : String := String.mk (s.toList.map charLower)

/-- Python `s.upper()` (ASCII). -/
def pyUpper (s : String) : String := String.mk (s.toList.map charUpper)

/-- `s.replace(",", "")` as used by `coerce_number`. -/
def removeCommas (s : String) : String := String.mk (s.toList.filter (fun c => c ≠ ','))

/-- `s.endswith(suffix)`. -/
def strEndsWith (s suffix : String) : Bool := suffix.toList.isSuffixOf s.toList

/-- Substring containment (Python `needle in s` for strings). -/
def strContainsSub (s needle : String) : Bool :=
  (List.range (s.toList.length + 1)).any (fun i => needle.toList.isPrefixOf (s.toList.drop i))

/-- `x.get(k)` on a Python value: dict lookup defaulting to `None`; attribute
error on anything that is not a dict. -/
def pyGet (v : Json) (k : String) : Except PyErr Json :=
  match v with
  | .obj m => .ok ((lookupA m k).getD .null)
  | _ => .error .attributeError

/-- `x.get(k, d)` with an explicit default. -/
def pyGetD (v : Json) (k : String) (d : Json) : Except PyErr Json :=
  match v with
  | .obj m => .ok ((lookupA m k).getD d)
  | _ => .error .attributeError

/-- Python `a or b` on values (short-circuit truthiness choice). -/
def pyOr (a b : Json) : Json := if a.truthy then a else b

/-- Python `in` for the string needles the source uses: key membership for
dicts, element membership for lists, substring for strings, type error
otherwise. -/
def pyInStr (needle : String) (container : Json) : Except PyErr Bool :=
  match container with
  | .obj m => .ok ((lookupA m needle).isSome)
  | .arr l => .ok (l.contains (.str needle))
  | .str s => .ok (strContainsSub s needle)
  | _ => .error .typeError

/-- Python iteration `for x in v`: list elements, dict keys, string characters;
type error otherwise. -/
def pyIter (v : Json) : Except PyErr (List Json) :=
  match v with
  | .arr l => .ok l
  | .obj m => .ok (m.map (fun kv => .str kv.1))
  | .str s => .ok (s.toList.map (fun c => .str (String.mk [c])))
  | _ => .error .typeError

/-- Python indexing `v[i]` for a natural index (only `competitions[0]` is used
by the source).  JSON dicts have string keys, so indexing a dict with an int is
a `KeyError`. -/
def pyIndex (v : Json) (i : Nat) : Except PyErr Json :=
  match v with
  | .arr l => match l.get? i with
    | some x => .ok x
    | none => .error .indexError
  | .str s => match s.toList.get? i with
    | some c => .ok (.str (String.mk [c]))
    | none => .error .indexError
  | .obj _ => .error .keyError
  | _ => .error .typeError

/-- Least `k ≥ k₀` (within `fuel`) such that `n * 10^k` is divisible by `d`:
the number of decimal digits needed to render `n/d` exactly. -/
def decDigitsAux (fuel : Nat) (n d : Nat) (k : Nat) : Option Nat :=
  match fuel with
  | 0 => none
  | fuel' + 1 => if (n * 10 ^ k) % d == 0 then some k else decDigitsAux fuel' n d (k + 1)

/-- Rendering of a float value.  Binary floats are exactly representable as
terminating decimals, so the float is rendered as its exact decimal expansion
(Python prints the shortest round-tripping decimal; for the short decimals that
actually occur in payloads the two coincide). -/
def floatStr (q : Rat) : String :=
  if q.den == 1 then toString q.num ++ ".0"
  else
    let n := q.num.natAbs
    let d := q.den
    match decDigitsAux 64 n d 1 with
    | some k =>
      let digits := n * 10 ^ k / d
      let ds0 := (toString digits).toList
      let ds := if ds0.length ≤ k then List.replicate (k + 1 - ds0.length) '0' ++ ds0 else ds0
      (if q.num < 0 then "-" else "")
        ++ String.mk (ds.take (ds.length - k)) ++ "." ++ String.mk (ds.drop (ds.length - k))
    | none => toString q.num ++ "/" ++ toString q.den

mutual

/-- Python `repr` of a decoded-JSON value (string escaping is not modelled:
the payload strings the engine handles contain no quotes). -/
def pyRepr : Json → String
  | .null => "None"
  | .bool true => "True"
  | .bool false => "False"
  | .int n => toString n
  | .float q => floatStr q
  | .str s => "'" ++ s ++ "'"
  | .arr xs => "[" ++ pyReprList xs ++ "]"
  | .obj kvs => "\x7b" ++ pyReprObj kvs ++ "\x7d"

def pyReprList : List Json → String
  | [] => ""
  | [x] => pyRepr x
  | x :: xs => pyRepr x ++ ", " ++ pyReprList xs

def pyReprObj : List (String × Json) → String
  | [] => ""
  | [(k, v)] => "'" ++ k ++ "': " ++ pyRepr v
  | (k, v) :: xs => "'" ++ k ++ "': " ++ pyRepr v ++ ", " ++ pyReprObj xs

end

/-- Python `str(x)`: like `repr` but strings are passed through unquoted. -/
def pyStr : Json → String
  | .str s => s
  | v => pyRepr v

/-- Digit-sequence parser shared by `int()`/`float()`: digits with single
underscores allowed between digits.  Returns the value and the digit count. -/
def parseDigitsGo : List Char → Bool → Nat → Nat → Option (Nat × Nat)
  | [], lastDigit, acc, cnt => if lastDigit then some (acc, cnt) else none
  | c :: cs, lastDigit, acc, cnt =>
    if c.isDigit then parseDigitsGo cs true (acc * 10 + (c.toNat - 48)) (cnt + 1)
    else if c = '_' then (if lastDigit then parseDigitsGo cs false acc cnt else none)
    else none

/-- A possibly-empty digit sequence (used for the parts of a float literal). -/
def parseDigitsOpt (cs : List Char) : Option (Nat × Nat) :=
  match cs with
  | [] => some (0, 0)
  | _ => parseDigitsGo cs false 0 0

/-- A non-empty digit sequence. -/
def parseDigits (cs : List Char) : Option Nat :=
  (parseDigitsGo cs false 0 0).map Prod.fst

/-- Python `int(s)` on a string: strip, optional sign, digits. -/
def pyIntParse (s : String) : Option Int :=
  match (pyStrip s).toList with
  | '+' :: rest => (parseDigits rest).map Int.ofNat
  | '-' :: rest => (parseDigits rest).map (fun n => -(Int.ofNat n))
  | cs => (parseDigits cs).map Int.ofNat

/-- Unsigned float literal: `digits[.digits][(e|E)[sign]digits]` with at least
one mantissa digit.  (`inf`/`nan` are not representable in the rational model
and are treated as parse failures.) -/
def pyFloatParseUnsigned (cs : List Char) : Option Rat :=
  let splitAtExp : List Char × Option (List Char) :=
    match cs.findIdx? (fun c => c = 'e' || c = 'E') with
    | some i => (cs.take i, some (cs.drop (i + 1)))
    | none => (cs, none)
  let mant := splitAtExp.1
  let expPart := splitAtExp.2
  let splitAtDot : List Char × List Char :=
    match mant.findIdx? (fun c => c = '.') with
    | some i => (mant.take i, mant.drop (i + 1))
    | none => (mant, [])
  match parseDigitsOpt splitAtDot.1, parseDigitsOpt splitAtDot.2 with
  | some (ipv, ipc), some (fpv, fpc) =>
    if ipc + fpc == 0 then none
    else
      let base : Rat := (Rat.ofInt (Int.ofNat (ipv * 10 ^ fpc + fpv))) / (Rat.ofInt (Int.ofNat (10 ^ fpc)))
      match expPart with
      | none => some base
      | some ecs =>
        let signedExp : Option Int :=
          match ecs with
          | '+' :: rest => (parseDigits rest).map Int.ofNat
          | '-' :: rest => (parseDigits rest).map (fun n => -(Int.ofNat n))
          | rest => (parseDigits rest).map Int.ofNat
        match signedExp with
        | some e =>
          some (if 0 ≤ e then base * (Rat.ofInt (Int.ofNat (10 ^ e.natAbs)))
                else base / (Rat.ofInt (Int.ofNat (10 ^ e.natAbs))))
        | none => none
  | _, _ => none

/-- Python `float(s)` on a string: strip, optional sign, float literal. -/
def pyFloatParse (s : String) : Option Rat :=
  match (pyStrip s).toList with
  | '+' :: rest => pyFloatParseUnsigned rest
  | '-' :: rest => (pyFloatParseUnsigned rest).map Neg.neg
  | cs => pyFloatParseUnsigned cs

/-- `helpers.coerce_number`: return int/float when possible, else the original
string; `None`/empty-like → 0.  (`isinstance(val, (int, float))` is true for
Python bools, so bools pass through unchanged.) -/
def coerce_number (val : Json) : Json :=
  match val with
  | .null => .int 0
  | .bool b => .bool b
  | .int n => .int n
  | .float q => .float q
  | v =>
    let s := pyStrip (pyStr v)
    if s = "" || s = "--" || s = "-" || s = "N/A" then .int 0
    else
      let s2 := removeCommas s
      match pyIntParse s2 with
      | some n => .int n
      | none =>
        match pyFloatParse s2 with
        | some q => .float q
        | none => .str s

/-- Python `int(x)` on a value: bools count as ints; floats truncate toward
zero; strings parse; everything else raises. -/
def pyIntE (v : Json) : Except PyErr Int :=
  match v with
  | .bool b => .ok (if b then 1 else 0)
  | .int n => .ok n
  | .float q => .ok (Int.tdiv q.num (Int.ofNat q.den))
  | .str s =>
    match pyIntParse s with
    | some n => .ok n
    | none => .error .valueError
  | .null => .error .typeError
  | .arr _ => .error .typeError
  | .obj _ => .error .typeError

/-- A category's field map: canonical field name → value. -/
abbrev FieldMap := List (String × Json)

/-- A stats container: category name → field map (an insertion-ordered dict of
dicts, as built by the engine). -/
abbrev Stats := List (String × FieldMap)

/-- A parsed raw stat record: raw key → coerced value.  Keys are raw `Json`
values because raw `keys[]` lists may hold non-strings. -/
abbrev Parsed := List (Json × Json)

/-- `helpers.DEFAULT_CATEGORIES`. -/
def DEFAULT_CATEGORIES : Stats := [
  ("passing", [
    ("completions/passingAttempts", .str "0/0"),
    ("passingYards", .int 0),
    ("yardsPerPassAttempt", .int 0),
    ("passingTouchdowns", .int 0),
    ("interceptions", .int 0),
    ("sacks-sackYardsLost", .str "0-0"),
    ("adjQBR", .int 0),
    ("QBRating", .int 0)]),
  ("rushing", [
    ("rushingAttempts", .int 0),
    ("rushingYards", .int 0),
    ("yardsPerRushAttempt", .int 0),
    ("rushingTouchdowns", .int 0),
    ("longRushing", .int 0)]),
  ("receiving", [
    ("receptions", .int 0),
    ("receivingYards", .int 0),
    ("yardsPerReception", .int 0),
    ("receivingTouchdowns", .int 0),
    ("longReception", .int 0),
    ("receivingTargets", .int 0)]),
  ("fumbles", [
    ("fumbles", .int 0),
    ("fumblesLost", .int 0),
    ("fumblesRecovered", .int 0)]),
  ("defensive", [
    ("totalTackles", .int 0),
    ("soloTackles", .int 0),
    ("sacks", .int 0),
    ("tacklesForLoss", .int 0),
    ("passesDefended", .int 0),
    ("QBHits", .int 0),
    ("defensiveTouchdowns", .int 0)]),
  ("interceptions", [
    ("interceptions", .int 0),
    ("interceptionYards", .int 0),
    ("interceptionTouchdowns", .int 0)]),
  ("kickReturns", [
    ("kickReturns", .int 0),
    ("kickReturnYards", .int 0),
    ("yardsPerKickReturn", .int 0),
    ("longKickReturn", .int 0),
    ("kickReturnTouchdowns", .int 0)]),
  ("puntReturns", [
    ("puntReturns", .int 0),
    ("puntReturnYards", .int 0),
    ("yardsPerPuntReturn", .int 0),
    ("longPuntReturn", .int 0),
    ("puntReturnTouchdowns", .int 0)]),
  ("kicking", [
    ("fieldGoalsMade/fieldGoalAttempts", .str "0/0"),
    ("fieldGoalPct", .int 0),
    ("longFieldGoalMade", .int 0),
    ("extraPointsMade/extraPointAttempts", .str "0/0"),
    ("totalKickingPoints", .int 0)]),
  ("punting", [
    ("punts", .int 0),
    ("puntYards", .int 0),
    ("grossAvgPuntYards", .int 0),
    ("touchbacks", .int 0),
    ("puntsInside20", .int 0),
    ("longPunt", .int 0)])]

/-- `v if isinstance(v, str) else 0` (the zero-default of a field). -/
def strOrZero (v : Json) : Json :=
  match v with
  | .str s => .str s
  | _ => .int 0

/-- `_init_target_stats`: a copy of `DEFAULT_CATEGORIES` preserving the
special string defaults and zeroing the rest. -/
def init_target_stats : Stats :=
  DEFAULT_CATEGORIES.map (fun cv => (cv.1, cv.2.map (fun kv => (kv.1, strOrZero kv.2))))

/-- Lookup of a string key in a raw-keyed parsed record (`parsed.get(name)`
yields `None` when absent). -/
def lookupJ (m : Parsed) (k : String) : Option Json :=
  match m with
  | [] => none
  | (kk, v) :: rest => if Json.beq kk (.str k) then some v else lookupJ rest k

/-- Python dict assignment for raw-keyed records (update in place or append). -/
def upsertJ (m : Parsed) (k v : Json) : Parsed :=
  match m with
  | [] => [(k, v)]
  | (k', v') :: rest => if Json.beq k' k then (k', v) :: rest else (k', v') :: upsertJ rest k v

/-- The `nz` helper of `_apply_category_mappings`:
`coerce_number(parsed.get(name))`. -/
def nzP (parsed : Parsed) (name : String) : Json :=
  coerce_number ((lookupJ parsed name).getD .null)

/-- `target[cat][field] = v`: a `KeyError` when the category is missing from
`target`, otherwise an in-place update of the category's field map. -/
def setF (st : Stats) (cat f : String) (v : Json) : Except PyErr Stats :=
  match lookupA st cat with
  | none => .error .keyError
  | some m => .ok (upsertA st cat (upsertA m f v))

/-- `if v: target[cat][f] = v` — write a value only when truthy. -/
def write_if_truthy (st : Stats) (c f : String) (v : Json) : Except PyErr Stats :=
  if v.truthy then setF st c f v else pure st

/-- The passing completions/attempts step: prefer a non-blank combined raw
field verbatim, else synthesize `"{comp}/{att}"` when a component is truthy. -/
def passing_combined_step (target : Stats) (parsed : Parsed) : Except PyErr Stats :=
  let ca := (lookupJ parsed "completions/passingAttempts").getD .null
  if !(Json.beq ca .null) && pyStrip (pyStr ca) != "" then
    setF target "passing" "completions/passingAttempts" ca
  else
    let comp := nzP parsed "completions"
    let att := nzP parsed "attempts"
    if comp.truthy || att.truthy then
      setF target "passing" "completions/passingAttempts"
        (.str (pyStr comp ++ "/" ++ pyStr att))
    else pure target

/-- The passing sacks/sack-yards-lost step. -/
def passing_sacks_step (st : Stats) (parsed : Parsed) : Except PyErr Stats :=
  let sc := (lookupJ parsed "sacks-sackYardsLost").getD .null
  if !(Json.beq sc .null) && pyStrip (pyStr sc) != "" then
    setF st "passing" "sacks-sackYardsLost" sc
  else
    let sacks := nzP parsed "sacks"
    let syl := pyOr (nzP parsed "sackYardsLost") (nzP parsed "sackYards")
    if sacks.truthy || syl.truthy then
      setF st "passing" "sacks-sackYardsLost" (.str (pyStr sacks ++ "-" ++ pyStr syl))
    else pure st

/-- The kicking field-goals combined step. -/
def kicking_fg_step (target : Stats) (parsed : Parsed) : Except PyErr Stats :=
  let fg := (lookupJ parsed "fieldGoalsMade/fieldGoalAttempts").getD .null
  if !(Json.beq fg .null) && pyStrip (pyStr fg) != "" then
    setF target "kicking" "fieldGoalsMade/fieldGoalAttempts" fg
  else
    let fgm := nzP parsed "fgm"
    let fga := nzP parsed "fga"
    if fgm.truthy || fga.truthy then
      setF target "kicking" "fieldGoalsMade/fieldGoalAttempts"
        (.str (pyStr fgm ++ "/" ++ pyStr fga))
    else pure target

/-- The kicking extra-points combined step. -/
def kicking_xp_step (st : Stats) (parsed : Parsed) : Except PyErr Stats :=
  let xp := (lookupJ parsed "extraPointsMade/extraPointAttempts").getD .null
  if !(Json.beq xp .null) && pyStrip (pyStr xp) != "" then
    setF st "kicking" "extraPointsMade/extraPointAttempts" xp
  else
    let xpm := nzP parsed "xpm"
    let xpa := nzP parsed "xpa"
    if xpm.truthy || xpa.truthy then
      setF st "kicking" "extraPointsMade/extraPointAttempts"
        (.str (pyStr xpm ++ "/" ++ pyStr xpa))
    else pure st

/-- The `passing` branch of `_apply_category_mappings`. -/
def apply_passing (target : Stats) (parsed : Parsed) : Except PyErr Stats := do
  let t1 ← passing_combined_step target parsed
  let t2 ← setF t1 "passing" "passingYards" (pyOr (nzP parsed "passingYards") (nzP parsed "yards"))
  let t3 ← setF t2 "passing" "yardsPerPassAttempt"
    (pyOr (nzP parsed "yardsPerPassAttempt") (nzP parsed "yardsPerAttempt"))
  let t4 ← setF t3 "passing" "passingTouchdowns"
    (pyOr (nzP parsed "passingTouchdowns") (nzP parsed "touchdowns"))
  let t5 ← setF t4 "passing" "interceptions" (nzP parsed "interceptions")
  let t6 ← passing_sacks_step t5 parsed
  let t7 ← setF t6 "passing" "adjQBR" (pyOr (nzP parsed "adjQBR") (nzP parsed "qbr"))
  let t8 ← setF t7 "passing" "QBRating"
    (pyOr (pyOr (nzP parsed "QBRating") (nzP parsed "rating")) (nzP parsed "passerRating"))
  pure t8

/-- The `rushing` branch of `_apply_category_mappings`. -/
def apply_rushing (target : Stats) (parsed : Parsed) : Except PyErr Stats := do
  let t1 ← setF target "rushing" "rushingAttempts"
    (pyOr (nzP parsed "rushingAttempts") (nzP parsed "attempts"))
  let t2 ← setF t1 "rushing" "rushingYards" (pyOr (nzP parsed "rushingYards") (nzP parsed "yards"))
  let t3 ← setF t2 "rushing" "yardsPerRushAttempt"
    (pyOr (nzP parsed "yardsPerRushAttempt") (nzP parsed "yardsPerCarry"))
  let t4 ← setF t3 "rushing" "rushingTouchdowns"
    (pyOr (nzP parsed "rushingTouchdowns") (nzP parsed "touchdowns"))
  let t5 ← setF t4 "rushing" "longRushing" (pyOr (nzP parsed "longRushing") (nzP parsed "longest"))
  pure t5

/-- The `receiving` branch of `_apply_category_mappings`. -/
def apply_receiving (target : Stats) (parsed : Parsed) : Except PyErr Stats := do
  let t1 ← setF target "receiving" "receptions" (nzP parsed "receptions")
  let t2 ← setF t1 "receiving" "receivingYards"
    (pyOr (nzP parsed "receivingYards") (nzP parsed "yards"))
  let t3 ← setF t2 "receiving" "yardsPerReception" (nzP parsed "yardsPerReception")
  let t4 ← setF t3 "receiving" "receivingTouchdowns"
    (pyOr (nzP parsed "receivingTouchdowns") (nzP parsed "touchdowns"))
  let t5 ← setF t4 "receiving" "longReception"
    (pyOr (nzP parsed "longReception") (nzP parsed "longest"))
  let t6 ← setF t5 "receiving" "receivingTargets"
    (pyOr (nzP parsed "receivingTargets") (nzP parsed "targets"))
  pure t6

/-- The `fumbles` branch of `_apply_category_mappings`. -/
def apply_fumbles (target : Stats) (parsed : Parsed) : Except PyErr Stats := do
  let t1 ← setF target "fumbles" "fumbles" (nzP parsed "fumbles")
  let t2 ← setF t1 "fumbles" "fumblesLost" (pyOr (nzP parsed "fumblesLost") (nzP parsed "lost"))
  let t3 ← setF t2 "fumbles" "fumblesRecovered"
    (pyOr (nzP parsed "fumblesRecovered") (nzP parsed "recovered"))
  pure t3

/-- The `defense` branch of `_apply_category_mappings`. -/
def apply_defense (target : Stats) (parsed : Parsed) : Except PyErr Stats := do
  let t1 ← setF target "defensive" "totalTackles"
    (pyOr (nzP parsed "totalTackles") (nzP parsed "tackles"))
  let t2 ← setF t1 "defensive" "soloTackles" (nzP parsed "soloTackles")
  let t3 ← setF t2 "defensive" "sacks" (nzP parsed "sacks")
  let t4 ← setF t3 "defensive" "tacklesForLoss"
    (pyOr (nzP parsed "tacklesForLoss") (nzP parsed "tfl"))
  let t5 ← setF t4 "defensive" "passesDefended" (nzP parsed "passesDefended")
  let t6 ← setF t5 "defensive" "QBHits" (nzP parsed "qbHits")
  let t7 ← setF t6 "defensive" "defensiveTouchdowns" (nzP parsed "touchdowns")
  let t8 ← write_if_truthy t7 "interceptions" "interceptions" (nzP parsed "interceptions")
  let t9 ← write_if_truthy t8 "interceptions" "interceptionYards"
    (pyOr (nzP parsed "interceptionYards") (nzP parsed "yards"))
  let t10 ← write_if_truthy t9 "interceptions" "interceptionTouchdowns"
    (pyOr (nzP parsed "interceptionTouchdowns") (nzP parsed "touchdowns"))
  pure t10

/-- The `interceptions` branch of `_apply_category_mappings`. -/
def apply_interceptions (target : Stats) (parsed : Parsed) : Except PyErr Stats := do
  let t1 ← setF target "interceptions" "interceptions"
    (pyOr (nzP parsed "interceptions") (nzP parsed "picks"))
  let t2 ← setF t1 "interceptions" "interceptionYards"
    (pyOr (nzP parsed "interceptionYards") (nzP parsed "yards"))
  let t3 ← setF t2 "interceptions" "interceptionTouchdowns"
    (pyOr (nzP parsed "touchdowns") (nzP parsed "interceptionTouchdowns"))
  pure t3

/-- The `kickreturns` branch of `_apply_category_mappings`. -/
def apply_kickreturns (target : Stats) (parsed : Parsed) : Except PyErr Stats := do
  let t1 ← setF target "kickReturns" "kickReturns"
    (pyOr (nzP parsed "kickReturns") (nzP parsed "returns"))
  let t2 ← setF t1 "kickReturns" "kickReturnYards"
    (pyOr (nzP parsed "kickReturnYards") (nzP parsed "yards"))
  let t3 ← setF t2 "kickReturns" "yardsPerKickReturn"
    (pyOr (nzP parsed "yardsPerKickReturn") (nzP parsed "average"))
  let t4 ← setF t3 "kickReturns" "longKickReturn"
    (pyOr (nzP parsed "longKickReturn") (nzP parsed "longest"))
  let t5 ← setF t4 "kickReturns" "kickReturnTouchdowns"
    (pyOr (nzP parsed "kickReturnTouchdowns") (nzP parsed "touchdowns"))
  pure t5

/-- The `puntreturns` branch of `_apply_category_mappings`. -/
def apply_puntreturns (target : Stats) (parsed : Parsed) : Except PyErr Stats := do
  let t1 ← setF target "puntReturns" "puntReturns"
    (pyOr (nzP parsed "puntReturns") (nzP parsed "returns"))
  let t2 ← setF t1 "puntReturns" "puntReturnYards"
    (pyOr (nzP parsed "puntReturnYards") (nzP parsed "yards"))
  let t3 ← setF t2 "puntReturns" "yardsPerPuntReturn"
    (pyOr (nzP parsed "yardsPerPuntReturn") (nzP parsed "average"))
  let t4 ← setF t3 "puntReturns" "longPuntReturn"
    (pyOr (nzP parsed "longPuntReturn") (nzP parsed "longest"))
  let t5 ← setF t4 "puntReturns" "puntReturnTouchdowns"
    (pyOr (nzP parsed "puntReturnTouchdowns") (nzP parsed "touchdowns"))
  pure t5

/-- The `kicking` branch of `_apply_category_mappings`. -/
def apply_kicking (target : Stats) (parsed : Parsed) : Except PyErr Stats := do
  let t1 ← kicking_fg_step target parsed
  let t2 ← setF t1 "kicking" "fieldGoalPct" (pyOr (nzP parsed "fieldGoalPct") (nzP parsed "fgPct"))
  let t3 ← setF t2 "kicking" "longFieldGoalMade"
    (pyOr (nzP parsed "longFieldGoalMade") (nzP parsed "longest"))
  let t4 ← kicking_xp_step t3 parsed
  let t5 ← setF t4 "kicking" "totalKickingPoints"
    (pyOr (nzP parsed "totalKickingPoints") (nzP parsed "points"))
  pure t5

/-- The `punting` branch of `_apply_category_mappings`. -/
def apply_punting (target : Stats) (parsed : Parsed) : Except PyErr Stats := do
  let t1 ← setF target "punting" "punts" (nzP parsed "punts")
  let t2 ← setF t1 "punting" "puntYards" (pyOr (nzP parsed "puntYards") (nzP parsed "yards"))
  let t3 ← setF t2 "punting" "grossAvgPuntYards"
    (pyOr (nzP parsed "grossAvgPuntYards") (nzP parsed "average"))
  let t4 ← setF t3 "punting" "touchbacks" (nzP parsed "touchbacks")
  let t5 ← setF t4 "punting" "puntsInside20"
    (pyOr (nzP parsed "puntsInside20") (nzP parsed "inside20"))
  let t6 ← setF t5 "punting" "longPunt" (pyOr (nzP parsed "longPunt") (nzP parsed "longest"))
  pure t6

/-- `_apply_category_mappings`: map an ESPN category + parsed record into the
target schema.  Raises only where Python would (lower-casing a non-string
category name, or a `KeyError` on a target missing a default category). -/
def apply_category_mappings (target : Stats) (cat_name : Json) (parsed : Parsed) :
    Except PyErr Stats :=
  if parsed.isEmpty then .ok target
  else match pyOr cat_name (.str "") with
  | .str cnRaw =>
    let cn := pyLower cnRaw
    if cn = "passing" then apply_passing target parsed
    else if cn = "rushing" then apply_rushing target parsed
    else if cn = "receiving" then apply_receiving target parsed
    else if cn = "fumbles" then apply_fumbles target parsed
    else if cn = "defense" || cn = "defensive" then apply_defense target parsed
    else if cn = "interceptions" then apply_interceptions target parsed
    else if cn = "kickreturns" then apply_kickreturns target parsed
    else if cn = "puntreturns" then apply_puntreturns target parsed
    else if cn = "kicking" then apply_kicking target parsed
    else if cn = "punting" then apply_punting target parsed
    else .ok target
  | _ => .error .attributeError
/-- A canonical player as built by the engine (dict with fixed keys
`athleteId/fullName/position/jersey/headshot/stats`).  `athleteId` is always a
string by construction; the other metadata keep their raw values. -/
structure PlayerEntry where
  athleteId : String
  fullName : Json
  position : Json
  jersey : Json
  headshot : Json
  stats : Stats
deriving Repr

/-- A team's players container: a dict keyed by athlete identity during
construction, a list in the serialized document. -/
inductive PlayersCont where
  | dict : List (String × PlayerEntry) → PlayersCont
  | list : List PlayerEntry → PlayersCont
deriving Repr

/-- A canonical team as built by the engine.  `homeAway`/`displayOrder` are
`none` when the key is absent from the serialized dict. -/
structure TeamEntry where
  teamId : String
  abbreviation : Json
  displayName : Json
  score : Json
  stats : Stats
  players : PlayersCont
  possession : Bool
  homeAway : Option Json
  displayOrder : Option Json
deriving Repr

/-- The canonical per-game document.  `source`/`status`/`period`/`note` are
`none` when the corresponding key is absent (the no-boxscore document has only
`eventId`, `generatedAt`, `teams` and `note`; the full document has all but
`note`).  `period = some none` is a present key holding JSON `null`. -/
structure RefinedDoc where
  eventId : String
  generatedAt : String
  source : Option String
  status : Option String
  period : Option (Option Int)
  teams : List TeamEntry
  note : Option String
deriving Repr

/-- Roster metadata for one athlete (`_load_roster_players` output values). -/
structure PlayerMeta where
  athleteId : String
  fullName : Json
  position : Json
  jersey : Json
  headshot : Json
deriving Repr

/-- The in-progress team dict of `refine_boxscore` (`teams_out`), keyed by
team id. -/
abbrev TeamsOut := List (String × TeamEntry)

/-- Update the team stored under a key (no-op when absent). -/
def updTeam (teams : TeamsOut) (tid : String) (f : TeamEntry → TeamEntry) : TeamsOut :=
  teams.map (fun kv => if kv.1 = tid then (kv.1, f kv.2) else kv)

/-- `_get_boxscore_root`: locate the boxscore inside the raw payload.  Returns
`Json.null` for Python `None`. -/
def get_boxscore_root (data : Json) : Except PyErr Json := do
  if !data.truthy then return .null
  let c1 ← pyInStr "players" data
  let c2 ← if c1 then pyInStr "teams" data else pure false
  if c1 && c2 then return data
  let hasB ← pyInStr "boxscore" data
  if hasB then return (← pyGet data "boxscore")
  let tryRes : Except PyErr (Option Json) := do
    let summary ← pyGet data "summary"
    match summary with
    | .obj m =>
      if (lookupA m "boxscore").isSome then pure (some ((lookupA m "boxscore").getD .null))
      else pure none
    | _ => pure none
  match tryRes with
  | .ok (some b) => return b
  | _ => return .null

/-- `_extract_team_meta`: (team id as string, raw abbreviation, raw name).
Note `str(None) = "None"`: a truthy team object without an `id` yields the
team id `"None"`. -/
def extract_team_meta (team_obj : Json) : Except PyErr (String × Json × Json) := do
  if team_obj.truthy then
    let idv ← pyGet team_obj "id"
    let ab ← pyGet team_obj "abbreviation"
    let nm ← pyGet team_obj "displayName"
    pure (pyStr idv, ab, nm)
  else pure ("", .str "", .str "")

/-- `_extract_athlete_meta`. -/
def extract_athlete_meta (a : Json) : Except PyErr PlayerMeta := do
  let ath ← if a.truthy then pyGetD a "athlete" (.obj []) else pure (.obj [])
  let pos := pyOr (← pyGet ath "position") (.obj [])
  let idv ← pyGet ath "id"
  let athleteId := if Json.beq idv .null then "" else pyStr idv
  let fullName := pyOr (← pyGet ath "displayName") (pyOr (← pyGet ath "fullName") (.str ""))
  let position := pyOr (← pyGet pos "abbreviation") (pyOr (← pyGet pos "name") (.str ""))
  let jersey := pyOr (← pyGet ath "jersey") (.str "")
  let hs ← pyGet ath "headshot"
  let headshot :=
    match hs with
    | .obj m => (lookupA m "href").getD .null
    | _ => .str ""
  pure ⟨athleteId, fullName, position, jersey, headshot⟩

/-- `{k: coerce_number(vals[i]) if i < len(vals) else 0 for i, k in
enumerate(keys)}`. -/
def mkPaired (ks vals : List Json) : Parsed :=
  ks.enum.foldl (fun acc iv =>
    upsertJ acc iv.2
      (match vals.get? iv.1 with
       | some v => coerce_number v
       | none => .int 0)) []

/-- `_parse_athlete_stats_for_category`. -/
def parse_athlete_stats_for_category (stat_cat athlete_entry : Json) : Except PyErr Parsed := do
  let keys := pyOr (← pyGet stat_cat "keys") (.arr [])
  let stats_val ← pyGet athlete_entry "stats"
  match stats_val, keys.truthy with
  | .arr svals, true => do
    let ks ← pyIter keys
    pure (mkPaired ks svals)
  | .obj m, _ => pure (m.map (fun kv => (Json.str kv.1, coerce_number kv.2)))
  | _, _ => do
    let totals ← pyGet athlete_entry "totals"
    match totals, keys.truthy with
    | .arr tv, true => do
      let ks ← pyIter keys
      pure (mkPaired ks tv)
    | _, _ => pure []

/-- `_parse_category_totals`. -/
def parse_category_totals (stat_cat : Json) : Except PyErr Parsed := do
  let keys := pyOr (← pyGet stat_cat "keys") (.arr [])
  let totals ← pyGet stat_cat "totals"
  match totals, keys.truthy with
  | .arr tv, true => do
    let ks ← pyIter keys
    pure (mkPaired ks tv)
  | .obj m, _ => pure (m.map (fun kv => (Json.str kv.1, coerce_number kv.2)))
  | _, _ => pure []

/-- `_ensure_team_entry`: get-or-create the team container, backfilling only
missing baseline fields but recomputing `possession` on every call.  (The
`isinstance(entry["stats"], dict)` reset never fires in the typed model, where
`stats` is always a dict.) -/
def ensure_team_entry (teams : TeamsOut) (team_id : String) (abbr name : Json)
    (scores : List (String × Json)) (possession_map : List (String × Bool)) : TeamsOut :=
  match lookupA teams team_id with
  | some entry =>
    let e := entry
    let e := if abbr.truthy && !e.abbreviation.truthy then { e with abbreviation := abbr } else e
    let e := if name.truthy && !e.displayName.truthy then { e with displayName := name } else e
    let e := if e.teamId = "" then { e with teamId := team_id } else e
    let e := if Json.beq e.score .null then
        { e with score := (lookupA scores team_id).getD (.int 0) } else e
    let e := { e with possession := ((lookupA possession_map team_id).getD false) }
    let e := match e.players with
      | .dict _ => e
      | .list _ => { e with players := .dict [] }
    upsertA teams team_id e
  | none =>
    upsertA teams team_id {
      teamId := team_id
      abbreviation := abbr
      displayName := name
      score := (lookupA scores team_id).getD (.int 0)
      stats := init_target_stats
      players := .dict []
      possession := ((lookupA possession_map team_id).getD false)
      homeAway := none
      displayOrder := none }

/-- Accumulated `scores` / `possession_map` dicts of `refine_boxscore`. -/
abbrev ScoresAcc := (List (String × Json)) × (List (String × Bool))

/-- One competitor of the scores pre-extraction.  An exception aborts the
surrounding `try` block, keeping the entries accumulated so far (all failure
points precede the mutations). -/
def scores_competitor (acc : ScoresAcc) (c : Json) : Except ScoresAcc ScoresAcc :=
  let inner : Except PyErr ScoresAcc := do
    let tinfo := pyOr (← pyGetD c "team" (.obj [])) (.obj [])
    let idv ← pyGet tinfo "id"
    let tid := if Json.beq idv .null then "" else pyStr idv
    if tid = "" then pure acc
    else do
      let sc ← pyGet c "score"
      let acc1 := if Json.beq sc .null then acc.1 else upsertA acc.1 tid (coerce_number sc)
      let poss ← pyGet c "possession"
      pure (acc1, upsertA acc.2 tid poss.truthy)
  match inner with
  | .ok a => .ok a
  | .error _ => .error acc

/-- One competition of the scores pre-extraction. -/
def scores_comp (acc : ScoresAcc) (comp : Json) : Except ScoresAcc ScoresAcc :=
  match pyGetD comp "competitors" (.arr []) with
  | .error _ => .error acc
  | .ok cv =>
    match pyIter cv with
    | .error _ => .error acc
    | .ok cs => cs.foldlM scores_competitor acc

/-- The `try`-wrapped scores/possession pre-extraction of `refine_boxscore`
(lines 424–439): a swallowed exception keeps whatever was accumulated. -/
def extract_scores_possession (raw : Json) : ScoresAcc :=
  let start : Except PyErr Json := do
    let header := pyOr (← pyGet raw "header") (.obj [])
    pure (pyOr (← pyGet header "competitions") (.arr []))
  let inner : Except ScoresAcc ScoresAcc :=
    match start with
    | .error _ => .error ([], [])
    | .ok comps =>
      match comps with
      | .arr cl => cl.foldlM scores_comp ([], [])
      | _ => .ok ([], [])
  match inner with
  | .ok a => a
  | .error a => a

/-- One athlete record of the players pass.  `temp_player_targets` aliases the
player's stats dict, so `_apply_category_mappings` on it is an in-place update
of that player's stats. -/
def process_athlete (tid : String) (stat_cat cat_name : Json) (teams : TeamsOut) (a : Json) :
    Except PyErr TeamsOut := do
  let meta ← extract_athlete_meta a
  let raw_aid := meta.athleteId
  let athlete_key := if raw_aid ≠ "" then raw_aid else "name:" ++ pyStr meta.fullName
  match lookupA teams tid with
  | none => .error .keyError
  | some e =>
    match e.players with
    | .list _ => .error .typeError
    | .dict m =>
      let m1 :=
        if (lookupA m athlete_key).isNone then
          upsertA m athlete_key
            ⟨raw_aid, meta.fullName, meta.position, meta.jersey, meta.headshot, init_target_stats⟩
        else m
      let parsed ← parse_athlete_stats_for_category stat_cat a
      match lookupA m1 athlete_key with
      | none => .error .keyError
      | some p => do
        let st ← apply_category_mappings p.stats cat_name parsed
        let m2 := upsertA m1 athlete_key { p with stats := st }
        pure (upsertA teams tid { e with players := .dict m2 })

/-- One statistics category of the players pass: team totals into the team's
stats, then each athlete. -/
def process_stat_cat (tid : String) (teams : TeamsOut) (stat_cat : Json) :
    Except PyErr TeamsOut := do
  let cat_name := pyOr (← pyGet stat_cat "name") (.str "unknown")
  let team_totals ← parse_category_totals stat_cat
  let teams1 ←
    if !team_totals.isEmpty then
      match lookupA teams tid with
      | none => .error .keyError
      | some e => do
        let st ← apply_category_mappings e.stats cat_name team_totals
        pure (upsertA teams tid { e with stats := st })
    else pure teams
  let av ← pyGetD stat_cat "athletes" (.arr [])
  let athletes ← pyIter av
  athletes.foldlM (process_athlete tid stat_cat cat_name) teams1

/-- One team block of the players pass (`for team_block in box.get("players", [])`). -/
def process_team_block (scores : List (String × Json)) (possession : List (String × Bool))
    (teams : TeamsOut) (team_block : Json) : Except PyErr TeamsOut := do
  let team_meta ← pyGetD team_block "team" (.obj [])
  let tm ← extract_team_meta team_meta
  if tm.1 = "" then pure teams
  else do
    let teams1 := ensure_team_entry teams tm.1 tm.2.1 tm.2.2 scores possession
    let sv ← pyGetD team_block "statistics" (.arr [])
    let stat_cats ← pyIter sv
    stat_cats.foldlM (process_stat_cat tm.1) teams1

/-- One team block of the teams pass (`for team_block in box.get("teams", [])`):
ensure the team exists, then set `homeAway`/`displayOrder` when supplied. -/
def process_teams_pass_block (scores : List (String × Json)) (possession : List (String × Bool))
    (teams : TeamsOut) (team_block : Json) : Except PyErr TeamsOut := do
  let team_meta := pyOr (← pyGetD team_block "team" (.obj [])) (.obj [])
  let tm ← extract_team_meta team_meta
  if tm.1 = "" then pure teams
  else do
    let teams1 := ensure_team_entry teams tm.1 tm.2.1 tm.2.2 scores possession
    let ha ← pyGet team_block "homeAway"
    let teams2 :=
      if ha.truthy then updTeam teams1 tm.1 (fun e => { e with homeAway := some ha }) else teams1
    let dOrd ← pyGet team_block "displayOrder"
    let teams3 :=
      if !(Json.beq dOrd .null) then
        updTeam teams2 tm.1 (fun e => { e with displayOrder := some dOrd })
      else teams2
    pure teams3

/-- Resolution of a scoring play's team id: `None` when the play is not an
object or carries no usable id (such plays are skipped). -/
def play_team_id (sp : Json) : Except PyErr (Option String) :=
  match sp with
  | .obj _ => do
    let team_obj := pyOr (← pyGet sp "team") (.obj [])
    let idv ← pyGet team_obj "id"
    let tid := if Json.beq idv .null then "" else pyStr idv
    pure (if tid = "" then none else some tid)
  | _ => pure none

/-- Resolution of a play's scoring-type abbreviation:
`(sp.get("scoringType") or {}).get("abbreviation") or (sp.get("type") or
{}).get("abbreviation") or ""`, stripped and upper-cased. -/
def play_abbr (sp : Json) : Except PyErr String := do
  let st := pyOr (← pyGet sp "scoringType") (.obj [])
  let tp := pyOr (← pyGet sp "type") (.obj [])
  let a1 ← pyGet st "abbreviation"
  let av ←
    if a1.truthy then pure a1
    else do
      let a2 ← pyGet tp "abbreviation"
      pure (pyOr a2 (.str ""))
  match av with
  | .str s => pure (pyUpper (pyStrip s))
  | _ => Except.error .attributeError

/-- One scoring play: skip non-objects and plays whose team id is empty or
not already a team of the game (the abbreviation is only resolved after that
check, as in the source); count TD/FG/S, ignore other abbreviations. -/
def scoring_play_step (counts : List (String × (Int × Int × Int))) (sp : Json) :
    Except PyErr (List (String × (Int × Int × Int))) := do
  match ← play_team_id sp with
  | none => pure counts
  | some tid =>
    match lookupA counts tid with
    | none => pure counts
    | some c => do
      let abbr ← play_abbr sp
      if abbr = "TD" then pure (upsertA counts tid (c.1 + 1, c.2.1, c.2.2))
      else if abbr = "FG" then pure (upsertA counts tid (c.1, c.2.1 + 1, c.2.2))
      else if abbr = "S" then pure (upsertA counts tid (c.1, c.2.1, c.2.2 + 1))
      else pure counts

/-- Per-team touchdown/field-goal/safety counts over a scoring-plays list. -/
def compute_scoring_counts (plays : List Json) (tids : List String) :
    Except PyErr (List (String × (Int × Int × Int))) :=
  plays.foldlM scoring_play_step (tids.map (fun t => (t, ((0 : Int), (0 : Int), (0 : Int)))))

/-- The `try`-wrapped scoring-plays aggregation of `refine_boxscore`
(lines 496–533): any exception is swallowed and, since the attach loop runs
only after counting finished, leaves the teams untouched. -/
def attach_scoring (raw : Json) (teams : TeamsOut) : TeamsOut :=
  let inner : Except PyErr TeamsOut := do
    let sp1 ← pyGet raw "scoringPlays"
    let spv ←
      if sp1.truthy then pure sp1
      else do
        let sp2 ← pyGet raw "scoringplays"
        pure (pyOr sp2 (.arr []))
    match spv with
    | .arr plays =>
      if plays.isEmpty then pure teams
      else do
        let counts ← compute_scoring_counts plays (keysA teams)
        pure (counts.foldl (fun ts tc =>
          updTeam ts tc.1 (fun e =>
            { e with stats := (upsertA e.stats "scoring"
                [("touchdowns", .int tc.2.1),
                 ("fieldGoals", .int tc.2.2.1),
                 ("safeties", .int tc.2.2.2)]) })) teams)
    | _ => pure teams
  match inner with
  | .ok t => t
  | .error _ => teams

/-- `list(team["players"].values())` at the end of `refine_boxscore`. -/
def players_to_list (e : TeamEntry) : TeamEntry :=
  match e.players with
  | .dict m => { e with players := .list (m.map Prod.snd) }
  | .list _ => e

/-- The part of `_extract_status_and_period` up to the status name; an error
here leaves the initial `("STATUS_UNKNOWN", None)`. -/
def status_stage (payload : Json) : Except PyErr (String × Json) := do
  let header := pyOr (← pyGet payload "header") (.obj [])
  let competitions := pyOr (← pyGet header "competitions") (.arr [])
  let comp ← if competitions.truthy then pyIndex competitions 0 else pure (.obj [])
  let status_obj := pyOr (← pyGet comp "status") (.obj [])
  let status_type := pyOr (← pyGet status_obj "type") (.obj [])
  let rnv := pyOr (← pyGet status_type "name") (.str "")
  let raw_name ← match rnv with
    | .str s => pure (pyUpper (pyStrip s))
    | _ => Except.error .attributeError
  if raw_name ≠ "" then pure (raw_name, status_obj)
  else do
    let stv := pyOr (← pyGet status_type "state") (.str "")
    let state ← match stv with
      | .str s => pure (pyLower (pyStrip s))
      | _ => Except.error .attributeError
    let mapping : List (String × String) :=
      [("pre", "STATUS_SCHEDULED"), ("in", "STATUS_IN_PROGRESS"),
       ("post", "STATUS_FINAL"), ("halftime", "STATUS_HALFTIME")]
    pure ((lookupA mapping state).getD "STATUS_UNKNOWN", status_obj)

/-- The period part of `_extract_status_and_period`; an error here (after the
status name was set) leaves the period `None`, as does the inner
`except (TypeError, ValueError)` around `int()`. -/
def period_stage (status_name : String) (status_obj : Json) : Except PyErr (Option Int) := do
  let raw_period ←
    if status_name = "STATUS_SCHEDULED" then pure Json.null else pyGet status_obj "period"
  if Json.beq raw_period .null then pure none
  else
    match pyIntE raw_period with
    | .ok n => pure (if 0 < n then some n else none)
    | .error _ => pure none

/-- `_extract_status_and_period`: canonical status string and current period,
with the source's swallow-and-keep-partial exception semantics. -/
def extract_status_and_period (payload : Json) : String × Option Int :=
  match status_stage payload with
  | .error _ => ("STATUS_UNKNOWN", none)
  | .ok sn =>
    match period_stage sn.1 sn.2 with
    | .error _ => (sn.1, none)
    | .ok p => (sn.1, p)

/-- The no-boxscore terminal document. -/
def noteDoc (event_id generated_at : String) : RefinedDoc :=
  { eventId := event_id
    generatedAt := generated_at
    source := none
    status := none
    period := none
    teams := []
    note := some "No boxscore in payload" }

/-- `refine_boxscore`: raw payload → canonical document.  `generated_at`
stands for `now_iso()`. -/
def refine_boxscore (raw : Json) (event_id generated_at : String) : Except PyErr RefinedDoc := do
  let box ← get_boxscore_root raw
  if !box.truthy then return noteDoc event_id generated_at
  let sp := extract_scores_possession raw
  let pv ← pyGetD box "players" (.arr [])
  let pblocks ← pyIter pv
  let teams1 ← pblocks.foldlM (process_team_block sp.1 sp.2) ([] : TeamsOut)
  let tv ← pyGetD box "teams" (.arr [])
  let tblocks ← pyIter tv
  let teams2 ← tblocks.foldlM (process_teams_pass_block sp.1 sp.2) teams1
  let teams3 := attach_scoring raw teams2
  let teams4 := teams3.map (fun kv => (kv.1, players_to_list kv.2))
  let stp := extract_status_and_period raw
  return {
    eventId := event_id
    generatedAt := generated_at
    source := some "espn-nfl-boxscore"
    status := some stp.1
    period := some stp.2
    teams := teams4.map Prod.snd
    note := none }

/-! ### Roster merger (`_merge_roster_zero_init`) and roster loader -/

/-- Roster corpus as loaded by `_load_roster_players`: team abbreviation or
team id → (athlete key → roster metadata). -/
abbrev RosterMap := List (String × List (String × PlayerMeta))

/-- The player identity key used for re-keying a players list:
`p.get("athleteId") or "name:" + p.get("fullName", "")`. -/
def keyFor (p : PlayerEntry) : String :=
  if p.athleteId ≠ "" then p.athleteId else "name:" ++ pyStr p.fullName

/-- Add field names to a category's set, keeping first-insertion order (the
deterministic stand-in for Python's deterministic-but-hash-ordered set; no
claim depends on the particular order). -/
def addKeys (fs ks : List String) : List String :=
  ks.foldl (fun acc k => if acc.contains k then acc else acc ++ [k]) fs

/-- `category_fields_union.setdefault(cat, set())` followed by adding keys. -/
def unionAdd (u : List (String × List String)) (cat : String) (ks : List String) :
    List (String × List String) :=
  match lookupA u cat with
  | some fs => upsertA u cat (addKeys fs ks)
  | none => u ++ [(cat, addKeys [] ks)]

/-- The union of known category field names: the built-in default schema plus
every field observed on any player of the document. -/
def build_union (teams : List TeamEntry) : List (String × List String) :=
  let base := DEFAULT_CATEGORIES.map (fun cv => (cv.1, cv.2.map Prod.fst))
  teams.foldl (fun u t =>
    let ps := match t.players with
      | .dict m => m.map Prod.snd
      | .list l => l
    ps.foldl (fun u p =>
      p.stats.foldl (fun u cs => unionAdd u cs.1 (cs.2.map Prod.fst)) u) u) base

/-- Normalize a team's players container to a dict keyed by athlete identity
(an already-keyed dict is kept as is; an empty dict goes through the list
branch unchanged, like `team.get("players") or []`). -/
def normalize_players (t : TeamEntry) : TeamEntry :=
  match t.players with
  | .list l => { t with players := .dict (l.foldl (fun m p => upsertA m (keyFor p) p) []) }
  | .dict m => if m.isEmpty then { t with players := .dict [] } else t

/-- `team_lookup`: abbreviation (verbatim and upper-cased) and team id →
index of the team in the document's team list (indices model the aliasing of
the shared mutable team dicts). -/
def build_team_lookup (teams : List TeamEntry) : List (String × Nat) :=
  teams.enum.foldl (fun lk it =>
    let lk :=
      match it.2.abbreviation with
      | .str s => if s ≠ "" then upsertA (upsertA lk s it.1) (pyUpper s) it.1 else lk
      | _ => lk
    if it.2.teamId ≠ "" then upsertA lk it.2.teamId it.1
    else upsertA lk it.2.teamId it.1) []

/-- The zero-default field map for a category: the default schema's fields
(string defaults kept, others zero) followed by any observed extra fields
with default `0`. -/
def mk_defaults (unionMap : List (String × List String)) (cat : String) : FieldMap :=
  let d0 := ((lookupA DEFAULT_CATEGORIES cat).getD []).map (fun kv => (kv.1, strOrZero kv.2))
  ((lookupA unionMap cat).getD []).foldl
    (fun d k => if (lookupA d k).isNone then d ++ [(k, Json.int 0)] else d) d0

/-- `for k, v in defaults.items(): if k not in current: current[k] = v`. -/
def zero_init_cat (defaults current : FieldMap) : FieldMap :=
  defaults.foldl (fun cur kv => if (lookupA cur kv.1).isNone then cur ++ [kv] else cur) current

/-- One roster player: insert if missing (empty stats), else backfill missing
metadata; then zero-initialize every known category. -/
def process_roster_player (unionMap : List (String × List String)) (allCats : List String)
    (m : List (String × PlayerEntry)) (kv : String × PlayerMeta) : List (String × PlayerEntry) :=
  let meta := kv.2
  let pid := if meta.athleteId ≠ "" then meta.athleteId else kv.1
  let m1 :=
    match lookupA m pid with
    | none =>
      upsertA m pid ⟨meta.athleteId, meta.fullName, meta.position, meta.jersey, meta.headshot, []⟩
    | some p =>
      let p := if !p.position.truthy && meta.position.truthy then
          { p with position := meta.position } else p
      let p := if !p.jersey.truthy && meta.jersey.truthy then
          { p with jersey := meta.jersey } else p
      let p := if !p.headshot.truthy && meta.headshot.truthy then
          { p with headshot := meta.headshot } else p
      upsertA m pid p
  match lookupA m1 pid with
  | none => m1
  | some p =>
    let st := allCats.foldl (fun st cat =>
      let defaults := mk_defaults unionMap cat
      let current := (lookupA st cat).getD []
      upsertA st cat (zero_init_cat defaults current)) p.stats
    upsertA m1 pid { p with stats := st }

/-- One roster-map entry: resolve the team by key (verbatim, then
upper-cased); skip teams not in this game; merge all its roster players. -/
def process_roster_entry (lk : List (String × Nat)) (unionMap : List (String × List String))
    (allCats : List String) (teams : List TeamEntry) (entry : String × List (String × PlayerMeta)) :
    Except PyErr (List TeamEntry) :=
  let idx? :=
    match lookupA lk entry.1 with
    | some i => some i
    | none => lookupA lk (pyUpper entry.1)
  match idx? with
  | none => .ok teams
  | some i =>
    match teams.get? i with
    | none => .ok teams
    | some t =>
      match t.players with
      | .list _ => .error .typeError
      | .dict m =>
        let m2 := entry.2.foldl (process_roster_player unionMap allCats) m
        .ok (teams.set i { t with players := .dict m2 })

/-- The sort key of the final player ordering:
`((p.get("fullName") or "").lower(), p.get("athleteId") or "")`.  Lower-casing
a truthy non-string full name raises, failing the whole merge (Python's
`sorted` evaluates the key for every element). -/
def sortKeyOf (p : PlayerEntry) : Except PyErr (String × String) := do
  let low ← match pyOr p.fullName (.str "") with
    | .str s => pure (pyLower s)
    | _ => Except.error .attributeError
  pure (low, p.athleteId)

/-- Lexicographic strict order on character lists (Python string `<`,
written so the kernel can evaluate it; `String.ltb` does not reduce). -/
def charListLt : List Char → List Char → Bool
  | [], [] => false
  | [], _ :: _ => true
  | _ :: _, [] => false
  | a :: as, b :: bs => if a < b then true else if b < a then false else charListLt as bs

/-- Python string `<` on code points. -/
def strLt (a b : String) : Bool := charListLt a.toList b.toList

/-- The sort relation on key-decorated players: lexicographic on
(lower-cased name, athlete id), as Python compares the sort-key tuples; a
stable sort with this relation models Python's stable `sorted`. -/
def keyLE (a b : (String × String) × PlayerEntry) : Prop :=
  (strLt a.1.1 b.1.1 || (a.1.1 == b.1.1 && !strLt b.1.2 a.1.2)) = true

instance : DecidableRel keyLE := fun a b => by
  unfold keyLE
  infer_instance

/-- Final per-team conversion: players dict → list sorted by lower-cased full
name, tie-broken by athlete id. -/
def sort_players (t : TeamEntry) : Except PyErr TeamEntry :=
  match t.players with
  | .dict m => do
    let keyed ← (m.map Prod.snd).mapM (fun p => do
      let k ← sortKeyOf p
      pure (k, p))
    pure { t with players := .list ((keyed.insertionSort keyLE).map Prod.snd) }
  | .list _ => pure t

/-- `_merge_roster_zero_init`: ensure every rostered player of the in-game
teams appears with zero-initialized categories; teams absent from the game
are skipped; output players are sorted lists. -/
def merge_roster_zero_init (doc : RefinedDoc) (roster_map : RosterMap) :
    Except PyErr RefinedDoc := do
  let unionMap := build_union doc.teams
  let teams1 := doc.teams.map normalize_players
  let lk := build_team_lookup teams1
  let allCats := unionMap.map Prod.fst
  let teams2 ← roster_map.foldlM (process_roster_entry lk unionMap allCats) teams1
  let teams3 ← teams2.mapM sort_players
  pure { doc with teams := teams3 }

/-- `os.path.splitext(fname)[0]`: strip the extension at the last dot that has
some non-dot character before it. -/
def splitextRoot (fname : String) : String :=
  let cs := fname.toList
  match ((List.range cs.length).filter (fun i => cs.get? i = some '.')).getLast? with
  | none => fname
  | some i => if (cs.take i).any (fun c => c ≠ '.') then String.mk (cs.take i) else fname

/-- `fname.split("_", 1)[0]`. -/
def splitFirstUnderscore (s : String) : String :=
  match s.toList.findIdx? (fun c => c = '_') with
  | some i => String.mk (s.toList.take i)
  | none => s

/-- The grouped-athletes collection loop (inside `try`): an exception keeps
the athletes appended so far. -/
def collect_grouped (groups : List Json) : Except (List Json) (List Json) :=
  groups.foldlM (fun acc grp =>
    let items : Except PyErr (List Json) := do
      let iv ← pyGetD grp "items" (.arr [])
      pyIter iv
    match items with
    | .ok l => .ok (acc ++ l)
    | .error _ => .error acc) []

/-- `_load_roster_players` for one roster file (name, parsed content).
Mirrors the source: the abbreviation is inferred from a `<ABBR>_roster.json`
name, else from the payload's team metadata, else from the file name; both
the upper-cased abbreviation and the team id key the same players dict. -/
def load_roster_file (result : RosterMap) (file : String × Json) : Except PyErr RosterMap := do
  let fname := file.1
  let data := file.2
  let a0 : String := if strEndsWith fname "_roster.json" then splitFirstUnderscore fname else ""
  let team_meta := pyOr (← pyGet data "team") (.obj [])
  let st : Option String × Option String :=
    match team_meta with
    | .obj m =>
      let idv := (lookupA m "id").getD .null
      let tid := if Json.beq idv .null then none else some (pyStr idv)
      let ac := pyOr ((lookupA m "abbreviation").getD .null) ((lookupA m "slug").getD .null)
      (tid, match ac with
        | .str s => some s
        | _ => none)
    | _ => (none, none)
  let a1 := if a0 = "" then ((st.2).getD "") else a0
  let a2 := if a1 = "" then splitextRoot fname else a1
  let abbrU := if a2 ≠ "" then pyUpper (pyStrip a2) else a2
  let tidS : Option String :=
    match st.1 with
    | some t => if t ≠ "" then some (pyStrip t) else some t
    | none => none
  if abbrU = "" && (tidS.getD "") = "" then return result
  let dm := match data with
    | .obj m => m
    | _ => []
  let tv := pyOr ((lookupA dm "athletes").getD .null) (.arr [])
  let athletes : List Json :=
    match tv with
    | .arr gl =>
      match gl.head? with
      | some (.obj hm) =>
        if (lookupA hm "items").isSome then
          match collect_grouped gl with
          | .ok l => l
          | .error l => l
        else gl
      | _ => gl
    | _ => []
  let team_players ← athletes.foldlM (fun tp a => do
    let idv ← pyGet a "id"
    let aid : Option String := if Json.beq idv .null then none else some (pyStr idv)
    let display := pyOr (← pyGet a "displayName") (pyOr (← pyGet a "fullName") (.str ""))
    let pos_field ← pyGet a "position"
    let position : Json :=
      match pos_field with
      | .obj pm =>
        pyOr ((lookupA pm "abbreviation").getD .null)
          (pyOr ((lookupA pm "displayName").getD .null)
            (pyOr ((lookupA pm "name").getD .null) (.str "")))
      | .str s => .str s
      | _ => .str ""
    let jersey := pyOr (← pyGet a "jersey") (.str "")
    let hs ← pyGet a "headshot"
    let headshot :=
      match hs with
      | .obj hm => (lookupA hm "href").getD .null
      | _ => .str ""
    let key :=
      match aid with
      | some s => if s ≠ "" then s else "name:" ++ pyStr display
      | none => "name:" ++ pyStr display
    pure (upsertA tp key ⟨aid.getD "", display, position, jersey, headshot⟩))
    ([] : List (String × PlayerMeta))
  let r1 := if abbrU ≠ "" then upsertA result abbrU team_players else result
  let r2 := if (tidS.getD "") ≠ "" then upsertA r1 (tidS.getD "") team_players else r1
  return r2

/-- `_load_roster_players` over a roster store, given as (file name, parsed
content) pairs (files that fail to open or parse are skipped by the source
and are simply omitted from the input). -/
def load_roster_players (files : List (String × Json)) : Except PyErr RosterMap :=
  (files.filter (fun f => strEndsWith (pyLower f.1) ".json")).foldlM load_roster_file []

/-! ### Output writer (`write_json_to_dir` / `write_json`) -/

/-- The output directory as a map path → file content. -/
abbrev FS := List (String × String)

/-- Outcome of the `json.dump` call: full serialization, or a failure that
leaves partial content in the open temporary file. -/
inductive DumpOutcome where
  | success : String → DumpOutcome
  | failure : String → DumpOutcome
deriving Repr

/-- Erase a path from the file system. -/
def eraseA {α : Type} (m : List (String × α)) (k : String) : List (String × α) :=
  m.filter (fun kv => kv.1 ≠ k)

/-- `helpers.write_json_to_dir`: write to `<path>.tmp`, then `os.replace` it
onto `<path>`.  On success the temporary entry is gone and the target holds
the new content; a dump failure raises, leaving the partial temporary file in
place and the target untouched (the raised error carries the resulting file
system). -/
def write_json_to_dir (fs : FS) (out_dir filename : String) (dump : DumpOutcome) :
    Except (FS × PyErr) FS :=
  let path := out_dir ++ "/" ++ filename
  let tmp := path ++ ".tmp"
  match dump with
  | .success s => .ok (upsertA (eraseA fs tmp) path s)
  | .failure p => .error (upsertA fs tmp p, .valueError)

/-- `refined_live_stats.write_json`: delegate and swallow any exception,
reporting it via `LOG.error` (the returned flag). -/
def write_json (fs : FS) (out_dir filename : String) (dump : DumpOutcome) : FS × Bool :=
  match write_json_to_dir fs out_dir filename dump with
  | .ok fs' => (fs', false)
  | .error fp => (fp.1, true)

/-! ### Association-list and monad lemmas -/

theorem lookupA_upsertA_self {α : Type} (m : List (String × α)) (k : String) (v : α) :
    lookupA (upsertA m k v) k = some v := by
  induction m with
  | nil => simp [upsertA, lookupA]
  | cons kv rest ih =>
    by_cases h : kv.1 = k
    · simp [upsertA, h, lookupA]
    · simp [upsertA, h, lookupA, ih]

theorem lookupA_upsertA_ne {α : Type} (m : List (String × α)) {k k' : String} (v : α)
    (h : k' ≠ k) : lookupA (upsertA m k v) k' = lookupA m k' := by
  induction m with
  | nil => simp [upsertA, lookupA, Ne.symm h]
  | cons kv rest ih =>
    by_cases hk : kv.1 = k
    · subst hk
      simp [upsertA, lookupA, Ne.symm h]
    · simp only [upsertA, if_neg hk]
      by_cases hk' : kv.1 = k'
      · simp [lookupA, hk']
      · simp [lookupA, hk', ih]

theorem upsertA_eq_self {α : Type} {m : List (String × α)} {k : String} {v : α}
    (h : lookupA m k = some v) : upsertA m k v = m := by
  induction m with
  | nil => simp [lookupA] at h
  | cons kv rest ih =>
    by_cases hk : kv.1 = k
    · obtain ⟨k1, v1⟩ := kv
      simp only [lookupA, if_pos hk] at h
      cases hk
      cases h
      simp [upsertA]
    · simp only [lookupA, if_neg hk] at h
      simp [upsertA, hk, ih h]

theorem keysA_upsertA_isSome {α : Type} {m : List (String × α)} {k : String} (v : α)
    (h : (lookupA m k).isSome) : keysA (upsertA m k v) = keysA m := by
  induction m with
  | nil => simp [lookupA] at h
  | cons kv rest ih =>
    by_cases hk : kv.1 = k
    · simp [upsertA, hk, keysA]
    · simp only [lookupA, if_neg hk] at h
      have := ih h
      simp only [upsertA, if_neg hk, keysA, List.map_cons]
      simpa [keysA] using this

theorem keysA_upsertA_none {α : Type} {m : List (String × α)} {k : String} (v : α)
    (h : lookupA m k = none) : keysA (upsertA m k v) = keysA m ++ [k] := by
  induction m with
  | nil => simp [upsertA, keysA]
  | cons kv rest ih =>
    by_cases hk : kv.1 = k
    · simp [lookupA, hk] at h
    · simp only [lookupA, if_neg hk] at h
      simp only [upsertA, if_neg hk, keysA, List.map_cons]
      simpa [keysA] using congrArg (kv.1 :: ·) (ih h)

theorem lookupA_none_iff_not_mem {α : Type} (m : List (String × α)) (k : String) :
    lookupA m k = none ↔ k ∉ keysA m := by
  induction m with
  | nil => simp [lookupA, keysA]
  | cons kv rest ih =>
    by_cases hk : kv.1 = k
    · simp [lookupA, hk, keysA]
    · simp [lookupA, hk, keysA, ih, Ne.symm hk]

theorem except_bind_ok {ε α β : Type} {e : Except ε α} {f : α → Except ε β} {b : β}
    (h : (e >>= f) = .ok b) : ∃ a, e = .ok a ∧ f a = .ok b := by
  cases e with
  | ok a => exact ⟨a, rfl, h⟩
  | error err => simp [Bind.bind, Except.bind] at h

theorem foldlM_ok_inv {ε σ α : Type} {P : σ → Prop} {f : σ → α → Except ε σ}
    (hstep : ∀ s a s', P s → f s a = .ok s' → P s') :
    ∀ {l : List α} {s₀ s₁ : σ}, P s₀ → List.foldlM f s₀ l = .ok s₁ → P s₁ := by
  intro l
  induction l with
  | nil =>
    intro s₀ s₁ h0 hf
    simp only [List.foldlM_nil] at hf
    cases hf
    exact h0
  | cons a rest ih =>
    intro s₀ s₁ h0 hf
    simp only [List.foldlM_cons] at hf
    obtain ⟨mid, hm, hrest⟩ := except_bind_ok hf
    exact ih (hstep s₀ a mid h0 hm) hrest

/-- A value is `beq`-equal to `null` exactly when it is `null`. -/
theorem Json.beq_null_iff (v : Json) : Json.beq v .null = true ↔ v = .null := by
  cases v <;> simp [Json.beq]

/-! ### C5 — output writer: failure reporting and the temporary file -/

/-- C5 counterexample: a failing write reports the error and leaves the
previously committed document untouched, but the temporary `.tmp` file is NOT
removed — it remains, holding the partial content, refuting the claim that
"the temporary '.tmp' file is removed". -/
theorem write_json_tmp_left_behind :
    write_json [("out/g.json", "old")] "out" "g.json" (.failure "junk")
      = ([("out/g.json", "old"), ("out/g.json.tmp", "junk")], true)
    ∧ lookupA (write_json [("out/g.json", "old")] "out" "g.json" (.failure "junk")).1
        "out/g.json.tmp" = some "junk" := by
  exact ⟨rfl, rfl⟩

/-- The target path differs from its temporary sibling. -/
theorem tmp_ne_path (p : String) : p ++ ".tmp" ≠ p := by
  intro h
  have h2 := congrArg String.length h
  rw [String.length_append] at h2
  have h4 : String.length ".tmp" = 4 := rfl
  omega

/-- C5 amended: if writing the output document fails, the failure is reported
and the previously committed document (if any) is byte-for-byte unchanged —
the atomic rename happens only after a fully successful write — but the
temporary `.tmp` file is left behind with the partial content, not removed.
On success the temporary entry is gone and the target holds the new content. -/
theorem write_json_failure_preserves_target (fs : FS) (dir fn p : String) :
    (write_json fs dir fn (.failure p)).2 = true
    ∧ lookupA (write_json fs dir fn (.failure p)).1 (dir ++ "/" ++ fn)
        = lookupA fs (dir ++ "/" ++ fn)
    ∧ lookupA (write_json fs dir fn (.failure p)).1 (dir ++ "/" ++ fn ++ ".tmp") = some p
    ∧ ∀ s, write_json fs dir fn (.success s)
        = (upsertA (eraseA fs (dir ++ "/" ++ fn ++ ".tmp")) (dir ++ "/" ++ fn) s, false) := by
  refine ⟨rfl, ?_, ?_, fun s => rfl⟩
  · exact lookupA_upsertA_ne fs p (fun h => tmp_ne_path (dir ++ "/" ++ fn) h.symm)
  · exact lookupA_upsertA_self fs (dir ++ "/" ++ fn ++ ".tmp") p

/-! ### C8 — status and period extraction -/

/-- A raw payload whose status type carries no name: state and period only. -/
def statusPayload (state : String) (rawPeriod : Json) : Json :=
  .obj [("header", .obj [("competitions", .arr [
    .obj [("status", .obj [("type", .obj [("state", .str state)]), ("period", rawPeriod)])]])])]

/-- Spec wording: the state mapping `pre→SCHEDULED, in→IN_PROGRESS,
post→FINAL, halftime→HALFTIME`, defaulting to `UNKNOWN`. -/
def specStateMap (state : String) : String :=
  if state = "pre" then "STATUS_SCHEDULED"
  else if state = "in" then "STATUS_IN_PROGRESS"
  else if state = "post" then "STATUS_FINAL"
  else if state = "halftime" then "STATUS_HALFTIME"
  else "STATUS_UNKNOWN"

/-- Spec wording: the period is emitted only when the status is not
`SCHEDULED` and the raw period value parses (via Python `int()`) to a
positive integer; otherwise it is null. -/
def specPeriod (status : String) (rawPeriod : Json) : Option Int :=
  if status = "STATUS_SCHEDULED" then none
  else
    match pyIntE rawPeriod with
    | .ok n => if 0 < n then some n else none
    | .error _ => none

/-- The code's literal state mapping agrees with the spec's. -/
theorem lookup_state_mapping (s : String) :
    (lookupA [("pre", "STATUS_SCHEDULED"), ("in", "STATUS_IN_PROGRESS"),
      ("post", "STATUS_FINAL"), ("halftime", "STATUS_HALFTIME")] s).getD "STATUS_UNKNOWN"
      = specStateMap s := by
  by_cases h1 : s = "pre"
  · subst h1; rfl
  by_cases h2 : s = "in"
  · subst h2; rfl
  by_cases h3 : s = "post"
  · subst h3; rfl
  by_cases h4 : s = "halftime"
  · subst h4; rfl
  simp [lookupA, specStateMap, h1, h2, h3, h4, Ne.symm h1, Ne.symm h2, Ne.symm h3, Ne.symm h4]

@[simp] theorem pyOr_null (b : Json) : pyOr .null b = b := rfl

@[simp] theorem pyOr_obj_cons (kv : String × Json) (l : List (String × Json)) (b : Json) :
    pyOr (.obj (kv :: l)) b = .obj (kv :: l) := rfl

@[simp] theorem pyOr_arr_cons (x : Json) (l : List Json) (b : Json) :
    pyOr (.arr (x :: l)) b = .arr (x :: l) := rfl

/-- The status-stage value on a payload whose status type has only a state. -/
theorem status_stage_payload (state : String) (rawPeriod : Json) :
    status_stage (statusPayload state rawPeriod)
      = .ok (specStateMap (pyLower (pyStrip state)),
             .obj [("type", .obj [("state", .str state)]), ("period", rawPeriod)]) := by
  have hor : pyOr (.str state) (.str "") = .str state := by
    by_cases h : state = ""
    · subst h; rfl
    · simp [pyOr, Json.truthy, h]
  simp [status_stage, statusPayload, pyGet, pyIndex, lookupA, Json.truthy, hor,
    bind, Except.bind, pure, Except.pure]
  rw [if_pos (show pyUpper (pyStrip "") = "" from rfl)]
  generalize pyLower (pyStrip state) = s
  by_cases h1 : s = "pre"
  · simp [h1, specStateMap]
  by_cases h2 : s = "in"
  · simp [h1, h2, specStateMap, Ne.symm h1]
  by_cases h3 : s = "post"
  · simp [h1, h2, h3, specStateMap, Ne.symm h1, Ne.symm h2]
  by_cases h4 : s = "halftime"
  · simp [h1, h2, h3, h4, specStateMap, Ne.symm h1, Ne.symm h2, Ne.symm h3]
  simp [h1, h2, h3, h4, specStateMap, Ne.symm h1, Ne.symm h2, Ne.symm h3, Ne.symm h4]

/-- C8: when the raw status type has no name, the canonical status equals the
state mapping `pre→SCHEDULED, in→IN_PROGRESS, post→FINAL, halftime→HALFTIME`
(applied to the stripped lower-cased state) with default `STATUS_UNKNOWN`, and
the period is emitted exactly when the status is not `STATUS_SCHEDULED` and
the raw period value converts via `int()` to a positive integer — in every
other case, including `state = "pre"` with any raw period value, the period
is null. -/
theorem status_period_state_mapping (state : String) (rawPeriod : Json) :
    extract_status_and_period (statusPayload state rawPeriod)
      = (specStateMap (pyLower (pyStrip state)),
         specPeriod (specStateMap (pyLower (pyStrip state))) rawPeriod) := by
  have hp : period_stage (specStateMap (pyLower (pyStrip state)))
      (.obj [("type", .obj [("state", .str state)]), ("period", rawPeriod)])
      = .ok (specPeriod (specStateMap (pyLower (pyStrip state))) rawPeriod) := by
    by_cases hsch : specStateMap (pyLower (pyStrip state)) = "STATUS_SCHEDULED"
    · simp [period_stage, hsch, Json.beq, specPeriod, bind, Except.bind, pure, Except.pure]
    · by_cases hnull : rawPeriod = .null
      · subst hnull
        simp [period_stage, hsch, pyGet, lookupA, Json.beq, specPeriod, pyIntE,
          bind, Except.bind, pure, Except.pure]
      · have hbeq : Json.beq rawPeriod .null = false := by
          cases hb : Json.beq rawPeriod .null
          · rfl
          · exact absurd ((Json.beq_null_iff rawPeriod).1 hb) hnull
        cases hI : pyIntE rawPeriod with
        | ok n =>
          simp [period_stage, hsch, pyGet, lookupA, hbeq, specPeriod, hI,
            bind, Except.bind, pure, Except.pure]
        | error err =>
          simp [period_stage, hsch, pyGet, lookupA, hbeq, specPeriod, hI,
            bind, Except.bind, pure, Except.pure]
  unfold extract_status_and_period
  rw [status_stage_payload]
  dsimp only
  rw [hp]

/-! ### C7 — no recognizable boxscore root -/

theorem get_boxscore_root_none (kvs : List (String × Json))
    (h1 : ((lookupA kvs "players").isSome && (lookupA kvs "teams").isSome) = false)
    (h2 : (lookupA kvs "boxscore").isSome = false)
    (h3 : (match lookupA kvs "summary" with
           | some (.obj s) => (lookupA s "boxscore").isSome
           | _ => false) = false) :
    get_boxscore_root (.obj kvs) = .ok .null := by
  by_cases he : kvs = []
  · subst he; rfl
  have htr : (Json.obj kvs).truthy = true := by
    simp [Json.truthy, he]
  by_cases hp : (lookupA kvs "players").isSome
  · simp only [hp, Bool.true_and] at h1
    cases hs : lookupA kvs "summary" with
    | none =>
      simp [get_boxscore_root, htr, pyInStr, pyGet, hp, h1, h2, hs,
        bind, Except.bind, pure, Except.pure]
    | some v =>
      cases v <;>
        simp_all [get_boxscore_root, htr, pyInStr, pyGet, hp, h1, h2, hs,
          bind, Except.bind, pure, Except.pure]
  · cases hs : lookupA kvs "summary" with
    | none =>
      simp [get_boxscore_root, htr, pyInStr, pyGet, hp, h2, hs,
        bind, Except.bind, pure, Except.pure]
    | some v =>
      cases v <;>
        simp_all [get_boxscore_root, htr, pyInStr, pyGet, hp, h2, hs,
          bind, Except.bind, pure, Except.pure]

/-- C7: for a raw object in which no boxscore root can be located (no
top-level `players`+`teams` pair, no `boxscore` key, no `summary.boxscore`),
`refine_boxscore` returns exactly
`{eventId, generatedAt, teams: [], note: "No boxscore in payload"}` — a
normal non-error result whose note is non-empty and which carries no other
keys (`source`/`status`/`period` absent). -/
theorem refine_boxscore_no_root (kvs : List (String × Json)) (e g : String)
    (h1 : ((lookupA kvs "players").isSome && (lookupA kvs "teams").isSome) = false)
    (h2 : (lookupA kvs "boxscore").isSome = false)
    (h3 : (match lookupA kvs "summary" with
           | some (.obj s) => (lookupA s "boxscore").isSome
           | _ => false) = false) :
    refine_boxscore (.obj kvs) e g = .ok
      { eventId := e, generatedAt := g, source := none, status := none,
        period := none, teams := [], note := some "No boxscore in payload" } := by
  have hroot := get_boxscore_root_none kvs h1 h2 h3
  simp [refine_boxscore, hroot, Json.truthy, bind, Except.bind, pure, Except.pure, noteDoc]

/-- C7 witness at a concrete input. -/
theorem refine_boxscore_no_root_witness :
    refine_boxscore (.obj [("a", Json.null)]) "E1" "T1" = .ok
      { eventId := "E1", generatedAt := "T1", source := none, status := none,
        period := none, teams := [], note := some "No boxscore in payload" } :=
  refine_boxscore_no_root [("a", Json.null)] "E1" "T1" rfl rfl rfl

/-! ### C3 — malformed record handling -/

/-- C3 counterexample: a team record that is not a JSON object (here the
string "junk") raises an `AttributeError` out of `refine_boxscore`, aborting
the whole document — the well-formed sibling team that follows it is lost
too, refuting "never lets one bad record abort its siblings or the whole
document". -/
theorem refine_malformed_record_aborts :
    refine_boxscore (.obj [("players", .arr [.str "junk",
        .obj [("team", .obj [("id", .int 2)])]]), ("teams", .arr [])]) "E" "T"
      = .error .attributeError := rfl

/-- Skipped elements of a monadic fold can be removed. -/
theorem foldlM_middle_skip {ε σ α : Type} (f : σ → α → Except ε σ) (x : α)
    (hx : ∀ s, f s x = .ok s) (xs ys : List α) (s₀ : σ) :
    List.foldlM f s₀ (xs ++ x :: ys) = List.foldlM f s₀ (xs ++ ys) := by
  induction xs generalizing s₀ with
  | nil =>
    simp only [List.nil_append, List.foldlM_cons, hx]
    rfl
  | cons a rest ih =>
    simp only [List.cons_append, List.foldlM_cons]
    cases hf : f s₀ a with
    | ok s₁ => simp only [bind, Except.bind, ih]
    | error err => simp only [bind, Except.bind]

/-- A team record that is an object with a missing/empty team meta is
skipped: processing it returns the accumulator unchanged. -/
theorem process_team_block_skip (s : List (String × Json)) (p : List (String × Bool))
    (teams : TeamsOut) : process_team_block s p teams (.obj []) = .ok teams := rfl

/-- C3 amended: a malformed team record that is an object without a usable
team object is skipped while the remaining teams and athletes complete —
removing such a record from the players array does not change the output at
all; however a team or athlete record that is not a JSON object raises an
exception that aborts refinement of the whole document (handled only by the
per-game cycle loop). -/
theorem refine_skips_idless_team_record (xs ys ts : List Json) (e g : String) :
    refine_boxscore (.obj [("players", .arr (xs ++ .obj [] :: ys)), ("teams", .arr ts)]) e g
      = refine_boxscore (.obj [("players", .arr (xs ++ ys)), ("teams", .arr ts)]) e g := by
  have hroot1 : get_boxscore_root (.obj [("players", .arr (xs ++ .obj [] :: ys)), ("teams", .arr ts)])
      = .ok (.obj [("players", .arr (xs ++ .obj [] :: ys)), ("teams", .arr ts)]) := rfl
  have hroot2 : get_boxscore_root (.obj [("players", .arr (xs ++ ys)), ("teams", .arr ts)])
      = .ok (.obj [("players", .arr (xs ++ ys)), ("teams", .arr ts)]) := rfl
  have hsc1 : extract_scores_possession
      (.obj [("players", .arr (xs ++ .obj [] :: ys)), ("teams", .arr ts)]) = ([], []) := rfl
  have hsc2 : extract_scores_possession
      (.obj [("players", .arr (xs ++ ys)), ("teams", .arr ts)]) = ([], []) := rfl
  have hst1 : extract_status_and_period
      (.obj [("players", .arr (xs ++ .obj [] :: ys)), ("teams", .arr ts)])
      = ("STATUS_UNKNOWN", none) := rfl
  have hst2 : extract_status_and_period
      (.obj [("players", .arr (xs ++ ys)), ("teams", .arr ts)])
      = ("STATUS_UNKNOWN", none) := rfl
  have hat1 : ∀ v, attach_scoring
      (.obj [("players", .arr (xs ++ .obj [] :: ys)), ("teams", .arr ts)]) v = v := fun v => rfl
  have hat2 : ∀ v, attach_scoring
      (.obj [("players", .arr (xs ++ ys)), ("teams", .arr ts)]) v = v := fun v => rfl
  unfold refine_boxscore
  rw [hroot1, hroot2, hsc1, hsc2]
  simp only [bind, Except.bind, Json.truthy, pyGetD, pyGet, lookupA, pyIter,
    hst1, hst2, hat1, hat2]
  norm_num [process_team_block_skip]
  cases hfx : List.foldlM (process_team_block [] []) ([] : TeamsOut) xs with
  | error err => rfl
  | ok v => rfl

/-! ### Stats shape invariants -/

/-- The key structure of a stats container: category names with their field
names, in order. -/
def statsShape (st : Stats) : List (String × List String) :=
  st.map (fun cs => (cs.1, cs.2.map Prod.fst))

/-- The shape of the default schema. -/
def defaultShape : List (String × List String) := statsShape DEFAULT_CATEGORIES

/-- Membership of a field in the default schema. -/
def fieldInDefault (c f : String) : Bool :=
  match lookupA DEFAULT_CATEGORIES c with
  | some m => (lookupA m f).isSome
  | none => false

theorem lookupA_statsShape (st : Stats) (c : String) :
    lookupA (statsShape st) c = (lookupA st c).map (fun m => m.map Prod.fst) := by
  induction st with
  | nil => rfl
  | cons cs rest ih =>
    by_cases h : cs.1 = c
    · simp [statsShape, lookupA, h]
    · simp [statsShape, lookupA, h]
      simpa [statsShape] using ih

theorem statsShape_upsertA (st : Stats) (c : String) (m' : FieldMap) :
    statsShape (upsertA st c m') = upsertA (statsShape st) c (m'.map Prod.fst) := by
  induction st with
  | nil => rfl
  | cons cs rest ih =>
    by_cases h : cs.1 = c
    · simp [statsShape, upsertA, h]
    · simp [statsShape, upsertA, h]
      simpa [statsShape] using ih

theorem lookupA_isSome_iff_mem {α : Type} (m : List (String × α)) (k : String) :
    (lookupA m k).isSome = true ↔ k ∈ keysA m := by
  rw [Option.isSome_iff_ne_none, Ne, lookupA_none_iff_not_mem, not_not]

/-- A `setF` whose field already exists in the default schema preserves the
default shape. -/
theorem setF_default_shape {st st' : Stats} {c f : String} {v : Json}
    (hsh : statsShape st = defaultShape) (hmem : fieldInDefault c f = true)
    (hok : setF st c f v = .ok st') : statsShape st' = defaultShape := by
  unfold setF at hok
  cases hl : lookupA st c with
  | none => rw [hl] at hok; cases hok
  | some m =>
    rw [hl] at hok
    cases hok
    unfold fieldInDefault at hmem
    cases hd : lookupA DEFAULT_CATEGORIES c with
    | none => rw [hd] at hmem; cases hmem
    | some dm =>
      rw [hd] at hmem
      have hshl : lookupA (statsShape st) c = some (m.map Prod.fst) := by
        rw [lookupA_statsShape, hl]; rfl
      have hdl : lookupA defaultShape c = some (dm.map Prod.fst) := by
        rw [defaultShape, lookupA_statsShape, hd]; rfl
      have hmk : m.map Prod.fst = dm.map Prod.fst := by
        have h1 := hshl
        rw [hsh, hdl] at h1
        exact (Option.some.inj h1).symm
      have hfm : (lookupA m f).isSome = true := by
        rw [lookupA_isSome_iff_mem]
        have : f ∈ keysA dm := (lookupA_isSome_iff_mem dm f).mp hmem
        unfold keysA at this ⊢
        rw [hmk]
        exact this
      have hkeys : (upsertA m f v).map Prod.fst = m.map Prod.fst :=
        keysA_upsertA_isSome v hfm
      rw [statsShape_upsertA, hkeys, upsertA_eq_self hshl]
      exact hsh

/-- Conditional `setF` (write-or-skip) preserves the default shape. -/
theorem ite_setF_default_shape {c : Prop} [Decidable c] {st st' : Stats} {cc f : String} {v : Json}
    (hsh : statsShape st = defaultShape) (hmem : fieldInDefault cc f = true)
    (hok : (if c then setF st cc f v else pure st) = .ok st') :
    statsShape st' = defaultShape := by
  split at hok
  · exact setF_default_shape hsh hmem hok
  · cases hok; exact hsh

/-- Two-way conditional `setF` (verbatim / synthesized / skip) preserves the
default shape. -/
theorem ite2_setF_default_shape {c1 c2 : Prop} [Decidable c1] [Decidable c2]
    {st st' : Stats} {cc f : String} {v1 v2 : Json}
    (hsh : statsShape st = defaultShape) (hmem : fieldInDefault cc f = true)
    (hok : (if c1 then setF st cc f v1 else if c2 then setF st cc f v2 else pure st) = .ok st') :
    statsShape st' = defaultShape := by
  split at hok
  · exact setF_default_shape hsh hmem hok
  · exact ite_setF_default_shape hsh hmem hok

theorem write_if_truthy_shape {st st' : Stats} {c f : String} {v : Json}
    (hsh : statsShape st = defaultShape) (hmem : fieldInDefault c f = true)
    (hok : write_if_truthy st c f v = .ok st') : statsShape st' = defaultShape := by
  unfold write_if_truthy at hok
  exact ite_setF_default_shape hsh hmem hok

theorem passing_combined_step_shape {st st' : Stats} {parsed : Parsed}
    (hsh : statsShape st = defaultShape)
    (hok : passing_combined_step st parsed = .ok st') : statsShape st' = defaultShape := by
  unfold passing_combined_step at hok
  exact ite2_setF_default_shape hsh (by decide) hok

theorem passing_sacks_step_shape {st st' : Stats} {parsed : Parsed}
    (hsh : statsShape st = defaultShape)
    (hok : passing_sacks_step st parsed = .ok st') : statsShape st' = defaultShape := by
  unfold passing_sacks_step at hok
  exact ite2_setF_default_shape hsh (by decide) hok

theorem kicking_fg_step_shape {st st' : Stats} {parsed : Parsed}
    (hsh : statsShape st = defaultShape)
    (hok : kicking_fg_step st parsed = .ok st') : statsShape st' = defaultShape := by
  unfold kicking_fg_step at hok
  exact ite2_setF_default_shape hsh (by decide) hok

theorem kicking_xp_step_shape {st st' : Stats} {parsed : Parsed}
    (hsh : statsShape st = defaultShape)
    (hok : kicking_xp_step st parsed = .ok st') : statsShape st' = defaultShape := by
  unfold kicking_xp_step at hok
  exact ite2_setF_default_shape hsh (by decide) hok



theorem apply_passing_shape {target st' : Stats} {parsed : Parsed}
    (hsh : statsShape target = defaultShape)
    (hok : apply_passing target parsed = .ok st') : statsShape st' = defaultShape := by
  unfold apply_passing at hok
  obtain ⟨t1, h1, hok⟩ := except_bind_ok hok
  have s1 := passing_combined_step_shape hsh h1
  obtain ⟨t2, h2, hok⟩ := except_bind_ok hok
  have s2 := setF_default_shape s1 (by decide) h2
  obtain ⟨t3, h3, hok⟩ := except_bind_ok hok
  have s3 := setF_default_shape s2 (by decide) h3
  obtain ⟨t4, h4, hok⟩ := except_bind_ok hok
  have s4 := setF_default_shape s3 (by decide) h4
  obtain ⟨t5, h5, hok⟩ := except_bind_ok hok
  have s5 := setF_default_shape s4 (by decide) h5
  obtain ⟨t6, h6, hok⟩ := except_bind_ok hok
  have s6 := passing_sacks_step_shape s5 h6
  obtain ⟨t7, h7, hok⟩ := except_bind_ok hok
  have s7 := setF_default_shape s6 (by decide) h7
  obtain ⟨t8, h8, hok⟩ := except_bind_ok hok
  have s8 := setF_default_shape s7 (by decide) h8
  cases hok
  exact s8

theorem apply_rushing_shape {target st' : Stats} {parsed : Parsed}
    (hsh : statsShape target = defaultShape)
    (hok : apply_rushing target parsed = .ok st') : statsShape st' = defaultShape := by
  unfold apply_rushing at hok
  obtain ⟨t1, h1, hok⟩ := except_bind_ok hok
  have s1 := setF_default_shape hsh (by decide) h1
  obtain ⟨t2, h2, hok⟩ := except_bind_ok hok
  have s2 := setF_default_shape s1 (by decide) h2
  obtain ⟨t3, h3, hok⟩ := except_bind_ok hok
  have s3 := setF_default_shape s2 (by decide) h3
  obtain ⟨t4, h4, hok⟩ := except_bind_ok hok
  have s4 := setF_default_shape s3 (by decide) h4
  obtain ⟨t5, h5, hok⟩ := except_bind_ok hok
  have s5 := setF_default_shape s4 (by decide) h5
  cases hok
  exact s5

theorem apply_receiving_shape {target st' : Stats} {parsed : Parsed}
    (hsh : statsShape target = defaultShape)
    (hok : apply_receiving target parsed = .ok st') : statsShape st' = defaultShape := by
  unfold apply_receiving at hok
  obtain ⟨t1, h1, hok⟩ := except_bind_ok hok
  have s1 := setF_default_shape hsh (by decide) h1
  obtain ⟨t2, h2, hok⟩ := except_bind_ok hok
  have s2 := setF_default_shape s1 (by decide) h2
  obtain ⟨t3, h3, hok⟩ := except_bind_ok hok
  have s3 := setF_default_shape s2 (by decide) h3
  obtain ⟨t4, h4, hok⟩ := except_bind_ok hok
  have s4 := setF_default_shape s3 (by decide) h4
  obtain ⟨t5, h5, hok⟩ := except_bind_ok hok
  have s5 := setF_default_shape s4 (by decide) h5
  obtain ⟨t6, h6, hok⟩ := except_bind_ok hok
  have s6 := setF_default_shape s5 (by decide) h6
  cases hok
  exact s6

theorem apply_fumbles_shape {target st' : Stats} {parsed : Parsed}
    (hsh : statsShape target = defaultShape)
    (hok : apply_fumbles target parsed = .ok st') : statsShape st' = defaultShape := by
  unfold apply_fumbles at hok
  obtain ⟨t1, h1, hok⟩ := except_bind_ok hok
  have s1 := setF_default_shape hsh (by decide) h1
  obtain ⟨t2, h2, hok⟩ := except_bind_ok hok
  have s2 := setF_default_shape s1 (by decide) h2
  obtain ⟨t3, h3, hok⟩ := except_bind_ok hok
  have s3 := setF_default_shape s2 (by decide) h3
  cases hok
  exact s3

theorem apply_defense_shape {target st' : Stats} {parsed : Parsed}
    (hsh : statsShape target = defaultShape)
    (hok : apply_defense target parsed = .ok st') : statsShape st' = defaultShape := by
  unfold apply_defense at hok
  obtain ⟨t1, h1, hok⟩ := except_bind_ok hok
  have s1 := setF_default_shape hsh (by decide) h1
  obtain ⟨t2, h2, hok⟩ := except_bind_ok hok
  have s2 := setF_default_shape s1 (by decide) h2
  obtain ⟨t3, h3, hok⟩ := except_bind_ok hok
  have s3 := setF_default_shape s2 (by decide) h3
  obtain ⟨t4, h4, hok⟩ := except_bind_ok hok
  have s4 := setF_default_shape s3 (by decide) h4
  obtain ⟨t5, h5, hok⟩ := except_bind_ok hok
  have s5 := setF_default_shape s4 (by decide) h5
  obtain ⟨t6, h6, hok⟩ := except_bind_ok hok
  have s6 := setF_default_shape s5 (by decide) h6
  obtain ⟨t7, h7, hok⟩ := except_bind_ok hok
  have s7 := setF_default_shape s6 (by decide) h7
  obtain ⟨t8, h8, hok⟩ := except_bind_ok hok
  have s8 := write_if_truthy_shape s7 (by decide) h8
  obtain ⟨t9, h9, hok⟩ := except_bind_ok hok
  have s9 := write_if_truthy_shape s8 (by decide) h9
  obtain ⟨t10, h10, hok⟩ := except_bind_ok hok
  have s10 := write_if_truthy_shape s9 (by decide) h10
  cases hok
  exact s10

theorem apply_interceptions_shape {target st' : Stats} {parsed : Parsed}
    (hsh : statsShape target = defaultShape)
    (hok : apply_interceptions target parsed = .ok st') : statsShape st' = defaultShape := by
  unfold apply_interceptions at hok
  obtain ⟨t1, h1, hok⟩ := except_bind_ok hok
  have s1 := setF_default_shape hsh (by decide) h1
  obtain ⟨t2, h2, hok⟩ := except_bind_ok hok
  have s2 := setF_default_shape s1 (by decide) h2
  obtain ⟨t3, h3, hok⟩ := except_bind_ok hok
  have s3 := setF_default_shape s2 (by decide) h3
  cases hok
  exact s3

theorem apply_kickreturns_shape {target st' : Stats} {parsed : Parsed}
    (hsh : statsShape target = defaultShape)
    (hok : apply_kickreturns target parsed = .ok st') : statsShape st' = defaultShape := by
  unfold apply_kickreturns at hok
  obtain ⟨t1, h1, hok⟩ := except_bind_ok hok
  have s1 := setF_default_shape hsh (by decide) h1
  obtain ⟨t2, h2, hok⟩ := except_bind_ok hok
  have s2 := setF_default_shape s1 (by decide) h2
  obtain ⟨t3, h3, hok⟩ := except_bind_ok hok
  have s3 := setF_default_shape s2 (by decide) h3
  obtain ⟨t4, h4, hok⟩ := except_bind_ok hok
  have s4 := setF_default_shape s3 (by decide) h4
  obtain ⟨t5, h5, hok⟩ := except_bind_ok hok
  have s5 := setF_default_shape s4 (by decide) h5
  cases hok
  exact s5

theorem apply_puntreturns_shape {target st' : Stats} {parsed : Parsed}
    (hsh : statsShape target = defaultShape)
    (hok : apply_puntreturns target parsed = .ok st') : statsShape st' = defaultShape := by
  unfold apply_puntreturns at hok
  obtain ⟨t1, h1, hok⟩ := except_bind_ok hok
  have s1 := setF_default_shape hsh (by decide) h1
  obtain ⟨t2, h2, hok⟩ := except_bind_ok hok
  have s2 := setF_default_shape s1 (by decide) h2
  obtain ⟨t3, h3, hok⟩ := except_bind_ok hok
  have s3 := setF_default_shape s2 (by decide) h3
  obtain ⟨t4, h4, hok⟩ := except_bind_ok hok
  have s4 := setF_default_shape s3 (by decide) h4
  obtain ⟨t5, h5, hok⟩ := except_bind_ok hok
  have s5 := setF_default_shape s4 (by decide) h5
  cases hok
  exact s5

theorem apply_kicking_shape {target st' : Stats} {parsed : Parsed}
    (hsh : statsShape target = defaultShape)
    (hok : apply_kicking target parsed = .ok st') : statsShape st' = defaultShape := by
  unfold apply_kicking at hok
  obtain ⟨t1, h1, hok⟩ := except_bind_ok hok
  have s1 := kicking_fg_step_shape hsh h1
  obtain ⟨t2, h2, hok⟩ := except_bind_ok hok
  have s2 := setF_default_shape s1 (by decide) h2
  obtain ⟨t3, h3, hok⟩ := except_bind_ok hok
  have s3 := setF_default_shape s2 (by decide) h3
  obtain ⟨t4, h4, hok⟩ := except_bind_ok hok
  have s4 := kicking_xp_step_shape s3 h4
  obtain ⟨t5, h5, hok⟩ := except_bind_ok hok
  have s5 := setF_default_shape s4 (by decide) h5
  cases hok
  exact s5

theorem apply_punting_shape {target st' : Stats} {parsed : Parsed}
    (hsh : statsShape target = defaultShape)
    (hok : apply_punting target parsed = .ok st') : statsShape st' = defaultShape := by
  unfold apply_punting at hok
  obtain ⟨t1, h1, hok⟩ := except_bind_ok hok
  have s1 := setF_default_shape hsh (by decide) h1
  obtain ⟨t2, h2, hok⟩ := except_bind_ok hok
  have s2 := setF_default_shape s1 (by decide) h2
  obtain ⟨t3, h3, hok⟩ := except_bind_ok hok
  have s3 := setF_default_shape s2 (by decide) h3
  obtain ⟨t4, h4, hok⟩ := except_bind_ok hok
  have s4 := setF_default_shape s3 (by decide) h4
  obtain ⟨t5, h5, hok⟩ := except_bind_ok hok
  have s5 := setF_default_shape s4 (by decide) h5
  obtain ⟨t6, h6, hok⟩ := except_bind_ok hok
  have s6 := setF_default_shape s5 (by decide) h6
  cases hok
  exact s6

set_option maxHeartbeats 2000000 in
/-- `_apply_category_mappings` writes only fields of the default schema:
whenever it succeeds on a default-shaped target, the result has exactly the
same categories and fields. -/
theorem apply_category_mappings_shape {target st' : Stats} {cn : Json} {parsed : Parsed}
    (hsh : statsShape target = defaultShape)
    (hok : apply_category_mappings target cn parsed = .ok st') :
    statsShape st' = defaultShape := by
  unfold apply_category_mappings at hok
  split at hok
  · cases hok; exact hsh
  split at hok
  all_goals try exact Except.noConfusion hok
  dsimp only at hok
  split at hok
  · exact apply_passing_shape hsh hok
  split at hok
  · exact apply_rushing_shape hsh hok
  split at hok
  · exact apply_receiving_shape hsh hok
  split at hok
  · exact apply_fumbles_shape hsh hok
  split at hok
  · exact apply_defense_shape hsh hok
  split at hok
  · exact apply_interceptions_shape hsh hok
  split at hok
  · exact apply_kickreturns_shape hsh hok
  split at hok
  · exact apply_puntreturns_shape hsh hok
  split at hok
  · exact apply_kicking_shape hsh hok
  split at hok
  · exact apply_punting_shape hsh hok
  cases hok
  exact hsh

/-! ### C9 — passing combined-field preference -/

theorem setF_ok_lookup_other {st st' : Stats} {c f : String} {v : Json}
    (hok : setF st c f v = .ok st') (c' f' : String) (hne : c' ≠ c ∨ f' ≠ f) :
    lookupA ((lookupA st' c').getD []) f' = lookupA ((lookupA st c').getD []) f' := by
  unfold setF at hok
  cases hl : lookupA st c with
  | none => rw [hl] at hok; cases hok
  | some m =>
    rw [hl] at hok
    cases hok
    rcases hne with hc | hf
    · rw [lookupA_upsertA_ne _ _ hc]
    · by_cases hc : c' = c
      · subst hc
        rw [lookupA_upsertA_self, hl]
        simp [lookupA_upsertA_ne _ _ hf]
      · rw [lookupA_upsertA_ne _ _ hc]

theorem setF_ok_lookup_self {st st' : Stats} {c f : String} {v : Json}
    (hok : setF st c f v = .ok st') :
    lookupA ((lookupA st' c).getD []) f = some v := by
  unfold setF at hok
  cases hl : lookupA st c with
  | none => rw [hl] at hok; cases hok
  | some m =>
    rw [hl] at hok
    cases hok
    rw [lookupA_upsertA_self]
    simp [lookupA_upsertA_self]

/-- The sacks step never touches the completions/attempts field. -/
theorem passing_sacks_step_other {st st' : Stats} {parsed : Parsed}
    (hok : passing_sacks_step st parsed = .ok st') :
    lookupA ((lookupA st' "passing").getD []) "completions/passingAttempts"
      = lookupA ((lookupA st "passing").getD []) "completions/passingAttempts" := by
  unfold passing_sacks_step at hok
  dsimp only at hok
  split at hok
  · exact setF_ok_lookup_other hok _ _ (Or.inr (by decide))
  split at hok
  · exact setF_ok_lookup_other hok _ _ (Or.inr (by decide))
  cases hok
  rfl

/-- Value of the completions/attempts field after the combined step. -/
theorem passing_combined_step_value {st st' : Stats} {parsed : Parsed}
    (hok : passing_combined_step st parsed = .ok st') :
    (∀ v, lookupJ parsed "completions/passingAttempts" = some v →
       Json.beq v .null = false → pyStrip (pyStr v) ≠ "" →
       lookupA ((lookupA st' "passing").getD []) "completions/passingAttempts" = some v)
    ∧ (lookupJ parsed "completions/passingAttempts" = none →
       lookupA ((lookupA st' "passing").getD []) "completions/passingAttempts"
         = (if (nzP parsed "completions").truthy || (nzP parsed "attempts").truthy
            then some (.str (pyStr (nzP parsed "completions") ++ "/" ++ pyStr (nzP parsed "attempts")))
            else lookupA ((lookupA st "passing").getD []) "completions/passingAttempts")) := by
  constructor
  · intro v hv hnull hblank
    unfold passing_combined_step at hok
    rw [hv] at hok
    rw [if_pos (by simp [hnull, hblank])] at hok
    exact setF_ok_lookup_self hok
  · intro hv
    unfold passing_combined_step at hok
    rw [hv] at hok
    rw [if_neg (by simp [Json.beq])] at hok
    dsimp only at hok
    split at hok
    · rw [if_pos (by assumption)]
      exact setF_ok_lookup_self hok
    · rw [if_neg (by assumption)]
      cases hok
      rfl

/-- C9: for the passing category, a supplied non-blank combined
`completions/passingAttempts` raw field is preserved verbatim (components
ignored); when the combined field is absent it is synthesized as
`"{completions}/{attempts}"` from the coerced components and written only if
at least one component is truthy (non-zero), the field otherwise keeping its
previous value. -/
theorem passing_combined_field_preference {target st' : Stats} {parsed : Parsed}
    (hne : parsed ≠ [])
    (hok : apply_category_mappings target (.str "passing") parsed = .ok st') :
    (∀ v, lookupJ parsed "completions/passingAttempts" = some v →
       Json.beq v .null = false → pyStrip (pyStr v) ≠ "" →
       lookupA ((lookupA st' "passing").getD []) "completions/passingAttempts" = some v)
    ∧ (lookupJ parsed "completions/passingAttempts" = none →
       lookupA ((lookupA st' "passing").getD []) "completions/passingAttempts"
         = (if (nzP parsed "completions").truthy || (nzP parsed "attempts").truthy
            then some (.str (pyStr (nzP parsed "completions") ++ "/" ++ pyStr (nzP parsed "attempts")))
            else lookupA ((lookupA target "passing").getD []) "completions/passingAttempts")) := by
  have hok1 : apply_passing target parsed = .ok st' := by
    unfold apply_category_mappings at hok
    rw [if_neg (by simpa using hne)] at hok
    rw [show pyOr (.str "passing") (.str "") = .str "passing" from rfl] at hok
    dsimp only at hok
    rw [if_pos (show pyLower "passing" = "passing" from rfl)] at hok
    exact hok
  unfold apply_passing at hok1
  obtain ⟨t1, h1, hok1⟩ := except_bind_ok hok1
  obtain ⟨t2, h2, hok1⟩ := except_bind_ok hok1
  obtain ⟨t3, h3, hok1⟩ := except_bind_ok hok1
  obtain ⟨t4, h4, hok1⟩ := except_bind_ok hok1
  obtain ⟨t5, h5, hok1⟩ := except_bind_ok hok1
  obtain ⟨t6, h6, hok1⟩ := except_bind_ok hok1
  obtain ⟨t7, h7, hok1⟩ := except_bind_ok hok1
  obtain ⟨t8, h8, hok1⟩ := except_bind_ok hok1
  have hst : st' = t8 := by
    cases hok1
    rfl
  subst hst
  have frame : lookupA ((lookupA st' "passing").getD []) "completions/passingAttempts"
      = lookupA ((lookupA t1 "passing").getD []) "completions/passingAttempts" := by
    rw [setF_ok_lookup_other h8 _ _ (Or.inr (by decide)),
        setF_ok_lookup_other h7 _ _ (Or.inr (by decide)),
        passing_sacks_step_other h6,
        setF_ok_lookup_other h5 _ _ (Or.inr (by decide)),
        setF_ok_lookup_other h4 _ _ (Or.inr (by decide)),
        setF_ok_lookup_other h3 _ _ (Or.inr (by decide)),
        setF_ok_lookup_other h2 _ _ (Or.inr (by decide))]
  have hval := passing_combined_step_value h1
  constructor
  · intro v hv hnull hblank
    rw [frame]
    exact hval.1 v hv hnull hblank
  · intro hv
    rw [frame]
    exact hval.2 hv

/-- C9 witness: components 3 and 5 with no combined field synthesize `"3/5"`;
an existing combined field `"4/6"` is preserved verbatim. -/
theorem passing_combined_field_witness :
    (∃ st', apply_category_mappings init_target_stats (.str "passing")
        [(.str "completions", .int 3), (.str "attempts", .int 5)] = .ok st'
      ∧ lookupA ((lookupA st' "passing").getD []) "completions/passingAttempts"
          = some (.str "3/5"))
    ∧ (∃ st', apply_category_mappings init_target_stats (.str "passing")
        [(.str "completions/passingAttempts", .str "4/6"),
         (.str "completions", .int 3), (.str "attempts", .int 5)] = .ok st'
      ∧ lookupA ((lookupA st' "passing").getD []) "completions/passingAttempts"
          = some (.str "4/6")) := by
  constructor
  · have hisok : (apply_category_mappings init_target_stats (.str "passing")
        [(.str "completions", .int 3), (.str "attempts", .int 5)]).isOk = true := by decide
    match hok : apply_category_mappings init_target_stats (.str "passing")
        [(.str "completions", .int 3), (.str "attempts", .int 5)] with
    | .error err =>
      rw [hok] at hisok
      simp [Except.isOk, Except.toBool] at hisok
    | .ok st' =>
      refine ⟨st', rfl, ?_⟩
      have h := (passing_combined_field_preference (List.cons_ne_nil _ _) hok).2 rfl
      rw [if_pos (by decide)] at h
      exact h.trans rfl
  · have hisok : (apply_category_mappings init_target_stats (.str "passing")
        [(.str "completions/passingAttempts", .str "4/6"),
         (.str "completions", .int 3), (.str "attempts", .int 5)]).isOk = true := by decide
    match hok : apply_category_mappings init_target_stats (.str "passing")
        [(.str "completions/passingAttempts", .str "4/6"),
         (.str "completions", .int 3), (.str "attempts", .int 5)] with
    | .error err =>
      rw [hok] at hisok
      simp [Except.isOk, Except.toBool] at hisok
    | .ok st' =>
      refine ⟨st', rfl, ?_⟩
      exact (passing_combined_field_preference (List.cons_ne_nil _ _) hok).1
        (.str "4/6") rfl rfl (by decide)
/-! ### C10 — scoring aggregation -/

/-- A play counts for team `tid` under abbreviation `abbr` when both resolve
successfully to exactly those values. -/
def play_matches (tid abbr : String) (sp : Json) : Bool :=
  (match play_team_id sp with
   | .ok (some t) => t == tid
   | _ => false)
  && (match play_abbr sp with
      | .ok a => a == abbr
      | _ => false)

/-- The per-team increment a single play contributes. -/
def incOf (sp : Json) (tid : String) : Int × Int × Int :=
  ((if play_matches tid "TD" sp then 1 else 0),
   (if play_matches tid "FG" sp then 1 else 0),
   (if play_matches tid "S" sp then 1 else 0))

theorem scoring_play_step_ok {counts counts' : List (String × (Int × Int × Int))} {sp : Json}
    (hok : scoring_play_step counts sp = .ok counts') :
    keysA counts' = keysA counts ∧
    ∀ tid, lookupA counts' tid
      = (lookupA counts tid).map (fun c =>
          (c.1 + (incOf sp tid).1, c.2.1 + (incOf sp tid).2.1, c.2.2 + (incOf sp tid).2.2)) := by
  unfold scoring_play_step at hok
  obtain ⟨r, hr, hok⟩ := except_bind_ok hok
  cases r with
  | none =>
    cases hok
    refine ⟨rfl, fun tid => ?_⟩
    cases hl : lookupA counts tid <;> simp [incOf, play_matches, hr, hl]
  | some t =>
    dsimp only at hok
    cases hlc : lookupA counts t with
    | none =>
      rw [hlc] at hok
      cases hok
      refine ⟨rfl, fun tid => ?_⟩
      by_cases ht : tid = t
      · subst ht
        simp [hlc]
      · cases hl : lookupA counts tid <;>
          simp [incOf, play_matches, hr, hl, Ne.symm ht]
    | some c =>
      rw [hlc] at hok
      obtain ⟨a, ha, hok⟩ := except_bind_ok hok
      have hmatch : ∀ ab, play_matches t ab sp = (a == ab) := by
        intro ab
        simp [play_matches, hr, ha]
      have hmatch_ne : ∀ tid ab, tid ≠ t → play_matches tid ab sp = false := by
        intro tid ab hne
        simp [play_matches, hr]
        intro heq
        exact absurd (by simpa using heq) (Ne.symm hne)
      split at hok
      · rename_i hTD
        cases hok
        refine ⟨keysA_upsertA_isSome _ (by simp [hlc]), fun tid => ?_⟩
        by_cases ht : tid = t
        · subst ht
          rw [lookupA_upsertA_self, hlc]
          simp [incOf, hmatch, hTD]
        · rw [lookupA_upsertA_ne _ _ ht]
          cases hl : lookupA counts tid <;> simp [incOf, hmatch_ne _ _ ht, hl]
      · rename_i hTD
        split at hok
        · rename_i hFG
          cases hok
          refine ⟨keysA_upsertA_isSome _ (by simp [hlc]), fun tid => ?_⟩
          by_cases ht : tid = t
          · subst ht
            rw [lookupA_upsertA_self, hlc]
            simp [incOf, hmatch, hFG, hTD]
          · rw [lookupA_upsertA_ne _ _ ht]
            cases hl : lookupA counts tid <;> simp [incOf, hmatch_ne _ _ ht, hl]
        · rename_i hFG
          split at hok
          · rename_i hS
            cases hok
            refine ⟨keysA_upsertA_isSome _ (by simp [hlc]), fun tid => ?_⟩
            by_cases ht : tid = t
            · subst ht
              rw [lookupA_upsertA_self, hlc]
              simp [incOf, hmatch, hS, hTD, hFG]
            · rw [lookupA_upsertA_ne _ _ ht]
              cases hl : lookupA counts tid <;> simp [incOf, hmatch_ne _ _ ht, hl]
          · rename_i hS
            cases hok
            refine ⟨rfl, fun tid => ?_⟩
            by_cases ht : tid = t
            · subst ht
              rw [hlc]
              simp [incOf, hmatch, hTD, hFG, hS]
            · cases hl : lookupA counts tid <;> simp [incOf, hmatch_ne _ _ ht, hl]

theorem scoring_fold_spec {plays : List Json} :
    ∀ {acc counts : List (String × (Int × Int × Int))},
    List.foldlM scoring_play_step acc plays = .ok counts →
    keysA counts = keysA acc ∧
    ∀ tid, lookupA counts tid = (lookupA acc tid).map
      (fun c => (c.1 + ((plays.filter (play_matches tid "TD")).length : Int),
                 c.2.1 + ((plays.filter (play_matches tid "FG")).length : Int),
                 c.2.2 + ((plays.filter (play_matches tid "S")).length : Int))) := by
  induction plays with
  | nil =>
    intro acc counts hok
    simp only [List.foldlM_nil] at hok
    cases hok
    refine ⟨rfl, fun tid => ?_⟩
    cases lookupA acc tid <;> simp
  | cons p rest ih =>
    intro acc counts hok
    simp only [List.foldlM_cons] at hok
    obtain ⟨mid, hm, hrest⟩ := except_bind_ok hok
    obtain ⟨hk1, hv1⟩ := scoring_play_step_ok hm
    obtain ⟨hk2, hv2⟩ := ih hrest
    refine ⟨hk2.trans hk1, fun tid => ?_⟩
    rw [hv2, hv1]
    cases hl : lookupA acc tid with
    | none => simp
    | some c =>
      simp only [Option.map_some, Option.map_map]
      have hTD : ((List.filter (play_matches tid "TD") (p :: rest)).length : Int)
          = (incOf p tid).1 + ((List.filter (play_matches tid "TD") rest).length : Int) := by
        by_cases hp : play_matches tid "TD" p <;> simp [List.filter, hp, incOf] <;> push_cast <;> ring
      have hFG : ((List.filter (play_matches tid "FG") (p :: rest)).length : Int)
          = (incOf p tid).2.1 + ((List.filter (play_matches tid "FG") rest).length : Int) := by
        by_cases hp : play_matches tid "FG" p <;> simp [List.filter, hp, incOf] <;> push_cast <;> ring
      have hS : ((List.filter (play_matches tid "S") (p :: rest)).length : Int)
          = (incOf p tid).2.2 + ((List.filter (play_matches tid "S") rest).length : Int) := by
        by_cases hp : play_matches tid "S" p <;> simp [List.filter, hp, incOf] <;> push_cast <;> ring
      rw [hTD, hFG, hS]
      congr 1
      funext x
      simp only [Function.comp_apply, Prod.mk.injEq]
      exact ⟨by ring, by ring, by ring⟩

theorem lookupA_init_counts (tids : List String) (tid : String) (h : tid ∈ tids) :
    lookupA (tids.map (fun t => (t, ((0 : Int), (0 : Int), (0 : Int))))) tid
      = some ((0 : Int), (0 : Int), (0 : Int)) := by
  induction tids with
  | nil => cases h
  | cons t rest ih =>
    by_cases ht : t = tid
    · simp [lookupA, ht]
    · have htl : tid ∈ rest := by
        cases h with
        | head => exact absurd rfl ht
        | tail _ hh => exact hh
      simp only [List.map_cons, lookupA]
      rw [if_neg ht]
      exact ih htl

/-- C10: for every scoring-plays list and extracted team set, each team's
synthesized scoring counts are exactly the numbers of its plays whose
resolved abbreviation is TD (touchdowns), FG (fieldGoals) and S (safeties);
plays with any other abbreviation are ignored, and plays referencing a team
id outside the team set contribute nothing and fabricate no team — the
result's keys are exactly the input team ids. -/
theorem compute_scoring_counts_spec (plays : List Json) (tids : List String)
    (counts : List (String × (Int × Int × Int)))
    (hok : compute_scoring_counts plays tids = .ok counts) :
    keysA counts = tids ∧
    ∀ tid ∈ tids, lookupA counts tid = some
      (((plays.filter (play_matches tid "TD")).length : Int),
       ((plays.filter (play_matches tid "FG")).length : Int),
       ((plays.filter (play_matches tid "S")).length : Int)) := by
  unfold compute_scoring_counts at hok
  obtain ⟨hk, hv⟩ := scoring_fold_spec hok
  constructor
  · rw [hk]
    unfold keysA
    rw [List.map_map]
    have hid : (Prod.fst ∘ fun t : String => (t, ((0 : Int), (0 : Int), (0 : Int)))) = id := rfl
    rw [hid, List.map_id]
  · intro tid htid
    rw [hv, lookupA_init_counts tids tid htid]
    simp

/-- C10 witness: plays `[team 1 TD, team 1 FG, team 2 TD]` over teams
`{1, 2}` yield team 1 `(touchdowns 1, fieldGoals 1, safeties 0)` and team 2
`(touchdowns 1, fieldGoals 0, safeties 0)`. -/
theorem compute_scoring_counts_witness :
    ∃ counts, compute_scoring_counts
      [.obj [("team", .obj [("id", .int 1)]), ("scoringType", .obj [("abbreviation", .str "TD")])],
       .obj [("team", .obj [("id", .int 1)]), ("type", .obj [("abbreviation", .str "FG")])],
       .obj [("team", .obj [("id", .int 2)]), ("scoringType", .obj [("abbreviation", .str "TD")])]]
      ["1", "2"] = .ok counts
    ∧ lookupA counts "1" = some ((1 : Int), (1 : Int), (0 : Int))
    ∧ lookupA counts "2" = some ((1 : Int), (0 : Int), (0 : Int)) := by
  have hisok : (compute_scoring_counts
      [.obj [("team", .obj [("id", .int 1)]), ("scoringType", .obj [("abbreviation", .str "TD")])],
       .obj [("team", .obj [("id", .int 1)]), ("type", .obj [("abbreviation", .str "FG")])],
       .obj [("team", .obj [("id", .int 2)]), ("scoringType", .obj [("abbreviation", .str "TD")])]]
      ["1", "2"]).isOk = true := by decide
  match hok : compute_scoring_counts
      [.obj [("team", .obj [("id", .int 1)]), ("scoringType", .obj [("abbreviation", .str "TD")])],
       .obj [("team", .obj [("id", .int 1)]), ("type", .obj [("abbreviation", .str "FG")])],
       .obj [("team", .obj [("id", .int 2)]), ("scoringType", .obj [("abbreviation", .str "TD")])]]
      ["1", "2"] with
  | .error err =>
    rw [hok] at hisok
    simp [Except.isOk, Except.toBool] at hisok
  | .ok counts =>
    refine ⟨counts, rfl, ?_, ?_⟩
    · have h := (compute_scoring_counts_spec _ _ _ hok).2 "1" (by simp)
      rw [h]
      rfl
    · have h := (compute_scoring_counts_spec _ _ _ hok).2 "2" (by simp)
      rw [h]
      rfl

/-! ### Team-identity and shape invariant of the construction passes -/

theorem lookupA_some_mem {α : Type} {m : List (String × α)} {k : String} {v : α}
    (h : lookupA m k = some v) : (k, v) ∈ m := by
  induction m with
  | nil => cases h
  | cons kv rest ih =>
    by_cases hk : kv.1 = k
    · obtain ⟨k1, v1⟩ := kv
      simp only [lookupA, if_pos hk] at h
      cases hk
      cases h
      exact List.mem_cons_self _ _
    · simp only [lookupA, if_neg hk] at h
      exact List.mem_cons_of_mem _ (ih h)

theorem mem_upsertA {α : Type} {m : List (String × α)} {k : String} {v : α} {kv : String × α}
    (h : kv ∈ upsertA m k v) : kv = (k, v) ∨ kv ∈ m := by
  induction m with
  | nil => simpa [upsertA] using h
  | cons kv0 rest ih =>
    by_cases hk : kv0.1 = k
    · simp only [upsertA, if_pos hk] at h
      rcases List.mem_cons.mp h with h1 | h1
      · exact Or.inl h1
      · exact Or.inr (List.mem_cons_of_mem _ h1)
    · simp only [upsertA, if_neg hk] at h
      rcases List.mem_cons.mp h with h1 | h1
      · exact Or.inr (h1 ▸ List.mem_cons_self _ _)
      · rcases ih h1 with h2 | h2
        · exact Or.inl h2
        · exact Or.inr (List.mem_cons_of_mem _ h2)

/-- `upsertA` preserves any keyed invariant together with `Nodup` keys. -/
theorem assocInv_upsertA {α : Type} {Q : String × α → Prop} {m : List (String × α)}
    {k : String} {v : α}
    (hnd : (keysA m).Nodup) (hq : ∀ kv ∈ m, Q kv) (hv : Q (k, v)) :
    (keysA (upsertA m k v)).Nodup ∧ ∀ kv ∈ upsertA m k v, Q kv := by
  constructor
  · cases hl : lookupA m k with
    | some w =>
      rw [keysA_upsertA_isSome v (by simp [hl])]
      exact hnd
    | none =>
      rw [keysA_upsertA_none v hl]
      have hnm : k ∉ keysA m := (lookupA_none_iff_not_mem m k).mp hl
      simp [List.nodup_append, hnd, hnm]
  · intro kv hkv
    rcases mem_upsertA hkv with h1 | h1
    · subst h1; exact hv
    · exact hq kv h1

/-- Invariant of the in-progress players dict: keys `Nodup`, each key is the
athlete identity key of its entry, each stats dict has the default shape. -/
def PlayerDictInv (m : List (String × PlayerEntry)) : Prop :=
  (keysA m).Nodup ∧ ∀ q ∈ m, q.1 = keyFor q.2 ∧ statsShape q.2.stats = defaultShape

/-- Invariant of one `teams_out` slot during the two construction passes. -/
def TeamEntryInv (k : String) (e : TeamEntry) : Prop :=
  k ≠ "" ∧ e.teamId = k ∧ statsShape e.stats = defaultShape ∧
  ∃ m, e.players = .dict m ∧ PlayerDictInv m

/-- Invariant of `teams_out` during the two construction passes. -/
def TeamsInv (teams : TeamsOut) : Prop :=
  (keysA teams).Nodup ∧ ∀ kv ∈ teams, TeamEntryInv kv.1 kv.2

theorem TeamsInv_nil : TeamsInv [] :=
  ⟨List.nodup_nil, by intro kv h; cases h⟩

theorem TeamsInv_upsertA {teams : TeamsOut} {k : String} {e : TeamEntry}
    (hinv : TeamsInv teams) (he : TeamEntryInv k e) : TeamsInv (upsertA teams k e) :=
  assocInv_upsertA hinv.1 hinv.2 he

theorem init_target_stats_shape : statsShape init_target_stats = defaultShape := by rfl

theorem ensure_team_entry_inv {teams : TeamsOut} {tid : String} (abbr name : Json)
    (scores : List (String × Json)) (poss : List (String × Bool))
    (htid : tid ≠ "") (hinv : TeamsInv teams) :
    TeamsInv (ensure_team_entry teams tid abbr name scores poss) := by
  unfold ensure_team_entry
  cases hl : lookupA teams tid with
  | none =>
    exact TeamsInv_upsertA hinv
      ⟨htid, rfl, init_target_stats_shape, [], rfl, List.nodup_nil, by intro q h; cases h⟩
  | some entry =>
    obtain ⟨-, hid, hsh, m, hp, hpd⟩ := hinv.2 (tid, entry) (lookupA_some_mem hl)
    dsimp only
    refine TeamsInv_upsertA hinv ?_
    split_ifs <;>
      simp_all [TeamEntryInv] <;>
      exact ⟨m, hp, hpd⟩

theorem PlayerDictInv_insert {pm : List (String × PlayerEntry)} (pe : PlayerEntry) (k : String)
    (hpd : PlayerDictInv pm) (hk : k = keyFor pe) (hsh : statsShape pe.stats = defaultShape) :
    PlayerDictInv (if (lookupA pm k).isNone then upsertA pm k pe else pm) := by
  split
  · unfold PlayerDictInv
    refine assocInv_upsertA hpd.1 hpd.2 ?_
    exact ⟨hk, hsh⟩
  · exact hpd

theorem process_athlete_inv {tid : String} {stat_cat cat_name : Json} {teams out : TeamsOut}
    {a : Json} (hinv : TeamsInv teams)
    (hok : process_athlete tid stat_cat cat_name teams a = .ok out) : TeamsInv out := by
  unfold process_athlete at hok
  obtain ⟨meta, hmeta, hok⟩ := except_bind_ok hok
  dsimp only at hok
  cases hl : lookupA teams tid with
  | none => rw [hl] at hok; cases hok
  | some e =>
    rw [hl] at hok
    dsimp only at hok
    have hTE : TeamEntryInv tid e := hinv.2 (tid, e) (lookupA_some_mem hl)
    obtain ⟨hne, hid, hsh, pm, hp, hpd⟩ := hTE
    rw [hp] at hok
    dsimp only at hok
    have hm1 := PlayerDictInv_insert
      ⟨meta.athleteId, meta.fullName, meta.position, meta.jersey, meta.headshot,
        init_target_stats⟩
      (if meta.athleteId ≠ "" then meta.athleteId else "name:" ++ pyStr meta.fullName)
      hpd rfl init_target_stats_shape
    obtain ⟨parsed, hpar, hok⟩ := except_bind_ok hok
    split at hok
    · cases hok
    · rename_i p heq
      obtain ⟨st, happ, hok⟩ := except_bind_ok hok
      cases hok
      obtain ⟨hkey, hpsh⟩ := hm1.2 _ (lookupA_some_mem heq)
      refine TeamsInv_upsertA hinv ⟨hne, hid, hsh, _, rfl, ?_⟩
      unfold PlayerDictInv
      refine assocInv_upsertA hm1.1 hm1.2 ?_
      exact ⟨hkey, apply_category_mappings_shape hpsh happ⟩

theorem process_stat_cat_inv {tid : String} {teams out : TeamsOut} {stat_cat : Json}
    (hinv : TeamsInv teams) (hok : process_stat_cat tid teams stat_cat = .ok out) :
    TeamsInv out := by
  unfold process_stat_cat at hok
  obtain ⟨cnv, h1, hok⟩ := except_bind_ok hok
  dsimp only at hok
  obtain ⟨totals, h2, hok⟩ := except_bind_ok hok
  split at hok
  · split at hok
    · obtain ⟨y, hy, hok⟩ := except_bind_ok hok
      cases hy
    · rename_i e heq
      obtain ⟨st, happ, hok⟩ := except_bind_ok hok
      obtain ⟨y, hy, hok⟩ := except_bind_ok hok
      cases hy
      have hTE : TeamEntryInv tid e := hinv.2 (tid, e) (lookupA_some_mem heq)
      obtain ⟨hne, hid, hsh, pm, hp, hpd⟩ := hTE
      obtain ⟨av, h4, hok⟩ := except_bind_ok hok
      obtain ⟨athletes, h5, hok⟩ := except_bind_ok hok
      refine foldlM_ok_inv (fun s a s' hs h => process_athlete_inv hs h) ?_ hok
      refine TeamsInv_upsertA hinv ⟨hne, hid, ?_, pm, hp, hpd⟩
      exact apply_category_mappings_shape hsh happ
  · obtain ⟨y, hy, hok⟩ := except_bind_ok hok
    cases hy
    obtain ⟨av, h4, hok⟩ := except_bind_ok hok
    obtain ⟨athletes, h5, hok⟩ := except_bind_ok hok
    exact foldlM_ok_inv (fun s a s' hs h => process_athlete_inv hs h) hinv hok

theorem process_team_block_inv {scores : List (String × Json)} {poss : List (String × Bool)}
    {teams out : TeamsOut} {tb : Json}
    (hinv : TeamsInv teams) (hok : process_team_block scores poss teams tb = .ok out) :
    TeamsInv out := by
  unfold process_team_block at hok
  obtain ⟨tm0, h1, hok⟩ := except_bind_ok hok
  obtain ⟨tm, h2, hok⟩ := except_bind_ok hok
  dsimp only at hok
  split at hok
  · cases hok; exact hinv
  · rename_i hne
    obtain ⟨sv, h3, hok⟩ := except_bind_ok hok
    obtain ⟨cats, h4, hok⟩ := except_bind_ok hok
    exact foldlM_ok_inv (fun s a s' hs h => process_stat_cat_inv hs h)
      (ensure_team_entry_inv _ _ _ _ hne hinv) hok

theorem keysA_updTeam (teams : TeamsOut) (tid : String) (f : TeamEntry → TeamEntry) :
    keysA (updTeam teams tid f) = keysA teams := by
  induction teams with
  | nil => rfl
  | cons kv rest ih =>
    by_cases h : kv.1 = tid
    · simpa [updTeam, keysA, h] using ih
    · simpa [updTeam, keysA, h] using ih

/-- `updTeam` preserves any per-slot invariant its update function preserves. -/
theorem updTeam_pres {P : String → TeamEntry → Prop} {teams : TeamsOut} {tid : String}
    {f : TeamEntry → TeamEntry}
    (h : ∀ kv ∈ teams, P kv.1 kv.2) (hf : ∀ k e, P k e → P k (f e)) :
    ∀ kv ∈ updTeam teams tid f, P kv.1 kv.2 := by
  intro kv hkv
  unfold updTeam at hkv
  rcases List.mem_map.mp hkv with ⟨kv0, h0, rfl⟩
  by_cases hc : kv0.1 = tid
  · simp only [if_pos hc]
    exact hf _ _ (h kv0 h0)
  · simp only [if_neg hc]
    exact h kv0 h0

theorem TeamsInv_updTeam {teams : TeamsOut} {tid : String} {f : TeamEntry → TeamEntry}
    (hinv : TeamsInv teams) (hf : ∀ k e, TeamEntryInv k e → TeamEntryInv k (f e)) :
    TeamsInv (updTeam teams tid f) :=
  ⟨by rw [keysA_updTeam]; exact hinv.1, updTeam_pres hinv.2 hf⟩

theorem TeamEntryInv_set_homeAway {k : String} {e : TeamEntry} {v : Option Json}
    (h : TeamEntryInv k e) : TeamEntryInv k { e with homeAway := v } := by
  obtain ⟨h1, h2, h3, m, hp, hpd⟩ := h
  exact ⟨h1, h2, h3, m, hp, hpd⟩

theorem TeamEntryInv_set_displayOrder {k : String} {e : TeamEntry} {v : Option Json}
    (h : TeamEntryInv k e) : TeamEntryInv k { e with displayOrder := v } := by
  obtain ⟨h1, h2, h3, m, hp, hpd⟩ := h
  exact ⟨h1, h2, h3, m, hp, hpd⟩

theorem process_teams_pass_block_inv {scores : List (String × Json)}
    {poss : List (String × Bool)} {teams out : TeamsOut} {tb : Json}
    (hinv : TeamsInv teams) (hok : process_teams_pass_block scores poss teams tb = .ok out) :
    TeamsInv out := by
  unfold process_teams_pass_block at hok
  obtain ⟨tm0, h1, hok⟩ := except_bind_ok hok
  dsimp only at hok
  obtain ⟨tm, h2, hok⟩ := except_bind_ok hok
  split at hok
  · cases hok; exact hinv
  · rename_i hne
    obtain ⟨ha, h3, hok⟩ := except_bind_ok hok
    obtain ⟨dOrd, h4, hok⟩ := except_bind_ok hok
    cases hok
    have hinv1 := ensure_team_entry_inv tm.2.1 tm.2.2 scores poss hne hinv
    split
    · refine TeamsInv_updTeam ?_ (fun k e h => TeamEntryInv_set_displayOrder h)
      split
      · exact TeamsInv_updTeam hinv1 (fun k e h => TeamEntryInv_set_homeAway h)
      · exact hinv1
    · split
      · exact TeamsInv_updTeam hinv1 (fun k e h => TeamEntryInv_set_homeAway h)
      · exact hinv1

/-- Field set of the synthesized `scoring` category. -/
def scoringShape : List String := ["touchdowns", "fieldGoals", "safeties"]

/-- Per-team invariant after the scoring-plays aggregation: the stats shape is
the default one, optionally extended by the appended `scoring` category. -/
def TeamEntryInv2 (k : String) (e : TeamEntry) : Prop :=
  k ≠ "" ∧ e.teamId = k ∧
  (statsShape e.stats = defaultShape ∨
    statsShape e.stats = defaultShape ++ [("scoring", scoringShape)]) ∧
  ∃ m, e.players = .dict m ∧ PlayerDictInv m

def TeamsInv2 (teams : TeamsOut) : Prop :=
  (keysA teams).Nodup ∧ ∀ kv ∈ teams, TeamEntryInv2 kv.1 kv.2

theorem TeamsInv_to2 {teams : TeamsOut} (h : TeamsInv teams) : TeamsInv2 teams := by
  refine ⟨h.1, fun kv hkv => ?_⟩
  obtain ⟨h1, h2, h3, m, hp, hpd⟩ := h.2 kv hkv
  exact ⟨h1, h2, Or.inl h3, m, hp, hpd⟩

theorem upsertA_defaultShape_scoring :
    upsertA defaultShape "scoring" scoringShape
      = defaultShape ++ [("scoring", scoringShape)] := by rfl

theorem upsertA_scoringShape_again :
    upsertA (defaultShape ++ [("scoring", scoringShape)]) "scoring" scoringShape
      = defaultShape ++ [("scoring", scoringShape)] := by rfl

theorem TeamEntryInv2_set_scoring {k : String} {e : TeamEntry} {a b c : Int}
    (h : TeamEntryInv2 k e) :
    TeamEntryInv2 k { e with stats := (upsertA e.stats "scoring"
      [("touchdowns", .int a), ("fieldGoals", .int b), ("safeties", .int c)]) } := by
  obtain ⟨h1, h2, h3, m, hp, hpd⟩ := h
  refine ⟨h1, h2, Or.inr ?_, m, hp, hpd⟩
  show statsShape (upsertA e.stats "scoring"
      [("touchdowns", .int a), ("fieldGoals", .int b), ("safeties", .int c)]) = _
  rw [statsShape_upsertA]
  rcases h3 with h3 | h3 <;> rw [h3]
  · exact upsertA_defaultShape_scoring
  · exact upsertA_scoringShape_again

theorem TeamsInv2_updTeam {teams : TeamsOut} {tid : String} {f : TeamEntry → TeamEntry}
    (hinv : TeamsInv2 teams) (hf : ∀ k e, TeamEntryInv2 k e → TeamEntryInv2 k (f e)) :
    TeamsInv2 (updTeam teams tid f) :=
  ⟨by rw [keysA_updTeam]; exact hinv.1, updTeam_pres hinv.2 hf⟩

theorem scoring_foldl_inv2 {counts : List (String × (Int × Int × Int))} {teams : TeamsOut}
    (hinv : TeamsInv2 teams) :
    TeamsInv2 (counts.foldl (fun ts tc =>
      updTeam ts tc.1 (fun e =>
        { e with stats := (upsertA e.stats "scoring"
            [("touchdowns", .int tc.2.1),
             ("fieldGoals", .int tc.2.2.1),
             ("safeties", .int tc.2.2.2)]) })) teams) := by
  induction counts generalizing teams with
  | nil => exact hinv
  | cons tc rest ih =>
    exact ih (TeamsInv2_updTeam hinv (fun k e h => TeamEntryInv2_set_scoring h))

theorem attach_scoring_inv2 {raw : Json} {teams : TeamsOut} (hinv : TeamsInv teams) :
    TeamsInv2 (attach_scoring raw teams) := by
  unfold attach_scoring
  dsimp only
  split
  · rename_i t heq
    obtain ⟨sp1, h1, heq⟩ := except_bind_ok heq
    split at heq
    · obtain ⟨y, hy, heq⟩ := except_bind_ok heq
      cases hy
      split at heq
      all_goals try (cases heq; exact TeamsInv_to2 hinv)
      split at heq
      · cases heq; exact TeamsInv_to2 hinv
      · obtain ⟨counts, h3, heq⟩ := except_bind_ok heq
        cases heq
        exact scoring_foldl_inv2 (TeamsInv_to2 hinv)
    · obtain ⟨sp2, h2, heq⟩ := except_bind_ok heq
      obtain ⟨y, hy, heq⟩ := except_bind_ok heq
      cases hy
      split at heq
      all_goals try (cases heq; exact TeamsInv_to2 hinv)
      split at heq
      · cases heq; exact TeamsInv_to2 hinv
      · obtain ⟨counts, h3, heq⟩ := except_bind_ok heq
        cases heq
        exact scoring_foldl_inv2 (TeamsInv_to2 hinv)
  · exact TeamsInv_to2 hinv

theorem players_to_list_teamId (e : TeamEntry) : (players_to_list e).teamId = e.teamId := by
  unfold players_to_list
  split <;> rfl

theorem players_to_list_stats (e : TeamEntry) : (players_to_list e).stats = e.stats := by
  unfold players_to_list
  split <;> rfl

theorem players_to_list_players {e : TeamEntry} {m : List (String × PlayerEntry)}
    (hp : e.players = .dict m) : (players_to_list e).players = .list (m.map Prod.snd) := by
  unfold players_to_list
  rw [hp]

theorem map_congr_mem {α β : Type} {l : List α} {f g : α → β}
    (h : ∀ a ∈ l, f a = g a) : l.map f = l.map g := by
  induction l with
  | nil => rfl
  | cons a rest ih =>
    simp only [List.map_cons]
    rw [h a (List.mem_cons_self a rest), ih (fun x hx => h x (List.mem_cons_of_mem a hx))]

/-- What the construction passes guarantee of every serialized team: a
non-empty id, the default stats shape (possibly extended by the appended
`scoring` category), and default-shaped stats for every listed player. -/
def RefinedTeamOk (e : TeamEntry) : Prop :=
  e.teamId ≠ "" ∧
  (statsShape e.stats = defaultShape ∨
    statsShape e.stats = defaultShape ++ [("scoring", scoringShape)]) ∧
  ∃ l, e.players = .list l ∧ ∀ p ∈ l, statsShape p.stats = defaultShape

/-- Structural invariant of every document `refine_boxscore` returns. -/
theorem refine_doc_inv {raw : Json} {eid gat : String} {d : RefinedDoc}
    (hok : refine_boxscore raw eid gat = .ok d) :
    (d.teams.map TeamEntry.teamId).Nodup ∧ ∀ e ∈ d.teams, RefinedTeamOk e := by
  unfold refine_boxscore at hok
  obtain ⟨box, hbox, hok⟩ := except_bind_ok hok
  dsimp only at hok
  split at hok
  · cases hok
    exact ⟨List.nodup_nil, by intro e he; cases he⟩
  · obtain ⟨u, h0, hok⟩ := except_bind_ok hok
    obtain ⟨pv, h1, hok⟩ := except_bind_ok hok
    obtain ⟨pblocks, h2, hok⟩ := except_bind_ok hok
    obtain ⟨teams1, h3, hok⟩ := except_bind_ok hok
    obtain ⟨tv, h4, hok⟩ := except_bind_ok hok
    obtain ⟨tblocks, h5, hok⟩ := except_bind_ok hok
    obtain ⟨teams2, h6, hok⟩ := except_bind_ok hok
    cases hok
    have hinv1 : TeamsInv teams1 :=
      foldlM_ok_inv (fun s a s' hs h => process_team_block_inv hs h) TeamsInv_nil h3
    have hinv2 : TeamsInv teams2 :=
      foldlM_ok_inv (fun s a s' hs h => process_teams_pass_block_inv hs h) hinv1 h6
    have hinv3 : TeamsInv2 (attach_scoring raw teams2) := attach_scoring_inv2 hinv2
    constructor
    · have hmap : (((attach_scoring raw teams2).map
          (fun kv => (kv.1, players_to_list kv.2))).map Prod.snd).map TeamEntry.teamId
          = keysA (attach_scoring raw teams2) := by
        rw [List.map_map, List.map_map]
        refine map_congr_mem ?_
        intro kv hkv
        have h := (hinv3.2 kv hkv).2.1
        simpa [Function.comp, players_to_list_teamId] using h
      rw [hmap]
      exact hinv3.1
    · intro e he
      rw [List.map_map] at he
      rcases List.mem_map.mp he with ⟨kv, hkv, rfl⟩
      obtain ⟨hne, hid, hsh, m, hp, hpd⟩ := hinv3.2 kv hkv
      show RefinedTeamOk (players_to_list kv.2)
      refine ⟨?_, ?_, m.map Prod.snd, players_to_list_players hp, ?_⟩
      · rw [players_to_list_teamId, hid]; exact hne
      · rw [players_to_list_stats]; exact hsh
      · intro p hpmem
        rcases List.mem_map.mp hpmem with ⟨q, hq, rfl⟩
        exact (hpd.2 q hq).2

/-- Teams-array block for team `1` marked `home` (C6 counterexample input). -/
def tbHome : Json := .obj [("team", .obj [("id", .str "1"), ("abbreviation", .str "AAA"),
  ("displayName", .str "Alpha")]), ("homeAway", .str "home")]

/-- The same team `1` marked `away`. -/
def tbAway : Json := .obj [("team", .obj [("id", .str "1"), ("abbreviation", .str "AAA"),
  ("displayName", .str "Alpha")]), ("homeAway", .str "away")]

/-- Raw payload whose teams array lists team `1` twice with conflicting
`homeAway` values. -/
def cRawC6 : Json := .obj [("players", .arr []), ("teams", .arr [tbHome, tbAway])]

/-- C6 counterexample: processing the first teams-array block alone populates
`homeAway = "home"`, yet the full document ends with `homeAway = "away"` — a
later teams-array block for the same team OVERWRITES the already-populated
`homeAway` (and likewise `displayOrder`) instead of only backfilling it. -/
theorem team_homeAway_overwritten :
    (refine_boxscore cRawC6 "E1" "T1").map (fun d => d.teams.map (fun e => e.homeAway))
        = .ok [some (Json.str "away")] ∧
    (process_teams_pass_block [] [] [] tbHome).map (fun ts => ts.map (fun kv => kv.2.homeAway))
        = .ok [some (Json.str "home")] :=
  ⟨rfl, rfl⟩

/-- C6 (amended): every team of a refined document has a non-empty `teamId`
and no two teams share one; a team met again is reused (`_ensure_team_entry`
keeps the key set and backfills `abbreviation`/`displayName`/`teamId`/`score`
only when they are falsy/null, leaving `stats`, a dict `players`, `homeAway`
and `displayOrder` untouched) — but `possession` is recomputed on every call,
and the teams-array pass overwrites `homeAway`/`displayOrder` whenever the
later block supplies them. -/
theorem refine_team_identity_and_backfill :
    (∀ (raw : Json) (eid gat : String) (d : RefinedDoc),
      refine_boxscore raw eid gat = .ok d →
        (d.teams.map TeamEntry.teamId).Nodup ∧ ∀ e ∈ d.teams, e.teamId ≠ "") ∧
    (∀ (teams : TeamsOut) (tid : String) (abbr name : Json)
      (scores : List (String × Json)) (poss : List (String × Bool)) (e : TeamEntry),
      lookupA teams tid = some e →
        keysA (ensure_team_entry teams tid abbr name scores poss) = keysA teams ∧
        ∃ e', lookupA (ensure_team_entry teams tid abbr name scores poss) tid = some e' ∧
          (e.abbreviation.truthy = true → e'.abbreviation = e.abbreviation) ∧
          (e.displayName.truthy = true → e'.displayName = e.displayName) ∧
          (e.teamId ≠ "" → e'.teamId = e.teamId) ∧
          (Json.beq e.score .null = false → e'.score = e.score) ∧
          e'.stats = e.stats ∧
          (∀ pm, e.players = .dict pm → e'.players = e.players) ∧
          e'.homeAway = e.homeAway ∧ e'.displayOrder = e.displayOrder ∧
          e'.possession = ((lookupA poss tid).getD false)) := by
  constructor
  · intro raw eid gat d h
    exact ⟨(refine_doc_inv h).1, fun e he => ((refine_doc_inv h).2 e he).1⟩
  · intro teams tid abbr name scores poss e hl
    unfold ensure_team_entry
    rw [hl]
    dsimp only
    refine ⟨keysA_upsertA_isSome _ (by simp [hl]), ?_⟩
    refine ⟨_, lookupA_upsertA_self _ _ _, ?_⟩
    split_ifs <;> cases hp : e.players <;> simp_all

/-- A populated team entry used to exercise the backfill clauses. -/
def eC6 : TeamEntry :=
  { teamId := "1", abbreviation := .str "AAA", displayName := .str "Alpha", score := .int 3,
    stats := init_target_stats, players := .dict [], possession := false,
    homeAway := none, displayOrder := none }

/-- C6 witness: the identity/backfill theorem applied to the concrete payload
`cRawC6` and to a one-team dict hit again with fresh metadata. -/
theorem refine_team_identity_and_backfill_witness :
    ∃ d, refine_boxscore cRawC6 "E1" "T1" = .ok d ∧
      (d.teams.map TeamEntry.teamId).Nodup ∧ (∀ e ∈ d.teams, e.teamId ≠ "") ∧
      keysA (ensure_team_entry [("1", eC6)] "1" (.str "BBB") (.str "Beta") [] []) = ["1"] ∧
      ∃ e', lookupA (ensure_team_entry [("1", eC6)] "1" (.str "BBB") (.str "Beta") [] []) "1"
          = some e' ∧ e'.abbreviation = .str "AAA" ∧ e'.score = .int 3 := by
  have hisok : (refine_boxscore cRawC6 "E1" "T1").isOk = true := by decide
  match hok : refine_boxscore cRawC6 "E1" "T1" with
  | .error err =>
    rw [hok] at hisok
    simp [Except.isOk, Except.toBool] at hisok
  | .ok d =>
    have h1 := refine_team_identity_and_backfill.1 cRawC6 "E1" "T1" d hok
    have h2 := refine_team_identity_and_backfill.2 [("1", eC6)] "1" (.str "BBB") (.str "Beta")
      [] [] eC6 rfl
    refine ⟨d, rfl, h1.1, h1.2, ?_, ?_⟩
    · rw [h2.1]; rfl
    · obtain ⟨e', hle, habbr, -, -, hscore, -⟩ := h2.2
      exact ⟨e', hle, (habbr (by decide)).trans rfl, (hscore (by decide)).trans rfl⟩

/-- Raw payload with one team and one athlete and no scoring plays
(C4 counterexample input). -/
def cRawC4 : Json := .obj [
  ("players", .arr [
    .obj [("team", .obj [("id", .str "1"), ("abbreviation", .str "AAA"),
            ("displayName", .str "Alpha")]),
          ("statistics", .arr [
            .obj [("name", .str "passing"), ("keys", .arr [.str "passingYards"]),
                  ("athletes", .arr [
                    .obj [("athlete", .obj [("id", .str "7"),
                            ("displayName", .str "QB One")]),
                          ("stats", .arr [.str "123"])]])]])]]),
  ("teams", .arr [])]

/-- C4 counterexample: the engine produces a document in which the team's
stats carry NO `scoring` category (there were no scoring plays) and its one
player's stats carry none either — the synthesized `scoring` category is not
always present. -/
theorem scoring_absent_without_plays :
    (refine_boxscore cRawC4 "E1" "T1").map (fun d =>
      d.teams.map (fun e => ((lookupA e.stats "scoring").isSome,
        match e.players with
        | PlayersCont.list l =>
            l.map (fun (p : PlayerEntry) => (lookupA p.stats "scoring").isSome)
        | PlayersCont.dict m =>
            m.map (fun (q : String × PlayerEntry) => (lookupA q.2.stats "scoring").isSome))))
      = .ok [(false, [false])] := rfl

/-- Presence, in a stats shape, of every default category with its full
default field set. -/
def hasDefaultsShape (sh : List (String × List String)) : Bool :=
  defaultShape.all (fun cf =>
    match lookupA sh cf.1 with
    | some fs => cf.2.all (fun f => fs.contains f)
    | none => false)

/-- C4 (amended): in every document the engine produces, every team and every
player carries all ten default categories with their full default field sets,
even when all values are zero; but the synthesized `scoring` category is
present only on teams (never on players), and only when a non-empty
scoring-plays list was aggregated. -/
theorem all_default_categories_present {raw : Json} {eid gat : String} {d : RefinedDoc}
    (hok : refine_boxscore raw eid gat = .ok d) :
    ∀ e ∈ d.teams,
      hasDefaultsShape (statsShape e.stats) = true ∧
      ∃ l, e.players = .list l ∧ ∀ p ∈ l,
        hasDefaultsShape (statsShape p.stats) = true ∧ lookupA p.stats "scoring" = none := by
  intro e he
  obtain ⟨-, hsh, l, hp, hps⟩ := (refine_doc_inv hok).2 e he
  refine ⟨?_, l, hp, ?_⟩
  · rcases hsh with h | h <;> rw [h] <;> decide
  · intro p hmem
    have h := hps p hmem
    constructor
    · rw [h]; decide
    · have h2 : lookupA (statsShape p.stats) "scoring" = none := by rw [h]; decide
      rw [lookupA_statsShape] at h2
      exact Option.map_eq_none'.mp h2

/-- C4 witness: the amended theorem applied to the concrete payload
`cRawC4`, whose document has exactly one team with exactly one player. -/
theorem all_default_categories_present_witness :
    ∃ d, refine_boxscore cRawC4 "E1" "T1" = .ok d ∧
      (match d.teams with
       | [e] => (match e.players with
                 | PlayersCont.list (_ :: []) => true
                 | _ => false)
       | _ => false) = true ∧
      ∀ e ∈ d.teams,
        hasDefaultsShape (statsShape e.stats) = true ∧
        ∃ l, e.players = .list l ∧ ∀ p ∈ l,
          hasDefaultsShape (statsShape p.stats) = true ∧ lookupA p.stats "scoring" = none := by
  have hisok : (refine_boxscore cRawC4 "E1" "T1").isOk = true := by decide
  match hok : refine_boxscore cRawC4 "E1" "T1" with
  | .error err =>
    rw [hok] at hisok
    simp [Except.isOk, Except.toBool] at hisok
  | .ok d =>
    refine ⟨d, rfl, ?_, fun e he => all_default_categories_present hok e he⟩
    have hb := congrArg (fun x =>
      match x with
      | Except.ok dd =>
        (match dd.teams with
         | [e] => (match e.players with
                   | PlayersCont.list (_ :: []) => true
                   | _ => false)
         | _ => false)
      | Except.error _ => false) hok
    exact hb.symm.trans rfl

/-! ### Default-category completeness through the roster merger -/

theorem foldl_pres_mem {α β : Type} (P : α → Prop) {f : α → β → α} :
    ∀ (l : List β) (a₀ : α), (∀ a x, x ∈ l → P a → P (f a x)) → P a₀ → P (l.foldl f a₀) := by
  intro l
  induction l with
  | nil => intro a₀ _ h; exact h
  | cons x rest ih =>
    intro a₀ hstep h
    exact ih (f a₀ x) (fun a y hy ha => hstep a y (List.mem_cons_of_mem x hy) ha)
      (hstep a₀ x (List.mem_cons_self x rest) h)

theorem lookupA_eq_of_mem_nodup {α : Type} {m : List (String × α)} {k : String} {v : α}
    (hnd : (keysA m).Nodup) (h : (k, v) ∈ m) : lookupA m k = some v := by
  induction m with
  | nil => cases h
  | cons kv rest ih =>
    rcases List.mem_cons.mp h with h1 | h1
    · cases h1
      simp [lookupA]
    · by_cases hk : kv.1 = k
      · exfalso
        have hmem : k ∈ keysA rest := List.mem_map_of_mem Prod.fst h1
        exact (List.nodup_cons.mp hnd).1 (hk ▸ hmem)
      · simp only [lookupA, if_neg hk]
        exact ih (List.nodup_cons.mp hnd).2 h1

theorem keysA_upsertA_nodup {α : Type} {m : List (String × α)} (k : String) (v : α)
    (h : (keysA m).Nodup) : (keysA (upsertA m k v)).Nodup := by
  cases hl : lookupA m k with
  | some w =>
    rw [keysA_upsertA_isSome v (by simp [hl])]
    exact h
  | none =>
    rw [keysA_upsertA_none v hl]
    have hnm : k ∉ keysA m := (lookupA_none_iff_not_mem m k).mp hl
    simp [List.nodup_append, h, hnm]

theorem mem_upsertA_ne {α : Type} {m : List (String × α)} {k : String} {v : α}
    {kv : String × α} (hnd : (keysA m).Nodup) (h : kv ∈ upsertA m k v) :
    kv = (k, v) ∨ (kv ∈ m ∧ kv.1 ≠ k) := by
  induction m with
  | nil => left; simpa [upsertA] using h
  | cons kv0 rest ih =>
    have hnd' := List.nodup_cons.mp hnd
    by_cases hk : kv0.1 = k
    · simp only [upsertA, if_pos hk] at h
      rcases List.mem_cons.mp h with h1 | h1
      · exact Or.inl h1
      · refine Or.inr ⟨List.mem_cons_of_mem _ h1, fun hEq => ?_⟩
        have hmem : kv.1 ∈ keysA rest := List.mem_map_of_mem Prod.fst h1
        have h01 : kv.1 = kv0.1 := hEq.trans hk.symm
        exact hnd'.1 (h01 ▸ hmem)
    · simp only [upsertA, if_neg hk] at h
      rcases List.mem_cons.mp h with h1 | h1
      · exact Or.inr ⟨h1 ▸ List.mem_cons_self _ _, by rw [h1]; exact hk⟩
      · rcases ih hnd'.2 h1 with h2 | h2
        · exact Or.inl h2
        · exact Or.inr ⟨List.mem_cons_of_mem _ h2.1, h2.2⟩

theorem lookupA_append_of_isSome {α : Type} {m1 : List (String × α)}
    (m2 : List (String × α)) {k : String} (h : (lookupA m1 k).isSome = true) :
    lookupA (m1 ++ m2) k = lookupA m1 k := by
  induction m1 with
  | nil => simp [lookupA] at h
  | cons kv rest ih =>
    by_cases hk : kv.1 = k
    · simp [lookupA, hk]
    · simp only [lookupA, if_neg hk] at h
      simp only [List.cons_append, lookupA, if_neg hk]
      exact ih h

/-- Every default category is present with its full default field set. -/
def StatsHasDefaults (st : Stats) : Prop :=
  ∀ cf ∈ DEFAULT_CATEGORIES, ∃ m, lookupA st cf.1 = some m ∧
    ∀ f ∈ cf.2, (lookupA m f.1).isSome = true

theorem defaultShape_nodup : (keysA defaultShape).Nodup := by decide

theorem lookupA_defaultShape_of_mem {cf : String × FieldMap} (h : cf ∈ DEFAULT_CATEGORIES) :
    lookupA defaultShape cf.1 = some (cf.2.map Prod.fst) :=
  lookupA_eq_of_mem_nodup defaultShape_nodup (List.mem_map_of_mem _ h)

theorem StatsHasDefaults_of_shape {st : Stats} {rest : List (String × List String)}
    (h : statsShape st = defaultShape ++ rest) : StatsHasDefaults st := by
  intro cf hcf
  have h1 : lookupA (statsShape st) cf.1 = some (cf.2.map Prod.fst) := by
    rw [h, lookupA_append_of_isSome _ (by rw [lookupA_defaultShape_of_mem hcf]; rfl)]
    exact lookupA_defaultShape_of_mem hcf
  rw [lookupA_statsShape] at h1
  cases hl : lookupA st cf.1 with
  | none => rw [hl] at h1; cases h1
  | some m =>
    rw [hl] at h1
    have hmf : m.map Prod.fst = cf.2.map Prod.fst := by
      simpa using h1
    refine ⟨m, rfl, ?_⟩
    intro f hf
    rw [lookupA_isSome_iff_mem]
    show f.1 ∈ keysA m
    rw [show keysA m = m.map Prod.fst from rfl, hmf]
    exact List.mem_map_of_mem Prod.fst hf

theorem keysA_append {α : Type} (m1 m2 : List (String × α)) :
    keysA (m1 ++ m2) = keysA m1 ++ keysA m2 := by
  simp [keysA]

theorem keysA_map_pair {α : Type} {β : Type} (l : List (String × α))
    (g : String × α → β) :
    keysA (l.map (fun kv => (kv.1, g kv))) = keysA l := by
  show List.map _ _ = _
  rw [List.map_map]
  rfl

theorem keysA_unionAdd_sup {u : List (String × List String)} {c : String}
    {ks : List String} {x : String} (h : x ∈ keysA u) : x ∈ keysA (unionAdd u c ks) := by
  unfold unionAdd
  cases hl : lookupA u c with
  | some fs =>
    rw [keysA_upsertA_isSome _ (by simp [hl])]
    exact h
  | none =>
    show x ∈ keysA (u ++ [(c, addKeys [] ks)])
    rw [keysA_append]
    exact List.mem_append_left _ h

theorem build_union_keys_sup (teams : List TeamEntry) {c : String}
    (hc : c ∈ keysA DEFAULT_CATEGORIES) : c ∈ keysA (build_union teams) := by
  unfold build_union
  dsimp only
  refine foldl_pres_mem (fun x => c ∈ keysA x) teams _ (fun u t _ hu => ?_) ?_
  · refine foldl_pres_mem (fun x => c ∈ keysA x) _ _ (fun u1 p _ hu1 => ?_) hu
    exact foldl_pres_mem (fun x => c ∈ keysA x) _ _
      (fun u2 cs _ hu2 => keysA_unionAdd_sup hu2) hu1
  · dsimp only
    rw [keysA_map_pair]
    exact hc

theorem mk_defaults_default_fields {u : List (String × List String)} {cat f : String}
    (hf : f ∈ keysA ((lookupA DEFAULT_CATEGORIES cat).getD [])) :
    f ∈ keysA (mk_defaults u cat) := by
  unfold mk_defaults
  dsimp only
  refine foldl_pres_mem (fun x => f ∈ keysA x) _ _ (fun d k _ hd => ?_) ?_
  · split
    · rw [keysA_append]
      exact List.mem_append_left _ hd
    · exact hd
  · dsimp only
    rw [keysA_map_pair]
    exact hf

theorem zero_init_cat_mem_current {defaults current : FieldMap} {k : String}
    (h : k ∈ keysA current) : k ∈ keysA (zero_init_cat defaults current) := by
  unfold zero_init_cat
  refine foldl_pres_mem (fun x => k ∈ keysA x) _ _ (fun cur kv _ hc => ?_) h
  split
  · rw [keysA_append]
    exact List.mem_append_left _ hc
  · exact hc

theorem zero_init_cat_mem_defaults : ∀ {defaults : FieldMap} (current : FieldMap)
    {k : String}, k ∈ keysA defaults → k ∈ keysA (zero_init_cat defaults current) := by
  intro defaults
  induction defaults with
  | nil => intro current k h; cases h
  | cons kv rest ih =>
    intro current k h
    show k ∈ keysA (zero_init_cat rest
      (if (lookupA current kv.1).isNone then current ++ [kv] else current))
    rcases List.mem_cons.mp h with h1 | h1
    · apply zero_init_cat_mem_current
      split
      · rw [keysA_append]
        exact List.mem_append_right _ (by simp [keysA, h1])
      · rename_i hsome
        have hs : (lookupA current kv.1).isSome = true := by
          cases hcase : lookupA current kv.1 with
          | none => exact absurd (by simp [hcase]) hsome
          | some w => rfl
        rw [h1]
        exact (lookupA_isSome_iff_mem current kv.1).mp hs
    · exact ih _ h1

theorem default_categories_nodup : (keysA DEFAULT_CATEGORIES).Nodup := by decide

theorem cat_step_establishes {u : List (String × List String)} {st : Stats}
    {cf : String × FieldMap} (hcf : cf ∈ DEFAULT_CATEGORIES) (cur : FieldMap) :
    ∃ m, lookupA (upsertA st cf.1 (zero_init_cat (mk_defaults u cf.1) cur)) cf.1 = some m ∧
      ∀ f ∈ cf.2, (lookupA m f.1).isSome = true := by
  refine ⟨_, lookupA_upsertA_self _ _ _, ?_⟩
  intro f hf
  rw [lookupA_isSome_iff_mem]
  apply zero_init_cat_mem_defaults
  apply mk_defaults_default_fields
  rw [lookupA_eq_of_mem_nodup default_categories_nodup hcf]
  exact List.mem_map_of_mem Prod.fst hf

theorem cat_step_preserves {u : List (String × List String)} {st : Stats}
    {cf : String × FieldMap} {c : String}
    (h : ∃ m, lookupA st cf.1 = some m ∧ ∀ f ∈ cf.2, (lookupA m f.1).isSome = true)
    (hcf : cf ∈ DEFAULT_CATEGORIES) :
    ∃ m, lookupA (upsertA st c
        (zero_init_cat (mk_defaults u c) ((lookupA st c).getD []))) cf.1 = some m ∧
      ∀ f ∈ cf.2, (lookupA m f.1).isSome = true := by
  by_cases hc : c = cf.1
  · subst hc
    exact cat_step_establishes hcf _
  · obtain ⟨m, hm, hfields⟩ := h
    refine ⟨m, ?_, hfields⟩
    rw [lookupA_upsertA_ne _ _ (Ne.symm hc)]
    exact hm

theorem cats_fold_defaults {u : List (String × List String)} :
    ∀ (cats : List String) (st : Stats) {cf : String × FieldMap}, cf ∈ DEFAULT_CATEGORIES →
      cf.1 ∈ cats →
      ∃ m, lookupA (cats.foldl (fun st1 cat =>
          upsertA st1 cat (zero_init_cat (mk_defaults u cat) ((lookupA st1 cat).getD []))) st)
          cf.1 = some m ∧
        ∀ f ∈ cf.2, (lookupA m f.1).isSome = true := by
  intro cats
  induction cats with
  | nil => intro st cf _ h; cases h
  | cons c rest ih =>
    intro st cf hcf hmem
    rw [List.foldl_cons]
    by_cases hr : cf.1 ∈ rest
    · exact ih _ hcf hr
    · have hc : cf.1 = c := by
        rcases List.mem_cons.mp hmem with h | h
        · exact h
        · exact absurd h hr
      refine foldl_pres_mem (fun x => ∃ m, lookupA x cf.1 = some m ∧
        ∀ f ∈ cf.2, (lookupA m f.1).isSome = true) rest _
        (fun st' c' _ hst' => cat_step_preserves hst' hcf) ?_
      subst hc
      exact cat_step_establishes hcf _

/-- The zero-init fold of `process_roster_player` makes any starting stats
dict complete for every default category. -/
theorem roster_stats_defaults {u : List (String × List String)} {allCats : List String}
    {st0 : Stats} (hall : ∀ cf ∈ DEFAULT_CATEGORIES, cf.1 ∈ allCats) :
    StatsHasDefaults (allCats.foldl (fun st cat =>
      upsertA st cat (zero_init_cat (mk_defaults u cat) ((lookupA st cat).getD []))) st0) :=
  fun cf hcf => cats_fold_defaults allCats st0 hcf (hall cf hcf)

/-- Invariant of a players dict during the roster merge: unique keys
and default-complete stats for every player. -/
def PlayersDefaults (m : List (String × PlayerEntry)) : Prop :=
  (keysA m).Nodup ∧ ∀ q ∈ m, StatsHasDefaults q.2.stats

theorem PlayersDefaults_double_upsert {m : List (String × PlayerEntry)} {pid : String}
    {v1 v2 : PlayerEntry} (h : PlayersDefaults m) (h2 : StatsHasDefaults v2.stats) :
    PlayersDefaults (upsertA (upsertA m pid v1) pid v2) := by
  have hnd1 : (keysA (upsertA m pid v1)).Nodup := keysA_upsertA_nodup _ _ h.1
  refine ⟨keysA_upsertA_nodup _ _ hnd1, ?_⟩
  intro q hq
  rcases mem_upsertA_ne hnd1 hq with h1 | h1
  · rw [h1]
    exact h2
  · rcases mem_upsertA_ne h.1 h1.1 with hh | hh
    · exact absurd (by rw [hh]) h1.2
    · exact h.2 q hh.1

theorem process_roster_player_defaults {u : List (String × List String)}
    {allCats : List String} {m : List (String × PlayerEntry)} (kv : String × PlayerMeta)
    (hall : ∀ cf ∈ DEFAULT_CATEGORIES, cf.1 ∈ allCats) (h : PlayersDefaults m) :
    PlayersDefaults (process_roster_player u allCats m kv) := by
  unfold process_roster_player
  dsimp only
  cases hl : lookupA m (if kv.2.athleteId ≠ "" then kv.2.athleteId else kv.1) with
  | none =>
    dsimp only
    rw [lookupA_upsertA_self]
    dsimp only
    exact PlayersDefaults_double_upsert h (roster_stats_defaults hall)
  | some p =>
    dsimp only
    rw [lookupA_upsertA_self]
    dsimp only
    exact PlayersDefaults_double_upsert h (roster_stats_defaults hall)

/-- Invariant of the team list during the roster merge. -/
def TeamsPlayersOk (teams : List TeamEntry) : Prop :=
  ∀ t ∈ teams, ∃ m, t.players = .dict m ∧ PlayersDefaults m

theorem process_roster_entry_defaults {lk : List (String × Nat)}
    {u : List (String × List String)} {allCats : List String} {teams out : List TeamEntry}
    {entry : String × List (String × PlayerMeta)}
    (hall : ∀ cf ∈ DEFAULT_CATEGORIES, cf.1 ∈ allCats) (h : TeamsPlayersOk teams)
    (hok : process_roster_entry lk u allCats teams entry = .ok out) : TeamsPlayersOk out := by
  unfold process_roster_entry at hok
  dsimp only at hok
  split at hok
  · cases hok; exact h
  · split at hok
    · cases hok; exact h
    · rename_i i t hget
      split at hok
      · cases hok
      · rename_i m hplayers
        cases hok
        intro t' ht'
        rcases List.mem_or_eq_of_mem_set ht' with h1 | h1
        · exact h t' h1
        · obtain ⟨m0, hp0, hm0⟩ := h t (List.get?_mem hget)
          rw [hp0] at hplayers
          injection hplayers with hmm
          subst hmm
          refine ⟨_, by rw [h1], ?_⟩
          exact foldl_pres_mem PlayersDefaults entry.2 m0
            (fun mm kvp _ hmm => process_roster_player_defaults kvp hall hmm) hm0

theorem mapM_ok_mem {ε α β : Type} {f : α → Except ε β} :
    ∀ {l : List α} {r : List β}, l.mapM f = .ok r → ∀ b ∈ r, ∃ a ∈ l, f a = .ok b := by
  intro l
  induction l with
  | nil =>
    intro r h b hb
    rw [List.mapM_nil] at h
    cases h
    cases hb
  | cons a rest ih =>
    intro r h b hb
    rw [List.mapM_cons] at h
    obtain ⟨b0, hb0, h⟩ := except_bind_ok h
    obtain ⟨bs, hbs, h⟩ := except_bind_ok h
    cases h
    rcases List.mem_cons.mp hb with h1 | h1
    · subst h1
      exact ⟨a, List.mem_cons_self _ _, hb0⟩
    · obtain ⟨a1, ha1, hfa⟩ := ih hbs b h1
      exact ⟨a1, List.mem_cons_of_mem _ ha1, hfa⟩

theorem sort_players_defaults {t t' : TeamEntry}
    (h : ∃ m, t.players = .dict m ∧ PlayersDefaults m) (hok : sort_players t = .ok t') :
    ∃ l, t'.players = .list l ∧ ∀ p ∈ l, StatsHasDefaults p.stats := by
  obtain ⟨m, hp, hm⟩ := h
  unfold sort_players at hok
  rw [hp] at hok
  dsimp only at hok
  obtain ⟨keyed, hmapM, hok⟩ := except_bind_ok hok
  cases hok
  refine ⟨_, rfl, ?_⟩
  intro p hpmem
  rcases List.mem_map.mp hpmem with ⟨y, hy, rfl⟩
  have hy2 : y ∈ keyed := (List.Perm.mem_iff (List.perm_insertionSort keyLE keyed)).mp hy
  obtain ⟨a, ha, hfa⟩ := mapM_ok_mem hmapM y hy2
  obtain ⟨k, hk, hfa⟩ := except_bind_ok hfa
  cases hfa
  rcases List.mem_map.mp ha with ⟨q, hq, rfl⟩
  exact hm.2 q hq

theorem merge_players_defaults {d : RefinedDoc} {r : RosterMap} {d1 : RefinedDoc}
    (hdoc : ∀ e ∈ d.teams, RefinedTeamOk e)
    (hok : merge_roster_zero_init d r = .ok d1) :
    ∀ e ∈ d1.teams, ∃ l, e.players = .list l ∧ ∀ p ∈ l, StatsHasDefaults p.stats := by
  unfold merge_roster_zero_init at hok
  dsimp only at hok
  obtain ⟨teams2, h2, hok⟩ := except_bind_ok hok
  obtain ⟨teams3, h3, hok⟩ := except_bind_ok hok
  cases hok
  have hall : ∀ cf ∈ DEFAULT_CATEGORIES, cf.1 ∈ (build_union d.teams).map Prod.fst := by
    intro cf hcf
    exact build_union_keys_sup d.teams (List.mem_map_of_mem Prod.fst hcf)
  have h1 : TeamsPlayersOk (d.teams.map normalize_players) := by
    intro t' ht'
    rcases List.mem_map.mp ht' with ⟨t, ht, rfl⟩
    obtain ⟨-, -, l, hp, hps⟩ := hdoc t ht
    unfold normalize_players
    rw [hp]
    dsimp only
    refine ⟨_, rfl, ?_⟩
    refine foldl_pres_mem PlayersDefaults l [] (fun mm p hpmem hmm => ?_)
      ⟨List.nodup_nil, by intro q hq; cases hq⟩
    refine ⟨keysA_upsertA_nodup _ _ hmm.1, ?_⟩
    intro q hq
    rcases mem_upsertA_ne hmm.1 hq with h1 | h1
    · rw [h1]
      exact StatsHasDefaults_of_shape ((hps p hpmem).trans (List.append_nil _).symm)
    · exact hmm.2 q h1.1
  have h2' : TeamsPlayersOk teams2 :=
    foldlM_ok_inv (fun s a s' hs h => process_roster_entry_defaults hall hs h) h1 h2
  intro e he
  obtain ⟨t2, ht2, hsort⟩ := mapM_ok_mem h3 e he
  exact sort_players_defaults (h2' t2 ht2) hsort

/-- C1: for every raw payload and roster corpus, every player of every team of
the merged document carries each of the ten default categories with its full
default field set. -/
theorem pipeline_players_have_all_defaults {raw : Json} {eid gat : String} {r : RosterMap}
    {d d1 : RefinedDoc} (h1 : refine_boxscore raw eid gat = .ok d)
    (h2 : merge_roster_zero_init d r = .ok d1) :
    ∀ e ∈ d1.teams, ∃ l, e.players = .list l ∧ ∀ p ∈ l, StatsHasDefaults p.stats :=
  merge_players_defaults (fun e he => (refine_doc_inv h1).2 e he) h2

/-- Raw payload for the merge-pipeline witness (one team, one athlete). -/
def cRawC1 : Json := .obj [
  ("players", .arr [
    .obj [("team", .obj [("id", .str "1"), ("abbreviation", .str "AAA"),
            ("displayName", .str "Alpha")]),
          ("statistics", .arr [
            .obj [("name", .str "passing"), ("keys", .arr [.str "passingYards"]),
                  ("athletes", .arr [
                    .obj [("athlete", .obj [("id", .str "7"),
                            ("displayName", .str "QB One")]),
                          ("stats", .arr [.str "123"])]])]])]]),
  ("teams", .arr [])]

/-- A roster corpus adding one previously unseen player to team `1`. -/
def rC1 : RosterMap :=
  [("1", [("9", ⟨"9", .str "Kicker Two", .str "K", .str "2", .str ""⟩)])]

/-- C1 witness: the pipeline theorem applied to `cRawC1` and `rC1`; the merged
document has one team whose player list holds exactly two players (the
boxscore athlete and the roster-inserted one). -/
theorem pipeline_players_have_all_defaults_witness :
    ∃ d d1, refine_boxscore cRawC1 "E1" "T1" = .ok d ∧
      merge_roster_zero_init d rC1 = .ok d1 ∧
      (match (refine_boxscore cRawC1 "E1" "T1").bind
          (fun x => merge_roster_zero_init x rC1) with
       | .ok dd => dd.teams.foldl (fun n e =>
          n * 10 + (match e.players with
            | PlayersCont.list l => l.length
            | PlayersCont.dict m => 0)) dd.teams.length
       | .error _ => 99) = 12 ∧
      ∀ e ∈ d1.teams, ∃ l, e.players = .list l ∧ ∀ p ∈ l, StatsHasDefaults p.stats := by
  have hisok : ((refine_boxscore cRawC1 "E1" "T1").bind
      (fun d => merge_roster_zero_init d rC1)).isOk = true := by decide
  have hcount : (match (refine_boxscore cRawC1 "E1" "T1").bind
      (fun x => merge_roster_zero_init x rC1) with
    | .ok dd => dd.teams.foldl (fun n e =>
        n * 10 + (match e.players with
          | PlayersCont.list l => l.length
          | PlayersCont.dict m => 0)) dd.teams.length
    | .error _ => 99) = 12 := by decide
  match hok : refine_boxscore cRawC1 "E1" "T1" with
  | .error err =>
    rw [hok] at hisok
    simp [Except.isOk, Except.toBool, Except.bind, Bind.bind] at hisok
  | .ok d =>
    match hok2 : merge_roster_zero_init d rC1 with
    | .error err =>
      rw [show (refine_boxscore cRawC1 "E1" "T1").bind
            (fun x => merge_roster_zero_init x rC1) = merge_roster_zero_init d rC1 from by
          rw [hok]; rfl, hok2] at hisok
      simp [Except.isOk, Except.toBool] at hisok
    | .ok d1 =>
      rw [hok] at hcount
      exact ⟨d, d1, rfl, hok2, hcount, pipeline_players_have_all_defaults hok hok2⟩

/-! ### Order theory of the player sort relation -/

theorem charListLt_trans : ∀ {a b c : List Char},
    charListLt a b = true → charListLt b c = true → charListLt a c = true := by
  intro a
  induction a with
  | nil =>
    intro b c h1 h2
    cases b with
    | nil => simp [charListLt] at h1
    | cons y ys =>
      cases c with
      | nil => simp [charListLt] at h2
      | cons z zs => simp [charListLt]
  | cons x xs ih =>
    intro b c h1 h2
    cases b with
    | nil => simp [charListLt] at h1
    | cons y ys =>
      cases c with
      | nil => simp [charListLt] at h2
      | cons z zs =>
        simp only [charListLt] at h1 h2 ⊢
        rcases lt_trichotomy x y with hxy | hxy | hxy
        · rcases lt_trichotomy y z with hyz | hyz | hyz
          · simp [lt_trans hxy hyz]
          · subst hyz; simp [hxy]
          · rw [if_neg (not_lt_of_gt hyz), if_pos hyz] at h2
            cases h2
        · subst hxy
          rcases lt_trichotomy x z with hxz | hxz | hxz
          · simp [hxz]
          · subst hxz
            simp only [lt_irrefl, if_false] at h1 h2 ⊢
            exact ih h1 h2
          · rw [if_neg (not_lt_of_gt hxz), if_pos hxz] at h2
            cases h2
        · rw [if_neg (not_lt_of_gt hxy), if_pos hxy] at h1
          cases h1

theorem charListLt_asymm : ∀ {a b : List Char},
    charListLt a b = true → charListLt b a = false := by
  intro a
  induction a with
  | nil =>
    intro b h
    cases b with
    | nil => simp [charListLt] at h
    | cons y ys => simp [charListLt]
  | cons x xs ih =>
    intro b h
    cases b with
    | nil => simp [charListLt] at h
    | cons y ys =>
      simp only [charListLt] at h ⊢
      rcases lt_trichotomy x y with hxy | hxy | hxy
      · simp [not_lt_of_gt hxy, hxy]
      · subst hxy
        simp only [lt_irrefl, if_false] at h ⊢
        exact ih h
      · rw [if_neg (not_lt_of_gt hxy), if_pos hxy] at h
        cases h

theorem charListLt_conn : ∀ {a b : List Char},
    charListLt a b = false → charListLt b a = false → a = b := by
  intro a
  induction a with
  | nil =>
    intro b h1 h2
    cases b with
    | nil => rfl
    | cons y ys => simp [charListLt] at h1
  | cons x xs ih =>
    intro b h1 h2
    cases b with
    | nil => simp [charListLt] at h2
    | cons y ys =>
      simp only [charListLt] at h1 h2
      rcases lt_trichotomy x y with hxy | hxy | hxy
      · rw [if_pos hxy] at h1; cases h1
      · subst hxy
        simp only [lt_irrefl, if_false] at h1 h2
        rw [ih h1 h2]
      · rw [if_neg (not_lt_of_gt hxy), if_pos hxy] at h2
        cases h2

theorem strLt_trans {a b c : String} (h1 : strLt a b = true) (h2 : strLt b c = true) :
    strLt a c = true := charListLt_trans h1 h2

theorem strLt_asymm {a b : String} (h : strLt a b = true) : strLt b a = false :=
  charListLt_asymm h

theorem strLt_conn {a b : String} (h1 : strLt a b = false) (h2 : strLt b a = false) :
    a = b := by
  have h := charListLt_conn h1 h2
  cases a
  cases b
  exact congrArg String.mk (by simpa using h)

theorem keyLE_total (a b : (String × String) × PlayerEntry) : keyLE a b ∨ keyLE b a := by
  unfold keyLE
  cases h1 : strLt a.1.1 b.1.1 with
  | true => left; simp [h1]
  | false =>
    cases h2 : strLt b.1.1 a.1.1 with
    | true => right; simp [h2]
    | false =>
      have he : b.1.1 = a.1.1 := strLt_conn h2 h1
      cases h3 : strLt b.1.2 a.1.2 with
      | true =>
        right
        simp [he, h3, strLt_asymm h3]
      | false =>
        left
        simp [he, h3]

theorem keyLE_trans {a b c : (String × String) × PlayerEntry}
    (h1 : keyLE a b) (h2 : keyLE b c) : keyLE a c := by
  unfold keyLE at h1 h2 ⊢
  simp only [Bool.or_eq_true, Bool.and_eq_true, beq_iff_eq, Bool.not_eq_true] at h1 h2 ⊢
  rcases h1 with h1 | ⟨h1e, h1r⟩
  · rcases h2 with h2 | ⟨h2e, h2r⟩
    · exact Or.inl (strLt_trans h1 h2)
    · exact Or.inl (h2e ▸ h1)
  · rcases h2 with h2 | ⟨h2e, h2r⟩
    · exact Or.inl (h1e ▸ h2)
    · refine Or.inr ⟨h1e.trans h2e, ?_⟩
      cases hca : strLt c.1.2 a.1.2 with
      | false => rfl
      | true =>
        exfalso
        cases hab : strLt a.1.2 b.1.2 with
        | true =>
          rw [strLt_trans hca hab] at h2r
          cases h2r
        | false =>
          cases hba : strLt b.1.2 a.1.2 with
          | true => rw [hba] at h1r; cases h1r
          | false =>
            rw [strLt_conn hab hba] at hca
            rw [hca] at h2r
            cases h2r

instance : IsTotal ((String × String) × PlayerEntry) keyLE := ⟨keyLE_total⟩

instance : IsTrans ((String × String) × PlayerEntry) keyLE := ⟨fun _ _ _ => keyLE_trans⟩

/-! ### Generic fold and map machinery for the idempotence proof -/

theorem foldlM_ok_inv_mem {ε σ α : Type} (P : σ → Prop) {f : σ → α → Except ε σ} :
    ∀ (l : List α) (s₀ s₁ : σ), (∀ s a s', a ∈ l → P s → f s a = .ok s' → P s') →
      P s₀ → List.foldlM f s₀ l = .ok s₁ → P s₁ := by
  intro l
  induction l with
  | nil =>
    intro s₀ s₁ _ h0 hf
    simp only [List.foldlM_nil] at hf
    cases hf
    exact h0
  | cons a rest ih =>
    intro s₀ s₁ hstep h0 hf
    simp only [List.foldlM_cons] at hf
    obtain ⟨mid, hm, hrest⟩ := except_bind_ok hf
    exact ih mid s₁ (fun s x s' hx hs h => hstep s x s' (List.mem_cons_of_mem a hx) hs h)
      (hstep s₀ a mid (List.mem_cons_self a rest) h0 hm) hrest

theorem foldlM_ok_rel {ε σ α : Type} (R : σ → σ → Prop) {f : σ → α → Except ε σ}
    (hrefl : ∀ s, R s s) (htrans : ∀ a b c, R a b → R b c → R a c)
    (hstep : ∀ s a s', f s a = .ok s' → R s s') :
    ∀ {l : List α} {s₀ s₁ : σ}, List.foldlM f s₀ l = .ok s₁ → R s₀ s₁ := by
  intro l
  induction l with
  | nil =>
    intro s₀ s₁ hf
    simp only [List.foldlM_nil] at hf
    cases hf
    exact hrefl s₀
  | cons a rest ih =>
    intro s₀ s₁ hf
    simp only [List.foldlM_cons] at hf
    obtain ⟨mid, hm, hrest⟩ := except_bind_ok hf
    exact htrans _ _ _ (hstep s₀ a mid hm) (ih hrest)

theorem foldlM_ok_estab {ε σ α : Type} (R : σ → σ → Prop) (Q : α → σ → Prop)
    {f : σ → α → Except ε σ}
    (hrefl : ∀ s, R s s) (htrans : ∀ a b c, R a b → R b c → R a c)
    (hstepR : ∀ s a s', f s a = .ok s' → R s s')
    (hstepQ : ∀ s a s', f s a = .ok s' → Q a s')
    (hRQ : ∀ a s s', Q a s → R s s' → Q a s') :
    ∀ {l : List α} {s₀ s₁ : σ}, List.foldlM f s₀ l = .ok s₁ → ∀ a ∈ l, Q a s₁ := by
  intro l
  induction l with
  | nil => intro s₀ s₁ _ a ha; cases ha
  | cons x rest ih =>
    intro s₀ s₁ hf a ha
    simp only [List.foldlM_cons] at hf
    obtain ⟨mid, hm, hrest⟩ := except_bind_ok hf
    rcases List.mem_cons.mp ha with h1 | h1
    · subst h1
      exact hRQ a mid s₁ (hstepQ s₀ a mid hm) (foldlM_ok_rel R hrefl htrans hstepR hrest)
    · exact ih hrest a h1

theorem foldl_rel {α β : Type} (R : α → α → Prop) {f : α → β → α}
    (hrefl : ∀ a, R a a) (htrans : ∀ a b c, R a b → R b c → R a c)
    (hstep : ∀ a b, R a (f a b)) :
    ∀ (l : List β) (a : α), R a (l.foldl f a) := by
  intro l
  induction l with
  | nil => intro a; exact hrefl a
  | cons x rest ih =>
    intro a
    exact htrans _ _ _ (hstep a x) (ih (f a x))

theorem foldl_estab {α β : Type} (R : α → α → Prop) (Q : β → α → Prop) {f : α → β → α}
    (hrefl : ∀ a, R a a) (htrans : ∀ a b c, R a b → R b c → R a c)
    (hstepR : ∀ a b, R a (f a b)) (hstepQ : ∀ a b, Q b (f a b))
    (hRQ : ∀ b a a', Q b a → R a a' → Q b a') :
    ∀ (l : List β) (a : α), ∀ b ∈ l, Q b (l.foldl f a) := by
  intro l
  induction l with
  | nil => intro a b hb; cases hb
  | cons x rest ih =>
    intro a b hb
    rcases List.mem_cons.mp hb with h1 | h1
    · subst h1
      exact hRQ b (f a b) _ (hstepQ a b) (foldl_rel R hrefl htrans hstepR rest (f a b))
    · exact ih (f a x) b h1

theorem mapM_ok_map {ε α β γ : Type} {f : α → Except ε β} {g : β → γ} {h : α → γ}
    (hfg : ∀ a b, f a = .ok b → g b = h a) :
    ∀ {l : List α} {r : List β}, l.mapM f = .ok r → r.map g = l.map h := by
  intro l
  induction l with
  | nil =>
    intro r hr
    rw [List.mapM_nil] at hr
    cases hr
    rfl
  | cons a rest ih =>
    intro r hr
    rw [List.mapM_cons] at hr
    obtain ⟨b0, hb0, hr⟩ := except_bind_ok hr
    obtain ⟨bs, hbs, hr⟩ := except_bind_ok hr
    cases hr
    simp only [List.map_cons]
    rw [hfg a b0 hb0, ih hbs]

theorem mapM_ok_get? {ε α β : Type} {f : α → Except ε β} :
    ∀ {l : List α} {r : List β}, l.mapM f = .ok r →
      ∀ (i : Nat) (a : α), l.get? i = some a → ∃ b, r.get? i = some b ∧ f a = .ok b := by
  intro l
  induction l with
  | nil => intro r _ i a ha; cases ha
  | cons x rest ih =>
    intro r h i a ha
    rw [List.mapM_cons] at h
    obtain ⟨b0, hb0, h⟩ := except_bind_ok h
    obtain ⟨bs, hbs, h⟩ := except_bind_ok h
    cases h
    cases i with
    | zero =>
      cases ha
      exact ⟨b0, rfl, hb0⟩
    | succ n => exact ih hbs n a ha

theorem list_set_self {α : Type} : ∀ {l : List α} {i : Nat} {a : α},
    l.get? i = some a → l.set i a = l := by
  intro l
  induction l with
  | nil => intro i a h; cases h
  | cons x rest ih =>
    intro i a h
    cases i with
    | zero => cases h; rfl
    | succ n =>
      simp only [List.set]
      rw [ih h]

theorem upsertA_append_of_none {α : Type} {m : List (String × α)} {k : String} {v : α}
    (h : lookupA m k = none) : upsertA m k v = m ++ [(k, v)] := by
  induction m with
  | nil => rfl
  | cons kv rest ih =>
    by_cases hk : kv.1 = k
    · simp [lookupA, hk] at h
    · simp only [lookupA, if_neg hk] at h
      simp [upsertA, hk, ih h]

theorem keyed_fold_eq : ∀ {l : List PlayerEntry} (m0 : List (String × PlayerEntry)),
    (l.map keyFor).Nodup → (∀ p ∈ l, keyFor p ∉ keysA m0) →
    l.foldl (fun m p => upsertA m (keyFor p) p) m0 = m0 ++ l.map (fun p => (keyFor p, p)) := by
  intro l
  induction l with
  | nil => intro m0 _ _; simp
  | cons p rest ih =>
    intro m0 hnd hdisj
    simp only [List.foldl_cons, List.map_cons]
    rw [upsertA_append_of_none
      ((lookupA_none_iff_not_mem _ _).mpr (hdisj p (List.mem_cons_self _ _)))]
    rw [ih (m0 ++ [(keyFor p, p)]) (List.nodup_cons.mp hnd).2 ?_]
    · simp
    · intro q hq hqmem
      rw [keysA_append] at hqmem
      rcases List.mem_append.mp hqmem with h1 | h1
      · exact hdisj q (List.mem_cons_of_mem _ hq) h1
      · have heq : keyFor q = keyFor p := by simpa [keysA] using h1
        exact (List.nodup_cons.mp hnd).1 (heq ▸ List.mem_map_of_mem keyFor hq)

theorem normalize_list_eq {l : List PlayerEntry} (hnd : (l.map keyFor).Nodup) :
    l.foldl (fun m p => upsertA m (keyFor p) p) [] = l.map (fun p => (keyFor p, p)) := by
  simpa using keyed_fold_eq [] hnd (by intro p _ h; cases h)

theorem keysA_map_keyed (l : List PlayerEntry) :
    keysA (l.map (fun p => (keyFor p, p))) = l.map keyFor := by
  show List.map _ _ = _
  rw [List.map_map]
  rfl

theorem values_keyed_map (l : List PlayerEntry) :
    (l.map (fun p => (keyFor p, p))).map Prod.snd = l := by
  rw [List.map_map]
  have hid : (Prod.snd ∘ fun p : PlayerEntry => (keyFor p, p)) = id := rfl
  rw [hid, List.map_id]

theorem lookupA_keyed_map {l : List PlayerEntry} (hnd : (l.map keyFor).Nodup)
    {p : PlayerEntry} (hp : p ∈ l) :
    lookupA (l.map (fun q => (keyFor q, q))) (keyFor p) = some p := by
  apply lookupA_eq_of_mem_nodup
  · rw [keysA_map_keyed]
    exact hnd
  · exact List.mem_map_of_mem _ hp

/-! ### Union-map theory for the idempotence proof -/

/-- Observed fields of a category in a union map. -/
def fieldsOf (u : List (String × List String)) (cat : String) : List String :=
  (lookupA u cat).getD []

/-- Pointwise containment of union maps (categories and their field sets). -/
def UnionLE (u u' : List (String × List String)) : Prop :=
  ∀ cat, cat ∈ keysA u → cat ∈ keysA u' ∧ ∀ f ∈ fieldsOf u cat, f ∈ fieldsOf u' cat

theorem UnionLE_refl (u : List (String × List String)) : UnionLE u u :=
  fun _ h => ⟨h, fun _ hf => hf⟩

theorem UnionLE_trans {a b c : List (String × List String)}
    (h1 : UnionLE a b) (h2 : UnionLE b c) : UnionLE a c :=
  fun cat h => ⟨(h2 cat (h1 cat h).1).1,
    fun f hf => (h2 cat (h1 cat h).1).2 f ((h1 cat h).2 f hf)⟩

theorem addKeys_sup {fs ks : List String} {x : String} (h : x ∈ fs) : x ∈ addKeys fs ks := by
  unfold addKeys
  refine foldl_pres_mem (fun l => x ∈ l) ks fs (fun a k _ ha => ?_) h
  split
  · exact ha
  · exact List.mem_append_left _ ha

theorem addKeys_adds : ∀ {ks : List String} (fs : List String) {x : String},
    x ∈ ks → x ∈ addKeys fs ks := by
  intro ks
  induction ks with
  | nil => intro fs x h; cases h
  | cons k rest ih =>
    intro fs x h
    show x ∈ addKeys (if fs.contains k then fs else fs ++ [k]) rest
    rcases List.mem_cons.mp h with h1 | h1
    · subst h1
      apply addKeys_sup
      split
      · rename_i hc
        simpa using hc
      · exact List.mem_append_right _ (List.mem_singleton.mpr rfl)
    · exact ih _ h1

theorem unionAdd_le (u : List (String × List String)) (c : String) (ks : List String) :
    UnionLE u (unionAdd u c ks) := by
  intro cat hcat
  unfold unionAdd
  cases hl : lookupA u c with
  | some fs =>
    constructor
    · rw [keysA_upsertA_isSome _ (by simp [hl])]
      exact hcat
    · intro f hf
      unfold fieldsOf
      by_cases hc : cat = c
      · subst hc
        rw [lookupA_upsertA_self]
        unfold fieldsOf at hf
        rw [hl] at hf
        exact addKeys_sup hf
      · rw [lookupA_upsertA_ne _ _ hc]
        exact hf
  | none =>
    constructor
    · rw [keysA_append]
      exact List.mem_append_left _ hcat
    · intro f hf
      unfold fieldsOf
      rw [lookupA_append_of_isSome]
      · exact hf
      · rw [lookupA_isSome_iff_mem]
        exact hcat

theorem unionAdd_establishes (u : List (String × List String)) (c : String)
    (ks : List String) :
    c ∈ keysA (unionAdd u c ks) ∧ ∀ f ∈ ks, f ∈ fieldsOf (unionAdd u c ks) c := by
  unfold unionAdd
  cases hl : lookupA u c with
  | some fs =>
    constructor
    · rw [keysA_upsertA_isSome _ (by simp [hl])]
      exact (lookupA_isSome_iff_mem u c).mp (by simp [hl])
    · intro f hf
      unfold fieldsOf
      rw [lookupA_upsertA_self]
      exact addKeys_adds fs hf
  | none =>
    constructor
    · rw [keysA_append]
      exact List.mem_append_right _ (by simp [keysA])
    · intro f hf
      unfold fieldsOf
      rw [show lookupA (u ++ [(c, addKeys [] ks)]) c = some (addKeys [] ks) from ?_]
      · exact addKeys_adds [] hf
      · induction u with
        | nil => simp [lookupA]
        | cons kv rest ih =>
          by_cases hk : kv.1 = c
          · simp [lookupA, hk] at hl
          · simp only [lookupA, if_neg hk] at hl
            simpa [lookupA, hk] using ih hl

/-- A stats dict whose categories and fields all appear in the union map. -/
def StatsBounded (u : List (String × List String)) (st : Stats) : Prop :=
  ∀ cs ∈ st, cs.1 ∈ keysA u ∧ ∀ fv ∈ cs.2, fv.1 ∈ fieldsOf u cs.1

theorem lookupA_append_self_of_none {α : Type} {u : List (String × α)} {c : String} (v : α)
    (hl : lookupA u c = none) : lookupA (u ++ [(c, v)]) c = some v := by
  induction u with
  | nil => simp [lookupA]
  | cons kv rest ih =>
    by_cases hk : kv.1 = c
    · simp [lookupA, hk] at hl
    · simp only [lookupA, if_neg hk] at hl
      simpa [lookupA, hk] using ih hl

theorem addKeys_sub : ∀ {ks : List String} {fs : List String} {x : String},
    x ∈ addKeys fs ks → x ∈ fs ∨ x ∈ ks := by
  intro ks
  induction ks with
  | nil => intro fs x h; exact Or.inl h
  | cons k rest ih =>
    intro fs x h
    have h' : x ∈ addKeys (if fs.contains k then fs else fs ++ [k]) rest := h
    rcases ih h' with h1 | h1
    · split at h1
      · exact Or.inl h1
      · rcases List.mem_append.mp h1 with h2 | h2
        · exact Or.inl h2
        · rw [List.mem_singleton.mp h2]
          exact Or.inr (List.mem_cons_self _ _)
    · exact Or.inr (List.mem_cons_of_mem _ h1)

theorem unionAdd_bounded {u u1 : List (String × List String)} {c : String} {ks : List String}
    (hu : UnionLE u u1) (hc : c ∈ keysA u1) (hks : ∀ f ∈ ks, f ∈ fieldsOf u1 c) :
    UnionLE (unionAdd u c ks) u1 := by
  intro cat hcat
  unfold unionAdd at hcat ⊢
  cases hl : lookupA u c with
  | some fs =>
    rw [hl] at hcat
    rw [keysA_upsertA_isSome _ (by simp [hl])] at hcat
    refine ⟨(hu cat hcat).1, ?_⟩
    intro f hf
    unfold fieldsOf at hf
    by_cases hcc : cat = c
    · subst hcc
      rw [lookupA_upsertA_self] at hf
      rcases addKeys_sub (by simpa using hf) with h1 | h1
      · refine (hu cat hcat).2 f ?_
        unfold fieldsOf
        rw [hl]
        exact h1
      · exact hks f h1
    · rw [lookupA_upsertA_ne _ _ hcc] at hf
      exact (hu cat hcat).2 f hf
  | none =>
    rw [hl] at hcat
    rw [keysA_append] at hcat
    rcases List.mem_append.mp hcat with h1 | h1
    · refine ⟨(hu cat h1).1, ?_⟩
      intro f hf
      unfold fieldsOf at hf
      rw [lookupA_append_of_isSome _ ((lookupA_isSome_iff_mem u cat).mpr h1)] at hf
      exact (hu cat h1).2 f hf
    · have hcc : cat = c := by simpa [keysA] using h1
      subst hcc
      refine ⟨hc, ?_⟩
      intro f hf
      unfold fieldsOf at hf
      rw [lookupA_append_self_of_none _ hl] at hf
      rcases addKeys_sub (by simpa using hf) with h2 | h2
      · cases h2
      · exact hks f h2

/-- Players container as the union pass iterates it. -/
def playersOf (t : TeamEntry) : List PlayerEntry :=
  match t.players with
  | .dict m => m.map Prod.snd
  | .list l => l

theorem StatsBounded_mono {u u' : List (String × List String)} {st : Stats}
    (h : StatsBounded u st) (hle : UnionLE u u') : StatsBounded u' st := by
  intro cs hcs
  obtain ⟨h1, h2⟩ := h cs hcs
  exact ⟨(hle cs.1 h1).1, fun fv hfv => (hle cs.1 h1).2 fv.1 (h2 fv hfv)⟩

theorem stats_fold_bounds (st : Stats) (u0 : List (String × List String)) :
    StatsBounded (st.foldl (fun u cs => unionAdd u cs.1 (cs.2.map Prod.fst)) u0) st := by
  intro cs hcs
  refine foldl_estab UnionLE
    (fun (cs : String × FieldMap) u => cs.1 ∈ keysA u ∧ ∀ fv ∈ cs.2, fv.1 ∈ fieldsOf u cs.1)
    UnionLE_refl (fun _ _ _ => UnionLE_trans)
    (fun u cs1 => unionAdd_le u cs1.1 (cs1.2.map Prod.fst))
    (fun u cs1 => ?_)
    (fun cs1 u u' hq hle =>
      ⟨(hle cs1.1 hq.1).1, fun fv hfv => (hle cs1.1 hq.1).2 fv.1 (hq.2 fv hfv)⟩)
    st u0 cs hcs
  obtain ⟨h1, h2⟩ := unionAdd_establishes u cs1.1 (cs1.2.map Prod.fst)
  exact ⟨h1, fun fv hfv => h2 fv.1 (List.mem_map_of_mem Prod.fst hfv)⟩

theorem build_union_le (teams : List TeamEntry) :
    UnionLE defaultShape (build_union teams) := by
  unfold build_union
  dsimp only
  refine foldl_rel UnionLE UnionLE_refl (fun _ _ _ => UnionLE_trans) ?_ teams _
  intro u t
  refine foldl_rel UnionLE UnionLE_refl (fun _ _ _ => UnionLE_trans) ?_ _ u
  intro u1 p
  exact foldl_rel UnionLE UnionLE_refl (fun _ _ _ => UnionLE_trans)
    (fun u2 (cs : String × FieldMap) => unionAdd_le u2 cs.1 (cs.2.map Prod.fst)) _ u1

theorem build_union_complete (teams : List TeamEntry) :
    ∀ t ∈ teams, ∀ p ∈ playersOf t, StatsBounded (build_union teams) p.stats := by
  unfold build_union
  dsimp only
  intro t ht p hp
  refine foldl_estab UnionLE
    (fun (t : TeamEntry) u => ∀ p ∈ playersOf t, StatsBounded u p.stats)
    UnionLE_refl (fun _ _ _ => UnionLE_trans)
    (fun u t1 => foldl_rel UnionLE UnionLE_refl (fun _ _ _ => UnionLE_trans)
      (fun u1 (p1 : PlayerEntry) => foldl_rel UnionLE UnionLE_refl (fun _ _ _ => UnionLE_trans)
        (fun u2 (cs : String × FieldMap) => unionAdd_le u2 cs.1 (cs.2.map Prod.fst)) _ u1) _ u)
    (fun u t1 => ?_)
    (fun t1 u u' hq hle => fun p1 hp1 => StatsBounded_mono (hq p1 hp1) hle)
    teams _ t ht p hp
  intro p1 hp1
  exact foldl_estab UnionLE
    (fun (p : PlayerEntry) u => StatsBounded u p.stats)
    UnionLE_refl (fun _ _ _ => UnionLE_trans)
    (fun u1 (p2 : PlayerEntry) => foldl_rel UnionLE UnionLE_refl (fun _ _ _ => UnionLE_trans)
      (fun u2 (cs : String × FieldMap) => unionAdd_le u2 cs.1 (cs.2.map Prod.fst)) _ u1)
    (fun u1 (p2 : PlayerEntry) => stats_fold_bounds p2.stats u1)
    (fun p2 u1 u2 hq hle => StatsBounded_mono hq hle)
    _ u p1 hp1

theorem build_union_bounded {teams : List TeamEntry} {u1 : List (String × List String)}
    (hb : UnionLE defaultShape u1)
    (hp : ∀ t ∈ teams, ∀ p ∈ playersOf t, StatsBounded u1 p.stats) :
    UnionLE (build_union teams) u1 := by
  unfold build_union
  dsimp only
  refine foldl_pres_mem (fun u => UnionLE u u1) teams _ (fun u t ht hu => ?_) hb
  refine foldl_pres_mem (fun u2 => UnionLE u2 u1) _ _ (fun u2 p hp2 hu2 => ?_) hu
  refine foldl_pres_mem (fun u3 => UnionLE u3 u1) _ _ (fun u3 cs hcs hu3 => ?_) hu2
  have hfacts := hp t ht p hp2 cs hcs
  refine unionAdd_bounded hu3 hfacts.1 ?_
  intro f hf
  rcases List.mem_map.mp hf with ⟨fv, hfv, rfl⟩
  exact hfacts.2 fv hfv

theorem append_if_missing_mem : ∀ (ks : List String) (d : FieldMap) {k : String},
    (k ∈ keysA d ∨ k ∈ ks) →
    k ∈ keysA (ks.foldl (fun d1 k1 =>
      if (lookupA d1 k1).isNone then d1 ++ [(k1, Json.int 0)] else d1) d) := by
  intro ks
  induction ks with
  | nil =>
    intro d k h
    rcases h with h | h
    · exact h
    · cases h
  | cons k1 rest ih =>
    intro d k h
    rw [List.foldl_cons]
    apply ih
    rcases h with h | h
    · left
      split
      · rw [keysA_append]
        exact List.mem_append_left _ h
      · exact h
    · rcases List.mem_cons.mp h with h2 | h2
      · subst h2
        left
        split
        · rw [keysA_append]
          exact List.mem_append_right _ (by simp [keysA])
        · rename_i hsome
          have hs : (lookupA d k).isSome = true := by
            cases hcase : lookupA d k with
            | none => exact absurd (by simp [hcase]) hsome
            | some w => rfl
          exact (lookupA_isSome_iff_mem d k).mp hs
      · exact Or.inr h2

theorem mk_defaults_keys_sub {u : List (String × List String)} {cat k : String}
    (h : k ∈ keysA (mk_defaults u cat)) :
    k ∈ keysA ((lookupA DEFAULT_CATEGORIES cat).getD []) ∨ k ∈ fieldsOf u cat := by
  unfold mk_defaults at h
  dsimp only at h
  revert h
  refine foldl_pres_mem (fun d => k ∈ keysA d →
      (k ∈ keysA ((lookupA DEFAULT_CATEGORIES cat).getD []) ∨ k ∈ fieldsOf u cat))
    _ _ (fun d k1 hk1 hd hx => ?_) (fun hx => ?_)
  · split at hx
    · rw [keysA_append] at hx
      rcases List.mem_append.mp hx with h1 | h1
      · exact hd h1
      · right
        have hkk : k = k1 := by simpa [keysA] using h1
        rw [hkk]
        exact hk1
    · exact hd hx
  · left
    rwa [keysA_map_pair] at hx

theorem mk_defaults_mem_union {u : List (String × List String)} {cat k : String}
    (h : k ∈ fieldsOf u cat) : k ∈ keysA (mk_defaults u cat) := by
  unfold mk_defaults
  dsimp only
  exact append_if_missing_mem _ _ (Or.inr h)

/-- A stats dict that already contains every category of the union map with
at least the default-plus-observed field set of that category. -/
def StatsComplete (u : List (String × List String)) (st : Stats) : Prop :=
  ∀ cat ∈ keysA u, ∃ cur, lookupA st cat = some cur ∧
    ∀ k ∈ keysA (mk_defaults u cat), (lookupA cur k).isSome = true

theorem mk_defaults_keys_le {u2 u1 : List (String × List String)} {cat : String}
    (hle : UnionLE u2 u1) (hcat : cat ∈ keysA u2) :
    ∀ k ∈ keysA (mk_defaults u2 cat), k ∈ keysA (mk_defaults u1 cat) := by
  intro k hk
  rcases mk_defaults_keys_sub hk with h | h
  · exact mk_defaults_default_fields h
  · exact mk_defaults_mem_union ((hle cat hcat).2 k h)

theorem StatsComplete_mono {u2 u1 : List (String × List String)} {st : Stats}
    (hle : UnionLE u2 u1) (h : StatsComplete u1 st) : StatsComplete u2 st := by
  intro cat hcat
  obtain ⟨cur, hcur, hkeys⟩ := h cat (hle cat hcat).1
  exact ⟨cur, hcur, fun k hk => hkeys k (mk_defaults_keys_le hle hcat k hk)⟩

theorem zero_init_noop : ∀ {defaults cur : FieldMap},
    (∀ kv ∈ defaults, (lookupA cur kv.1).isSome = true) → zero_init_cat defaults cur = cur := by
  intro defaults
  induction defaults with
  | nil => intro cur _; rfl
  | cons kv rest ih =>
    intro cur h
    show zero_init_cat rest (if (lookupA cur kv.1).isNone then cur ++ [kv] else cur) = cur
    rw [if_neg ?_]
    · exact ih (fun q hq => h q (List.mem_cons_of_mem _ hq))
    · intro hnone
      have h2 := h kv (List.mem_cons_self _ _)
      rw [Option.isNone_iff_eq_none] at hnone
      rw [hnone] at h2
      simp at h2

theorem zero_init_keys_sub : ∀ {defaults cur : FieldMap} {k : String},
    k ∈ keysA (zero_init_cat defaults cur) → k ∈ keysA cur ∨ k ∈ keysA defaults := by
  intro defaults
  induction defaults with
  | nil => intro cur k h; exact Or.inl h
  | cons kv rest ih =>
    intro cur k h
    have h' : k ∈ keysA (zero_init_cat rest
        (if (lookupA cur kv.1).isNone then cur ++ [kv] else cur)) := h
    rcases ih h' with h1 | h1
    · split at h1
      · rw [keysA_append] at h1
        rcases List.mem_append.mp h1 with h2 | h2
        · exact Or.inl h2
        · right
          have hkk : k = kv.1 := by simpa [keysA] using h2
          subst hkk
          exact List.mem_cons_self _ _
      · exact Or.inl h1
    · exact Or.inr (List.mem_cons_of_mem _ h1)

theorem cat_step_complete_establishes (u : List (String × List String)) (cat : String)
    (st : Stats) :
    ∃ cur, lookupA (upsertA st cat
        (zero_init_cat (mk_defaults u cat) ((lookupA st cat).getD []))) cat = some cur ∧
      ∀ k ∈ keysA (mk_defaults u cat), (lookupA cur k).isSome = true := by
  refine ⟨_, lookupA_upsertA_self _ _ _, ?_⟩
  intro k hk
  rw [lookupA_isSome_iff_mem]
  exact zero_init_cat_mem_defaults _ hk

theorem cat_step_complete_preserves {u : List (String × List String)} {st : Stats}
    {cat c : String}
    (h : ∃ cur, lookupA st cat = some cur ∧
      ∀ k ∈ keysA (mk_defaults u cat), (lookupA cur k).isSome = true) :
    ∃ cur, lookupA (upsertA st c
        (zero_init_cat (mk_defaults u c) ((lookupA st c).getD []))) cat = some cur ∧
      ∀ k ∈ keysA (mk_defaults u cat), (lookupA cur k).isSome = true := by
  by_cases hc : c = cat
  · subst hc
    exact cat_step_complete_establishes u c st
  · obtain ⟨cur, hcur, hkeys⟩ := h
    refine ⟨cur, ?_, hkeys⟩
    rw [lookupA_upsertA_ne _ _ (Ne.symm hc)]
    exact hcur

theorem cats_fold_complete {u : List (String × List String)} :
    ∀ (cats : List String) (st : Stats) {cat : String}, cat ∈ cats →
    ∃ cur, lookupA (cats.foldl (fun st1 c =>
        upsertA st1 c (zero_init_cat (mk_defaults u c) ((lookupA st1 c).getD []))) st)
        cat = some cur ∧
      ∀ k ∈ keysA (mk_defaults u cat), (lookupA cur k).isSome = true := by
  intro cats
  induction cats with
  | nil => intro st cat h; cases h
  | cons c rest ih =>
    intro st cat hmem
    rw [List.foldl_cons]
    by_cases hr : cat ∈ rest
    · exact ih _ hr
    · have hc : cat = c := by
        rcases List.mem_cons.mp hmem with h | h
        · exact h
        · exact absurd h hr
      subst hc
      refine foldl_pres_mem (fun st1 => ∃ cur, lookupA st1 cat = some cur ∧
          ∀ k ∈ keysA (mk_defaults u cat), (lookupA cur k).isSome = true) rest _
        (fun st1 c1 _ h1 => cat_step_complete_preserves h1) ?_
      exact cat_step_complete_establishes u cat st

theorem cats_fold_noop {u : List (String × List String)} :
    ∀ (cats : List String) (st : Stats),
    (∀ c ∈ cats, ∃ cur, lookupA st c = some cur ∧
      ∀ k ∈ keysA (mk_defaults u c), (lookupA cur k).isSome = true) →
    cats.foldl (fun st1 c =>
      upsertA st1 c (zero_init_cat (mk_defaults u c) ((lookupA st1 c).getD []))) st = st := by
  intro cats
  induction cats with
  | nil => intro st _; rfl
  | cons c rest ih =>
    intro st h
    rw [List.foldl_cons]
    obtain ⟨cur, hc, hk⟩ := h c (List.mem_cons_self _ _)
    have hk' : ∀ kv ∈ mk_defaults u c, (lookupA cur kv.1).isSome = true :=
      fun kv hkv => hk kv.1 (List.mem_map_of_mem Prod.fst hkv)
    have hstep : upsertA st c (zero_init_cat (mk_defaults u c) ((lookupA st c).getD []))
        = st := by
      rw [hc]
      show upsertA st c (zero_init_cat (mk_defaults u c) cur) = st
      rw [zero_init_noop hk']
      exact upsertA_eq_self hc
    rw [hstep]
    exact ih st (fun c1 hc1 => h c1 (List.mem_cons_of_mem _ hc1))

/-! ### Growth relations on players and dicts across roster processing -/

/-- The roster key under which one roster pair is stored/looked up. -/
def pidOf (kv : String × PlayerMeta) : String :=
  if kv.2.athleteId ≠ "" then kv.2.athleteId else kv.1

/-- Backfill no-op conditions of one roster pair against a stored player. -/
def MetaNoop (meta : PlayerMeta) (p : PlayerEntry) : Prop :=
  (meta.position.truthy = true → p.position.truthy = true) ∧
  (meta.jersey.truthy = true → p.jersey.truthy = true) ∧
  (meta.headshot.truthy = true → p.headshot.truthy = true)

/-- Stats only ever gain categories and fields during roster processing. -/
def StatsLE (st st' : Stats) : Prop :=
  ∀ cat cur, lookupA st cat = some cur → ∃ cur', lookupA st' cat = some cur' ∧
    ∀ k, (lookupA cur k).isSome = true → (lookupA cur' k).isSome = true

/-- Metadata truthiness and stats presence only ever grow. -/
def PlayerLE (p p' : PlayerEntry) : Prop :=
  (p.position.truthy = true → p'.position.truthy = true) ∧
  (p.jersey.truthy = true → p'.jersey.truthy = true) ∧
  (p.headshot.truthy = true → p'.headshot.truthy = true) ∧
  StatsLE p.stats p'.stats

def DictLE (m m' : List (String × PlayerEntry)) : Prop :=
  ∀ pid p, lookupA m pid = some p → ∃ p', lookupA m' pid = some p' ∧ PlayerLE p p'

theorem StatsLE_refl (st : Stats) : StatsLE st st :=
  fun _ cur h => ⟨cur, h, fun _ hk => hk⟩

theorem StatsLE_trans {a b c : Stats} (h1 : StatsLE a b) (h2 : StatsLE b c) : StatsLE a c := by
  intro cat cur h
  obtain ⟨cur1, hc1, hk1⟩ := h1 cat cur h
  obtain ⟨cur2, hc2, hk2⟩ := h2 cat cur1 hc1
  exact ⟨cur2, hc2, fun k hk => hk2 k (hk1 k hk)⟩

theorem PlayerLE_refl (p : PlayerEntry) : PlayerLE p p :=
  ⟨id, id, id, StatsLE_refl p.stats⟩

theorem PlayerLE_trans {a b c : PlayerEntry} (h1 : PlayerLE a b) (h2 : PlayerLE b c) :
    PlayerLE a c :=
  ⟨fun h => h2.1 (h1.1 h), fun h => h2.2.1 (h1.2.1 h), fun h => h2.2.2.1 (h1.2.2.1 h),
    StatsLE_trans h1.2.2.2 h2.2.2.2⟩

theorem DictLE_refl (m : List (String × PlayerEntry)) : DictLE m m :=
  fun _ p h => ⟨p, h, PlayerLE_refl p⟩

theorem DictLE_trans {a b c : List (String × PlayerEntry)}
    (h1 : DictLE a b) (h2 : DictLE b c) : DictLE a c := by
  intro pid p h
  obtain ⟨p1, hp1, hle1⟩ := h1 pid p h
  obtain ⟨p2, hp2, hle2⟩ := h2 pid p1 hp1
  exact ⟨p2, hp2, PlayerLE_trans hle1 hle2⟩

/-- What one processed roster pair guarantees of the players dict. -/
def PairFact (u : List (String × List String)) (m : List (String × PlayerEntry))
    (kv : String × PlayerMeta) : Prop :=
  ∃ p, lookupA m (pidOf kv) = some p ∧ MetaNoop kv.2 p ∧ StatsComplete u p.stats

theorem PairFact_mono {u : List (String × List String)} {m m' : List (String × PlayerEntry)}
    {kv : String × PlayerMeta} (h : PairFact u m kv) (hle : DictLE m m') :
    PairFact u m' kv := by
  obtain ⟨p, hp, hmn, hsc⟩ := h
  obtain ⟨p', hp', hple⟩ := hle _ _ hp
  refine ⟨p', hp', ⟨fun hm => hple.1 (hmn.1 hm), fun hm => hple.2.1 (hmn.2.1 hm),
    fun hm => hple.2.2.1 (hmn.2.2 hm)⟩, ?_⟩
  intro cat hcat
  obtain ⟨cur, hcur, hkeys⟩ := hsc cat hcat
  obtain ⟨cur', hcur', hkk⟩ := hple.2.2.2 cat cur hcur
  exact ⟨cur', hcur', fun k hk => hkk k (hkeys k hk)⟩

theorem upsertA_DictLE_update {m : List (String × PlayerEntry)} {pid : String}
    {p v : PlayerEntry} (hp : lookupA m pid = some p) (hle : PlayerLE p v) :
    DictLE m (upsertA m pid v) := by
  intro pid' q hq
  by_cases hpp : pid' = pid
  · subst hpp
    have hq' : q = p := by
      rw [hq] at hp
      exact Option.some.inj hp
    subst hq'
    exact ⟨v, lookupA_upsertA_self _ _ _, hle⟩
  · exact ⟨q, by rw [lookupA_upsertA_ne _ _ hpp]; exact hq, PlayerLE_refl q⟩

theorem upsertA_DictLE_insert {m : List (String × PlayerEntry)} {pid : String}
    {v : PlayerEntry} (hnone : lookupA m pid = none) : DictLE m (upsertA m pid v) := by
  intro pid' q hq
  by_cases hpp : pid' = pid
  · subst hpp
    rw [hq] at hnone
    cases hnone
  · exact ⟨q, by rw [lookupA_upsertA_ne _ _ hpp]; exact hq, PlayerLE_refl q⟩

theorem zero_init_isSome_of_isSome {defaults cur : FieldMap} {k : String}
    (h : (lookupA cur k).isSome = true) :
    (lookupA (zero_init_cat defaults cur) k).isSome = true := by
  rw [lookupA_isSome_iff_mem] at h ⊢
  exact zero_init_cat_mem_current h

theorem cats_fold_StatsLE {u : List (String × List String)} (cats : List String)
    (st : Stats) :
    StatsLE st (cats.foldl (fun st1 c =>
      upsertA st1 c (zero_init_cat (mk_defaults u c) ((lookupA st1 c).getD []))) st) := by
  refine foldl_rel StatsLE StatsLE_refl (fun _ _ _ => StatsLE_trans) ?_ cats st
  intro st1 c
  intro cat cur hcur
  by_cases hc : cat = c
  · subst hc
    refine ⟨zero_init_cat (mk_defaults u cat) ((lookupA st1 cat).getD []),
      lookupA_upsertA_self _ _ _, ?_⟩
    intro k hk
    rw [hcur]
    exact zero_init_isSome_of_isSome hk
  · exact ⟨cur, by rw [lookupA_upsertA_ne _ _ hc]; exact hcur, fun _ hk => hk⟩

theorem upsertA2_DictLE {m : List (String × PlayerEntry)} {pid : String}
    {p v w : PlayerEntry} (hp : lookupA m pid = some p) (hle : PlayerLE p w) :
    DictLE m (upsertA (upsertA m pid v) pid w) := by
  intro pid' q hq
  by_cases hpp : pid' = pid
  · subst hpp
    rw [hq] at hp
    cases Option.some.inj hp
    exact ⟨w, lookupA_upsertA_self _ _ _, hle⟩
  · refine ⟨q, ?_, PlayerLE_refl q⟩
    rw [lookupA_upsertA_ne _ _ hpp, lookupA_upsertA_ne _ _ hpp]
    exact hq

theorem upsertA2_DictLE_insert {m : List (String × PlayerEntry)} {pid : String}
    {v w : PlayerEntry} (hnone : lookupA m pid = none) :
    DictLE m (upsertA (upsertA m pid v) pid w) := by
  intro pid' q hq
  by_cases hpp : pid' = pid
  · subst hpp
    rw [hq] at hnone
    cases hnone
  · refine ⟨q, ?_, PlayerLE_refl q⟩
    rw [lookupA_upsertA_ne _ _ hpp, lookupA_upsertA_ne _ _ hpp]
    exact hq

theorem process_roster_player_DictLE (u : List (String × List String)) (ac : List String)
    (m : List (String × PlayerEntry)) (kv : String × PlayerMeta) :
    DictLE m (process_roster_player u ac m kv) := by
  unfold process_roster_player
  dsimp only
  cases hl : lookupA m (if kv.2.athleteId ≠ "" then kv.2.athleteId else kv.1) with
  | none =>
    dsimp only
    rw [lookupA_upsertA_self]
    dsimp only
    exact upsertA2_DictLE_insert hl
  | some p =>
    dsimp only
    rw [lookupA_upsertA_self]
    dsimp only
    refine upsertA2_DictLE hl ?_
    split_ifs <;>
      exact ⟨by intro hx; simp_all, by intro hx; simp_all, by intro hx; simp_all,
        cats_fold_StatsLE ac _⟩

theorem process_roster_player_post (u : List (String × List String))
    (m : List (String × PlayerEntry)) (kv : String × PlayerMeta) :
    PairFact u (process_roster_player u (keysA u) m kv) kv := by
  unfold process_roster_player PairFact
  dsimp only
  cases hl : lookupA m (if kv.2.athleteId ≠ "" then kv.2.athleteId else kv.1) with
  | none =>
    dsimp only
    rw [lookupA_upsertA_self]
    dsimp only
    refine ⟨_, lookupA_upsertA_self _ _ _, ⟨fun h => h, fun h => h, fun h => h⟩, ?_⟩
    intro cat hcat
    exact cats_fold_complete (keysA u) _ hcat
  | some p =>
    dsimp only
    rw [lookupA_upsertA_self]
    dsimp only
    refine ⟨_, lookupA_upsertA_self _ _ _, ⟨?_, ?_, ?_⟩, ?_⟩
    · intro hm
      split_ifs <;> simp_all
    · intro hm
      split_ifs <;> simp_all
    · intro hm
      split_ifs <;> simp_all
    · intro cat hcat
      exact cats_fold_complete (keysA u) _ hcat

theorem process_roster_player_noop {u : List (String × List String)}
    {m : List (String × PlayerEntry)} {kv : String × PlayerMeta}
    (h : PairFact u m kv) : process_roster_player u (keysA u) m kv = m := by
  obtain ⟨p, hp, hmn, hsc⟩ := h
  have hp' : lookupA m (if kv.2.athleteId ≠ "" then kv.2.athleteId else kv.1) = some p := hp
  have hpos : (!p.position.truthy && kv.2.position.truthy) = false := by
    cases h1 : kv.2.position.truthy
    · simp
    · simp [hmn.1 h1]
  have hjer : (!p.jersey.truthy && kv.2.jersey.truthy) = false := by
    cases h1 : kv.2.jersey.truthy
    · simp
    · simp [hmn.2.1 h1]
  have hhead : (!p.headshot.truthy && kv.2.headshot.truthy) = false := by
    cases h1 : kv.2.headshot.truthy
    · simp
    · simp [hmn.2.2 h1]
  unfold process_roster_player
  dsimp only
  rw [hp']
  dsimp only
  simp only [hpos, hjer, hhead, Bool.false_eq_true, if_false]
  rw [upsertA_eq_self hp']
  rw [hp']
  dsimp only
  rw [cats_fold_noop (keysA u) p.stats hsc]
  exact upsertA_eq_self hp'

/-- A roster pair whose storage key matches the player-identity key of the
entry it inserts (what `_load_roster_players` guarantees). -/
def PairConsistent (kv : String × PlayerMeta) : Prop :=
  kv.2.athleteId = "" → kv.1 = "name:" ++ pyStr kv.2.fullName

theorem process_roster_player_keyed {u : List (String × List String)} {ac : List String}
    {m : List (String × PlayerEntry)} {kv : String × PlayerMeta}
    (hcons : PairConsistent kv) (h : ∀ q ∈ m, q.1 = keyFor q.2) :
    ∀ q ∈ process_roster_player u ac m kv, q.1 = keyFor q.2 := by
  unfold process_roster_player
  dsimp only
  cases hl : lookupA m (if kv.2.athleteId ≠ "" then kv.2.athleteId else kv.1) with
  | none =>
    dsimp only
    rw [lookupA_upsertA_self]
    dsimp only
    have hkey : (if kv.2.athleteId ≠ "" then kv.2.athleteId else kv.1)
        = keyFor ⟨kv.2.athleteId, kv.2.fullName, kv.2.position, kv.2.jersey,
            kv.2.headshot, []⟩ := by
      unfold keyFor
      dsimp only
      by_cases ha : kv.2.athleteId ≠ ""
      · simp [ha]
      · rw [if_neg ha, if_neg ha]
        exact hcons (not_not.mp ha)
    intro q hq
    rcases mem_upsertA hq with h1 | h1
    · rw [h1]
      exact hkey
    · rcases mem_upsertA h1 with h2 | h2
      · rw [h2]
        exact hkey
      · exact h q h2
  | some p =>
    dsimp only
    rw [lookupA_upsertA_self]
    dsimp only
    have hpid : (if kv.2.athleteId ≠ "" then kv.2.athleteId else kv.1) = keyFor p :=
      h _ (lookupA_some_mem hl)
    intro q hq
    rcases mem_upsertA hq with h1 | h1
    · rw [h1]
      rw [hpid]
      split_ifs <;> rfl
    · rcases mem_upsertA h1 with h2 | h2
      · rw [h2]
        rw [hpid]
        split_ifs <;> rfl
      · exact h q h2

theorem base_fields_le {u : List (String × List String)} {c k : String}
    (hb : UnionLE defaultShape u)
    (h : k ∈ keysA ((lookupA DEFAULT_CATEGORIES c).getD [])) : k ∈ fieldsOf u c := by
  cases hD : lookupA DEFAULT_CATEGORIES c with
  | none =>
    rw [hD] at h
    cases h
  | some fm =>
    rw [hD] at h
    have hcD : c ∈ keysA DEFAULT_CATEGORIES :=
      (lookupA_isSome_iff_mem _ _).mp (by simp [hD])
    have hcS : c ∈ keysA defaultShape := by
      show c ∈ keysA (statsShape DEFAULT_CATEGORIES)
      unfold statsShape
      rw [keysA_map_pair]
      exact hcD
    have hf : k ∈ fieldsOf defaultShape c := by
      show k ∈ ((lookupA (statsShape DEFAULT_CATEGORIES) c).getD [])
      rw [lookupA_statsShape, hD]
      exact h
    exact (hb c hcS).2 k hf

theorem cats_fold_bounded {u : List (String × List String)} (hb : UnionLE defaultShape u)
    {st : Stats} (h : StatsBounded u st) :
    StatsBounded u ((keysA u).foldl (fun st1 c =>
      upsertA st1 c (zero_init_cat (mk_defaults u c) ((lookupA st1 c).getD []))) st) := by
  refine foldl_pres_mem (fun st1 => StatsBounded u st1) (keysA u) st
    (fun st1 c hc h1 => ?_) h
  intro cs hcs
  rcases mem_upsertA hcs with h2 | h2
  · rw [h2]
    refine ⟨hc, ?_⟩
    intro fv hfv
    have hkk : fv.1 ∈ keysA (zero_init_cat (mk_defaults u c) ((lookupA st1 c).getD [])) :=
      List.mem_map_of_mem Prod.fst hfv
    rcases zero_init_keys_sub hkk with h3 | h3
    · cases hlc : lookupA st1 c with
      | none =>
        rw [hlc] at h3
        cases h3
      | some cur =>
        rw [hlc] at h3
        rcases List.mem_map.mp h3 with ⟨q, hq, hq1⟩
        have := (h1 (c, cur) (lookupA_some_mem hlc)).2 q hq
        rw [hq1] at this
        exact this
    · rcases mk_defaults_keys_sub h3 with h4 | h4
      · exact base_fields_le hb h4
      · exact h4
  · exact h1 cs h2

theorem process_roster_player_bounded {u : List (String × List String)}
    {m : List (String × PlayerEntry)} {kv : String × PlayerMeta}
    (hb : UnionLE defaultShape u) (h : ∀ q ∈ m, StatsBounded u q.2.stats) :
    ∀ q ∈ process_roster_player u (keysA u) m kv, StatsBounded u q.2.stats := by
  unfold process_roster_player
  dsimp only
  cases hl : lookupA m (if kv.2.athleteId ≠ "" then kv.2.athleteId else kv.1) with
  | none =>
    dsimp only
    rw [lookupA_upsertA_self]
    dsimp only
    intro q hq
    rcases mem_upsertA hq with h1 | h1
    · rw [h1]
      exact cats_fold_bounded hb (by intro cs hcs; cases hcs)
    · rcases mem_upsertA h1 with h2 | h2
      · rw [h2]
        intro cs hcs
        cases hcs
      · exact h q h2
  | some p =>
    dsimp only
    rw [lookupA_upsertA_self]
    dsimp only
    have hpb : StatsBounded u p.stats := h _ (lookupA_some_mem hl)
    intro q hq
    rcases mem_upsertA hq with h1 | h1
    · rw [h1]
      split_ifs <;> exact cats_fold_bounded hb hpb
    · rcases mem_upsertA h1 with h2 | h2
      · rw [h2]
        split_ifs <;> exact hpb
      · exact h q h2

/-- The merge-relevant identity of a team entry: abbreviation and team id. -/
def teamProj (t : TeamEntry) : Json × String := (t.abbreviation, t.teamId)

theorem normalize_players_proj (t : TeamEntry) :
    teamProj (normalize_players t) = teamProj t := by
  unfold normalize_players
  split
  · rfl
  · split <;> rfl

theorem sort_players_proj {t t' : TeamEntry} (h : sort_players t = .ok t') :
    teamProj t' = teamProj t := by
  unfold sort_players at h
  split at h
  · obtain ⟨keyed, hk, h⟩ := except_bind_ok h
    cases h
    rfl
  · cases h
    rfl

/-- `_merge_roster_zero_init`'s team-lookup step, factored through `teamProj`. -/
def btlF (lk : List (String × Nat)) (it : Nat × (Json × String)) : List (String × Nat) :=
  let lk1 := match it.2.1 with
    | .str s => if s ≠ "" then upsertA (upsertA lk s it.1) (pyUpper s) it.1 else lk
    | _ => lk
  if it.2.2 ≠ "" then upsertA lk1 it.2.2 it.1 else upsertA lk1 it.2.2 it.1

theorem build_team_lookup_eq (ts : List TeamEntry) :
    build_team_lookup ts = ts.enum.foldl (fun lk it => btlF lk (it.1, teamProj it.2)) [] :=
  rfl

theorem enum_foldl_proj_congr {β : Type} (g : TeamEntry → β)
    {α : Type} (f : α → Nat × β → α) :
    ∀ (ts ts' : List TeamEntry), ts.map g = ts'.map g → ∀ (n : Nat) (a : α),
    (List.enumFrom n ts).foldl (fun acc it => f acc (it.1, g it.2)) a
      = (List.enumFrom n ts').foldl (fun acc it => f acc (it.1, g it.2)) a := by
  intro ts
  induction ts with
  | nil =>
    intro ts' h n a
    cases ts' with
    | nil => rfl
    | cons t' rest' => simp at h
  | cons t rest ih =>
    intro ts' h n a
    cases ts' with
    | nil => simp at h
    | cons t' rest' =>
      simp only [List.map_cons, List.cons.injEq] at h
      simp only [List.enumFrom, List.foldl_cons]
      rw [h.1]
      exact ih rest' h.2 (n + 1) (f a (n, g t'))

theorem build_team_lookup_congr {ts ts' : List TeamEntry}
    (h : ts.map teamProj = ts'.map teamProj) :
    build_team_lookup ts = build_team_lookup ts' := by
  rw [build_team_lookup_eq, build_team_lookup_eq]
  exact enum_foldl_proj_congr teamProj btlF ts ts' h 0 []

theorem get?_set_self {α : Type} : ∀ {l : List α} {i : Nat} {a b : α},
    l.get? i = some a → (l.set i b).get? i = some b := by
  intro l
  induction l with
  | nil => intro i a b h; cases h
  | cons x rest ih =>
    intro i a b h
    cases i with
    | zero => rfl
    | succ n => exact ih h

theorem get?_set_ne {α : Type} : ∀ {l : List α} {i j : Nat} (b : α), i ≠ j →
    (l.set i b).get? j = l.get? j := by
  intro l
  induction l with
  | nil => intro i j b _; rfl
  | cons x rest ih =>
    intro i j b h
    cases i with
    | zero =>
      cases j with
      | zero => exact absurd rfl h
      | succ m => rfl
    | succ n =>
      cases j with
      | zero => rfl
      | succ m => exact ih b (fun hc => h (congrArg Nat.succ hc))

theorem foldl_noop {α β : Type} {f : α → β → α} :
    ∀ (l : List β) (a : α), (∀ b ∈ l, f a b = a) → l.foldl f a = a := by
  intro l
  induction l with
  | nil => intro a _; rfl
  | cons x rest ih =>
    intro a h
    rw [List.foldl_cons, h x (List.mem_cons_self _ _)]
    exact ih a (fun b hb => h b (List.mem_cons_of_mem _ hb))

/-- The team resolution of one roster-map key. -/
def resolveIdx (lk : List (String × Nat)) (key : String) : Option Nat :=
  match lookupA lk key with
  | some i => some i
  | none => lookupA lk (pyUpper key)

/-- Backward growth relation on team lists across roster-entry processing. -/
def TeamsDictLE (ts ts' : List TeamEntry) : Prop :=
  ∀ i t', ts'.get? i = some t' → ∃ t, ts.get? i = some t ∧
    ∀ m, t.players = .dict m → ∃ m', t'.players = .dict m' ∧ DictLE m m'

theorem TeamsDictLE_refl (ts : List TeamEntry) : TeamsDictLE ts ts :=
  fun _ t' h => ⟨t', h, fun m hm => ⟨m, hm, DictLE_refl m⟩⟩

theorem TeamsDictLE_trans {a b c : List TeamEntry}
    (h1 : TeamsDictLE a b) (h2 : TeamsDictLE b c) : TeamsDictLE a c := by
  intro i t'' h
  obtain ⟨t', h', hd'⟩ := h2 i t'' h
  obtain ⟨t, ht, hd⟩ := h1 i t' h'
  refine ⟨t, ht, fun m hm => ?_⟩
  obtain ⟨m', hm', hle⟩ := hd m hm
  obtain ⟨m'', hm'', hle'⟩ := hd' m' hm'
  exact ⟨m'', hm'', DictLE_trans hle hle'⟩

/-- What processing one roster entry guarantees afterwards: the resolved
team's dict settles every pair of the entry. -/
def EntryFact (lk : List (String × Nat)) (u : List (String × List String))
    (e : String × List (String × PlayerMeta)) (ts : List TeamEntry) : Prop :=
  ∀ i, resolveIdx lk e.1 = some i → ∀ t, ts.get? i = some t →
    ∃ m, t.players = .dict m ∧ ∀ kv ∈ e.2, PairFact u m kv

theorem EntryFact_mono {lk : List (String × Nat)} {u : List (String × List String)}
    {e : String × List (String × PlayerMeta)} {ts ts' : List TeamEntry}
    (h : EntryFact lk u e ts) (hle : TeamsDictLE ts ts') : EntryFact lk u e ts' := by
  intro i hres t' hts'
  obtain ⟨t, hts, hdict⟩ := hle i t' hts'
  obtain ⟨m, hm, hpairs⟩ := h i hres t hts
  obtain ⟨m', hm', hdle⟩ := hdict m hm
  exact ⟨m', hm', fun kv hkv => PairFact_mono (hpairs kv hkv) hdle⟩

theorem process_roster_entry_rel {lk : List (String × Nat)}
    {u : List (String × List String)} {ac : List String} {ts out : List TeamEntry}
    {e : String × List (String × PlayerMeta)}
    (hok : process_roster_entry lk u ac ts e = .ok out) : TeamsDictLE ts out := by
  unfold process_roster_entry at hok
  dsimp only at hok
  split at hok
  · cases hok; exact TeamsDictLE_refl _
  · rename_i i0 hres0
    split at hok
    · cases hok; exact TeamsDictLE_refl _
    · rename_i t0 hget0
      split at hok
      · cases hok
      · rename_i m hply
        cases hok
        intro j tj hj
        by_cases hij : i0 = j
        · subst hij
          rw [get?_set_self hget0] at hj
          cases hj
          refine ⟨t0, hget0, fun m0 hm0 => ?_⟩
          rw [hply] at hm0
          cases hm0
          refine ⟨_, rfl, ?_⟩
          exact foldl_rel DictLE DictLE_refl (fun _ _ _ => DictLE_trans)
            (fun mm kvp => process_roster_player_DictLE u ac mm kvp) e.2 m
        · rw [get?_set_ne _ hij] at hj
          exact ⟨tj, hj, fun m0 hm0 => ⟨m0, hm0, DictLE_refl m0⟩⟩

theorem process_roster_entry_post {lk : List (String × Nat)}
    {u : List (String × List String)} {ts out : List TeamEntry}
    {e : String × List (String × PlayerMeta)}
    (hok : process_roster_entry lk u (keysA u) ts e = .ok out) : EntryFact lk u e out := by
  unfold process_roster_entry at hok
  dsimp only at hok
  split at hok
  · rename_i hres0
    cases hok
    intro i hres
    have hres' : (match lookupA lk e.1 with
        | some j => some j
        | none => lookupA lk (pyUpper e.1)) = some i := hres
    rw [hres0] at hres'
    cases hres'
  · rename_i i0 hres0
    split at hok
    · rename_i hget0
      cases hok
      intro i hres t ht
      have hres' : (match lookupA lk e.1 with
          | some j => some j
          | none => lookupA lk (pyUpper e.1)) = some i := hres
      rw [hres0] at hres'
      cases hres'
      rw [ht] at hget0
      cases hget0
    · rename_i t0 hget0
      split at hok
      · cases hok
      · rename_i m hply
        cases hok
        intro i hres t ht
        have hres' : (match lookupA lk e.1 with
            | some j => some j
            | none => lookupA lk (pyUpper e.1)) = some i := hres
        rw [hres0] at hres'
        cases hres'
        rw [get?_set_self hget0] at ht
        cases ht
        refine ⟨_, rfl, ?_⟩
        intro kv hkv
        exact foldl_estab DictLE (fun kvp mm => PairFact u mm kvp) DictLE_refl
          (fun _ _ _ => DictLE_trans)
          (fun mm kvp => process_roster_player_DictLE u (keysA u) mm kvp)
          (fun mm kvp => process_roster_player_post u mm kvp)
          (fun kvp mm mm' hq hle => PairFact_mono hq hle)
          e.2 m kv hkv

theorem process_roster_entry_noop {lk : List (String × Nat)}
    {u : List (String × List String)} {ts : List TeamEntry}
    {e : String × List (String × PlayerMeta)}
    (hfact : EntryFact lk u e ts) :
    process_roster_entry lk u (keysA u) ts e = .ok ts := by
  unfold process_roster_entry
  dsimp only
  cases hres : (match lookupA lk e.1 with
      | some j => some j
      | none => lookupA lk (pyUpper e.1)) with
  | none => rfl
  | some i =>
    dsimp only
    cases hget : ts.get? i with
    | none => rfl
    | some t =>
      dsimp only
      have hres' : resolveIdx lk e.1 = some i := hres
      obtain ⟨m, hm, hpairs⟩ := hfact i hres' t hget
      rw [hm]
      dsimp only
      have hm2 : e.2.foldl (process_roster_player u (keysA u)) m = m :=
        foldl_noop e.2 m (fun kv hkv => process_roster_player_noop (hpairs kv hkv))
      rw [hm2]
      have ht : { t with players := PlayersCont.dict m } = t := by rw [← hm]
      rw [ht, list_set_self hget]

end P2P
